import Mathlib

/-!
# replyzer: discovery and classification pipeline

A shallow embedding of `internal/analyzer/analyzer.go`, `discovery.go`,
`language.go`, `version.go` and `dependency.go`, with the properties of the
component classifier, the exclusion filter, the structure discoverer, the language
classifier, the framework detector, the version extractor and the external
dependency detector.

Go strings are embedded as Lean strings and inspected through their character
lists.  Functions of the Go standard library keep their package name as a
prefix (`strings_Contains` is `strings.Contains`).
-/

namespace Replyzer

deriving instance DecidableEq for Except

/-! ## Go `strings` primitives -/

/-- Go `strings.HasPrefix` on character lists. -/
def hasPrefixChars : List Char → List Char → Bool
  | _, [] => true
  | [], _ :: _ => false
  | c :: cs, p :: ps => c == p && hasPrefixChars cs ps

/-- Go `strings.Contains` on character lists: `sub` starts at some position of `s`. -/
def containsChars : List Char → List Char → Bool
  | [], sub => hasPrefixChars [] sub
  | c :: cs, sub => hasPrefixChars (c :: cs) sub || containsChars cs sub

/-- Go `strings.HasPrefix`. -/
def strings_HasPrefix (s pre : String) : Bool := hasPrefixChars s.data pre.data

/-- Go `strings.HasSuffix`. -/
def strings_HasSuffix (s suf : String) : Bool :=
  hasPrefixChars s.data.reverse suf.data.reverse

/-- Go `strings.Contains`. -/
def strings_Contains (s sub : String) : Bool := containsChars s.data sub.data

/-- The ASCII part of Go `strings.ToLower`, used to run the classifier on
concrete inputs.  The classifier itself takes the lower-casing function as an
argument, so its theorems hold for the full Unicode mapping as well. -/
def strings_ToLower_ascii (s : String) : String := ⟨s.data.map Char.toLower⟩

/-! ## Component classifier (`analyzer.go`) -/

/-- The local `webFrameworks` slice of `inferComponentType`. -/
def webFrameworks : List String := ["react", "vue", "angular", "next.js", "nuxt"]

/-- The local `apiFrameworks` slice of `inferComponentType`. -/
def apiFrameworks : List String :=
  ["express", "fastify", "nest", "django", "fastapi", "flask", "spring", "springboot",
   "gin", "echo", "fiber"]

/-- Go `hasConfigFile`: exact membership of `targetFile` in `configFiles`. -/
def hasConfigFile : List String → String → Bool
  | [], _ => false
  | file :: rest, targetFile => if file = targetFile then true else hasConfigFile rest targetFile

/-- The `switch langLower` statement of `inferComponentType`: `some role` when a
case returns, `none` when control falls out of the switch. -/
def languageSwitch (langLower : String) (configFiles : List String) : Option String :=
  if langLower = "javascript" ∨ langLower = "typescript" then
    if hasConfigFile configFiles "package.json" then some "web-application" else none
  else if langLower = "python" then
    if hasConfigFile configFiles "requirements.txt" || hasConfigFile configFiles "pyproject.toml"
    then some "api-service" else none
  else if langLower = "java" then
    if hasConfigFile configFiles "pom.xml" || hasConfigFile configFiles "build.gradle"
    then some "api-service" else none
  else if langLower = "go" then
    if hasConfigFile configFiles "go.mod" then some "api-service" else none
  else if langLower = "rust" then
    if hasConfigFile configFiles "Cargo.toml" then some "application" else none
  else if langLower = "c#" then
    if configFiles.any (fun file => strings_HasSuffix file ".csproj") then some "api-service"
    else none
  else none

/-- Go `inferComponentType`.  `toLower` stands for `strings.ToLower`. -/
def inferComponentType (toLower : String → String) (primaryLang framework : String)
    (configFiles : List String) : String :=
  let langLower := toLower primaryLang
  let frameworkLower := toLower framework
  if webFrameworks.any (fun fw => strings_Contains frameworkLower fw) then "web-application"
  else if apiFrameworks.any (fun fw => strings_Contains frameworkLower fw) then "api-service"
  else if hasConfigFile configFiles "docker-compose.yml"
      || hasConfigFile configFiles "docker-compose.yaml" then "service"
  else
    match languageSwitch langLower configFiles with
    | some role => role
    | none => if primaryLang = "" then "configuration" else "library"

/-- The test `err == nil && matched` on the two results of `filepath.Match`. -/
def matchedNoErr : Except Unit Bool → Bool
  | Except.ok matched => matched
  | Except.error _ => false

/-- Go `shouldExcludeComponent`.  `fpMatch` stands for `filepath.Match`
(`Except.ok matched` when `err == nil`). -/
def shouldExcludeComponent (fpMatch : String → String → Except Unit Bool)
    (relativePath : String) : List String → Bool
  | [] => false
  | pattern :: rest =>
    if matchedNoErr (fpMatch pattern relativePath) then true
    else if strings_Contains relativePath pattern then true
    else shouldExcludeComponent fpMatch relativePath rest

/-! ## Go `path/filepath` primitives

`filepath_Match` is a port of `path/filepath/match.go` (Unix build) on character
lists; the repository functions take the matcher as an argument and the port is
used to run them. -/

/-- Go `getEsc`: the next, possibly escaped, character of a character class and
the chunk after it; `none` is `ErrBadPattern`. -/
def getEsc : List Char → Option (Char × List Char)
  | [] => none
  | c :: rest =>
    if c = '-' ∨ c = ']' then none
    else if c = '\\' then
      match rest with
      | [] => none
      | r :: nchunk => if nchunk.isEmpty then none else some (r, nchunk)
    else if rest.isEmpty then none else some (c, rest)

/-- The `for` loop over the ranges of a character class in `matchChunk`: the chunk
after the closing bracket and whether `r` lies in one of the ranges; `none` is
`ErrBadPattern`.  Every round consumes a character of the chunk, so a fuel of
`chunk.length + 1` is never used up. -/
def matchClass (r : Char) : Nat → List Char → Nat → Bool → Option (List Char × Bool)
  | 0, _, _, _ => none
  | fuel + 1, chunk, nrange, matched =>
    if chunk.head? = some ']' ∧ 0 < nrange then some (chunk.tail, matched)
    else
      match getEsc chunk with
      | none => none
      | some (lo, chunk1) =>
        if chunk1.head? = some '-' then
          match getEsc chunk1.tail with
          | none => none
          | some (hi, chunk2) =>
            matchClass r fuel chunk2 (nrange + 1) (matched || (decide (lo ≤ r) && decide (r ≤ hi)))
        else matchClass r fuel chunk1 (nrange + 1) (matched || (decide (lo ≤ r) && decide (r ≤ lo)))

/-- The loop of Go `matchChunk` with its `failed` flag: `Except.error` is
`ErrBadPattern`, `Except.ok none` is no match, `Except.ok (some rest)` is a match
leaving `rest` of `s`. -/
def matchChunkLoop : Nat → List Char → List Char → Bool → Except Unit (Option (List Char))
  | 0, _, _, _ => Except.error ()
  | fuel + 1, chunk, s, failed0 =>
    match chunk with
    | [] => if failed0 then Except.ok none else Except.ok (some s)
    | c :: chunk1 =>
      let failed := failed0 || s.isEmpty
      let s1 := if failed then s else s.tail
      if c = '[' then
        let r := if failed then Char.ofNat 0 else s.headD (Char.ofNat 0)
        let negated := decide (chunk1.head? = some '^')
        let chunk2 := if negated then chunk1.tail else chunk1
        match matchClass r (chunk2.length + 1) chunk2 0 false with
        | none => Except.error ()
        | some (chunk3, m) => matchChunkLoop fuel chunk3 s1 (failed || (m == negated))
      else if c = '?' then
        matchChunkLoop fuel chunk1 s1 (failed || decide (s.head? = some '/'))
      else if c = '\\' then
        match chunk1 with
        | [] => Except.error ()
        | e :: chunk2 => matchChunkLoop fuel chunk2 s1 (failed || decide (s.head? ≠ some e))
      else
        matchChunkLoop fuel chunk1 s1 (failed || decide (s.head? ≠ some c))

/-- Go `matchChunk`. -/
def matchChunk (chunk s : List Char) : Except Unit (Option (List Char)) :=
  matchChunkLoop (chunk.length + 1) chunk s false

/-- The `Scan` loop of Go `scanChunk`: splits a pattern without leading stars into
its first chunk and the rest, which is empty or begins with a star outside a
character class. -/
def scanChunkBody : List Char → Bool → List Char × List Char
  | [], _ => ([], [])
  | c :: rest, inrange =>
    if c = '\\' then
      match rest with
      | [] => ([c], [])
      | e :: rest1 => let r := scanChunkBody rest1 inrange; (c :: e :: r.1, r.2)
    else if c = '[' then let r := scanChunkBody rest true; (c :: r.1, r.2)
    else if c = ']' then let r := scanChunkBody rest false; (c :: r.1, r.2)
    else if c = '*' ∧ inrange = false then ([], c :: rest)
    else let r := scanChunkBody rest inrange; (c :: r.1, r.2)

/-- Go `scanChunk`: `(star, chunk, rest)`. -/
def scanChunk (pattern : List Char) : Bool × List Char × List Char :=
  let stripped := pattern.dropWhile (fun c => c = '*')
  (decide (pattern.head? = some '*'), scanChunkBody stripped false)

/-- The star loop of Go `Match`: tries the chunk after skipping one more character of
`name` each round, never skipping a separator. -/
def starScan (chunk : List Char) (lastChunk : Bool) :
    List Char → Except Unit (Option (List Char))
  | [] => Except.ok none
  | c :: name1 =>
    if c = '/' then Except.ok none
    else
      match matchChunk chunk name1 with
      | Except.error e => Except.error e
      | Except.ok none => starScan chunk lastChunk name1
      | Except.ok (some t) =>
        if lastChunk && !t.isEmpty then starScan chunk lastChunk name1
        else Except.ok (some t)

/-- The `Pattern` loop of Go `Match`.  Every round removes a chunk from the pattern,
so a fuel of `pattern.length + 1` is never used up. -/
def matchLoop : Nat → List Char → List Char → Except Unit Bool
  | 0, _, _ => Except.error ()
  | fuel + 1, pattern, name =>
    if pattern.isEmpty then Except.ok name.isEmpty
    else
      let sc := scanChunk pattern
      let star := sc.1
      let chunk := sc.2.1
      let rest := sc.2.2
      if star && chunk.isEmpty then Except.ok (!name.contains '/')
      else
        let viaStar : Except Unit Bool :=
          if star then
            match starScan chunk rest.isEmpty name with
            | Except.error e => Except.error e
            | Except.ok none => Except.ok false
            | Except.ok (some t) => matchLoop fuel rest t
          else Except.ok false
        match matchChunk chunk name with
        | Except.error e => Except.error e
        | Except.ok none => viaStar
        | Except.ok (some t) =>
          if t.isEmpty || !rest.isEmpty then matchLoop fuel rest t else viaStar

/-- Go `filepath.Match(pattern, name)`: `Except.error` is `ErrBadPattern`. -/
def filepath_Match (pattern name : String) : Except Unit Bool :=
  matchLoop (pattern.data.length + 1) pattern.data name.data

/-- Go `filepath.Base` (Unix). -/
def filepath_Base (path : String) : String :=
  if path = "" then "."
  else
    let stripped := path.data.reverse.dropWhile (fun c => c = '/')
    let last := (stripped.takeWhile (fun c => c ≠ '/')).reverse
    if last.isEmpty then "/" else ⟨last⟩

/-- Go `filepath.Dir` (Unix) on a Clean path: everything before the last separator,
`/` for an entry of the root directory and `.` for a path without separator. -/
def filepath_Dir (path : String) : String :=
  let upto := path.data.reverse.dropWhile (fun c => c ≠ '/')
  let dir := (upto.dropWhile (fun c => c = '/')).reverse
  if upto.isEmpty then "." else if dir.isEmpty then "/" else ⟨dir⟩

/-- Go `filepath.Join(path, name)` (Unix) for a Clean path and a single file name. -/
def filepath_Join (path name : String) : String :=
  if strings_HasSuffix path "/" then path ++ name else path ++ "/" ++ name

/-- Go `strings.Split(s, "/")` on character lists. -/
def splitSep : List Char → List (List Char)
  | [] => [[]]
  | c :: cs =>
    if c = '/' then [] :: splitSep cs
    else
      match splitSep cs with
      | [] => [[c]]
      | part :: parts => (c :: part) :: parts

/-- Go `strings.Split(s, string(filepath.Separator))`. -/
def strings_Split (s : String) : List String := (splitSep s.data).map String.mk

/-! ## File system and Go `filepath.Walk` -/

/-- An entry of the file system as `filepath.Walk` sees it: what `os.Lstat` reports
for it and, for a directory, what reading it gives. -/
inductive FsNode where
  /-- An entry that `os.Lstat` reports as something other than a directory. -/
  | file (name : String) : FsNode
  /-- A directory; `readable = false` when listing its entries fails. -/
  | dir (name : String) (readable : Bool) (entries : List FsNode) : FsNode
  /-- An entry on which `os.Lstat` fails (for the root: a path that does not exist). -/
  | noStat (name : String) : FsNode
  deriving Repr

/-- The base name of an entry (`info.Name()`). -/
def FsNode.name : FsNode → String
  | FsNode.file name => name
  | FsNode.dir name _ _ => name
  | FsNode.noStat name => name

/-- Whether `os.Lstat` reports a directory (`info.IsDir()`). -/
def FsNode.isDir : FsNode → Bool
  | FsNode.dir _ _ _ => true
  | _ => false

/-- The `error` a `filepath.WalkFunc` returns. -/
inductive WalkError where
  | nil : WalkError
  | SkipDir : WalkError
  | other (msg : String) : WalkError
  deriving DecidableEq, Repr

/-- The arguments `(path, info, err)` of a `filepath.WalkFunc` call.  The path is
`filepath.Join(root, rel...)`, kept as the list `rel` of entry names below the
root; `failed` is `err != nil`. -/
structure WalkEntry where
  rel : List String
  name : String
  isDir : Bool
  failed : Bool
  deriving DecidableEq, Repr

mutual
/-- Go `walk` of `path/filepath/path.go`, threading the state `σ` that the
callback closes over. -/
def walk {σ : Type} (walkFn : σ → WalkEntry → WalkError × σ) (rel : List String) :
    FsNode → σ → WalkError × σ
  | FsNode.file name, st => walkFn st ⟨rel, name, false, false⟩
  | FsNode.noStat name, st => walkFn st ⟨rel, name, false, true⟩
  | FsNode.dir name readable entries, st =>
    let r := walkFn st ⟨rel, name, true, !readable⟩
    if !readable || r.1 ≠ WalkError.nil then r
    else walkEntries walkFn rel entries r.2
/-- The loop over the names of a directory in Go `walk`. -/
def walkEntries {σ : Type} (walkFn : σ → WalkEntry → WalkError × σ) (rel : List String) :
    List FsNode → σ → WalkError × σ
  | [], st => (WalkError.nil, st)
  | FsNode.noStat name :: rest, st =>
    let r := walkFn st ⟨rel ++ [name], name, false, true⟩
    if r.1 ≠ WalkError.nil ∧ r.1 ≠ WalkError.SkipDir then r
    else walkEntries walkFn rel rest r.2
  | FsNode.file name :: rest, st =>
    let r := walk walkFn (rel ++ [name]) (FsNode.file name) st
    if r.1 ≠ WalkError.nil then r
    else walkEntries walkFn rel rest r.2
  | FsNode.dir name readable entries :: rest, st =>
    let r := walk walkFn (rel ++ [name]) (FsNode.dir name readable entries) st
    if r.1 ≠ WalkError.nil ∧ r.1 ≠ WalkError.SkipDir then r
    else walkEntries walkFn rel rest r.2
end

/-- Go `filepath.Walk(root, fn)`: the error it returns and the final state. -/
def filepath_Walk {σ : Type} (walkFn : σ → WalkEntry → WalkError × σ) (root : FsNode)
    (st : σ) : WalkError × σ :=
  let r := walk walkFn [] root st
  if r.1 = WalkError.SkipDir then (WalkError.nil, r.2) else r

/-! ## Structure discoverer (`discovery.go`) -/

/-- Go `types.ComponentInfo`. -/
structure ComponentInfo where
  Name : String
  Path : String
  ConfigFiles : List String
  RelativePath : String
  deriving DecidableEq, Repr

/-- Go `types.ProjectStructure` (`Type_` is the field `Type`). -/
structure ProjectStructure where
  Type_ : String
  Components : List ComponentInfo
  deriving DecidableEq, Repr

/-- The package variable `configFiles` of `discovery.go`. -/
def configFiles : List String :=
  ["package.json", "requirements.txt", "pyproject.toml", "pom.xml", "build.gradle",
   "Cargo.toml", "go.mod", "*.csproj", "docker-compose.yml", "docker-compose.yaml"]

/-- The loop of Go `isConfigFile` over a list of patterns. -/
def isConfigFileIn (fpMatch : String → String → Except Unit Bool) (fileName : String) :
    List String → Bool
  | [] => false
  | pattern :: rest =>
    if pattern = fileName then true
    else if strings_Contains pattern "*" && matchedNoErr (fpMatch pattern fileName) then true
    else isConfigFileIn fpMatch fileName rest

/-- Go `isConfigFile`. -/
def isConfigFile (fpMatch : String → String → Except Unit Bool) (fileName : String) : Bool :=
  isConfigFileIn fpMatch fileName configFiles

/-- The local `skipDirs` slice of `shouldSkipDir`. -/
def skipDirs : List String :=
  [".git", "node_modules", ".venv", "venv", "__pycache__", ".pytest_cache", "target",
   "build", "dist", ".next", ".nuxt", "coverage", ".coverage", "bin", "obj"]

/-- Go `shouldSkipDir`. -/
def shouldSkipDir (dirName : String) : Bool :=
  if skipDirs.any (fun skip => dirName = skip) then true
  else strings_HasPrefix dirName "."

/-- Go `getComponentName`. -/
def getComponentName (fullPath relativePath : String) : String :=
  if relativePath = "" then filepath_Base fullPath
  else
    match (strings_Split relativePath).getLast? with
    | some part => part
    | none => filepath_Base fullPath

/-- The names of `parts` joined by the separator, as a character list. -/
def joinSep : List String → List Char
  | [] => []
  | [part] => part.data
  | part :: rest => part.data ++ '/' :: joinSep rest

/-- The path `filepath.Join(repoPath, rel...)` of an entry `rel` below the root. -/
def walkPath (repoPath : String) (rel : List String) : String :=
  rel.foldl filepath_Join repoPath

/-- The value of `filepath.Rel(repoPath, filepath.Dir(path))` for the path of a file
that `filepath.Walk(repoPath, ...)` visits at `rel` below the root: the names of the
directories leading to it, joined by the separator; `.` for an entry of the root
directory; `..` when the root itself is the file.  `filepath.Rel` does not fail on
these paths. -/
def relOfDir (rel : List String) : String :=
  match rel with
  | [] => ".."
  | [_] => "."
  | _ => ⟨joinSep rel.dropLast⟩

/-- The Go map `components`, kept in insertion order: the branch
`if comp, exists := components[componentName]; exists` appends `fileName` to the
entry found under `componentName`, the other branch stores `fresh`. -/
def recordMarker (componentName fileName : String) (fresh : ComponentInfo) :
    List (String × ComponentInfo) → List (String × ComponentInfo)
  | [] => [(componentName, fresh)]
  | (key, comp) :: rest =>
    if key = componentName then
      (key, { comp with ConfigFiles := comp.ConfigFiles ++ [fileName] }) :: rest
    else (key, comp) :: recordMarker componentName fileName fresh rest

/-- The callback that `DiscoverProjectStructure` hands to `filepath.Walk`; the state
is the map `components`. -/
def discoverVisit (fpMatch : String → String → Except Unit Bool) (repoPath : String)
    (components : List (String × ComponentInfo)) (e : WalkEntry) :
    WalkError × List (String × ComponentInfo) :=
  if e.failed then (WalkError.nil, components)
  else if e.isDir then
    if shouldSkipDir e.name then (WalkError.SkipDir, components)
    else (WalkError.nil, components)
  else
    let fileName := e.name
    if isConfigFile fpMatch fileName then
      let dir := filepath_Dir (walkPath repoPath e.rel)
      let relDir := if relOfDir e.rel = "." then "" else relOfDir e.rel
      let componentName := getComponentName dir relDir
      (WalkError.nil,
        recordMarker componentName fileName
          { Name := componentName, Path := dir, RelativePath := relDir,
            ConfigFiles := [fileName] } components)
    else (WalkError.nil, components)

/-- Go `DiscoverProjectStructure` on the file system `root` found at `repoPath`.  The
component list is given in insertion order; Go ranges over the map in an unspecified
order. -/
def DiscoverProjectStructure (fpMatch : String → String → Except Unit Bool)
    (repoPath : String) (root : FsNode) : Except String ProjectStructure :=
  let r := filepath_Walk (discoverVisit fpMatch repoPath) root []
  match r.1 with
  | WalkError.other msg => Except.error ("failed to walk directory: " ++ msg)
  | WalkError.SkipDir => Except.error "failed to walk directory: skip this directory"
  | WalkError.nil =>
    let componentList := r.2.map Prod.snd
    let repoType := if componentList.length > 1 then "monorepo" else "single"
    Except.ok { Type_ := repoType, Components := componentList }

/-! ## Orchestrator (`analyzer.go`) -/

/-- Go `types.AnalysisOptions`. -/
structure AnalysisOptions where
  Format : String
  Output : String
  Verbose : Bool
  Component : String
  Exclude : List String
  deriving DecidableEq, Repr

/-- Go `types.Repository` (`Type_` is the field `Type`). -/
structure Repository where
  Type_ : String
  Path : String
  Name : String
  deriving DecidableEq, Repr

/-- Go `types.AnalysisResult`, for a component record `γ`. -/
structure AnalysisResult (γ : Type) where
  Repository : Repository
  Components : List γ
  deriving DecidableEq, Repr

/-- The body of the loop over `structure.Components` in `AnalyzeRepository`: `none`
for the three `continue` branches, `some component` when the component is appended. -/
def analyzeCandidate {γ : Type} (fpMatch : String → String → Except Unit Bool)
    (AnalyzeComponent : ComponentInfo → Except String γ) (options : AnalysisOptions)
    (compInfo : ComponentInfo) : Option γ :=
  if options.Component ≠ "" ∧ compInfo.Name ≠ options.Component then none
  else if shouldExcludeComponent fpMatch compInfo.RelativePath options.Exclude then none
  else
    match AnalyzeComponent compInfo with
    | Except.error _ => none
    | Except.ok component => some component

/-- Go `AnalyzeRepository`, without its verbose output.  `AnalyzeComponent` is taken
as an argument. -/
def AnalyzeRepository {γ : Type} (fpMatch : String → String → Except Unit Bool)
    (AnalyzeComponent : ComponentInfo → Except String γ) (repoPath : String)
    (root : FsNode) (options : AnalysisOptions) : Except String (AnalysisResult γ) :=
  match DiscoverProjectStructure fpMatch repoPath root with
  | Except.error err => Except.error ("failed to discover project structure: " ++ err)
  | Except.ok ps =>
    Except.ok
      { Repository := { Type_ := ps.Type_, Path := repoPath, Name := filepath_Base repoPath },
        Components := ps.Components.filterMap
          (analyzeCandidate fpMatch AnalyzeComponent options) }

/-! ## File systems used to state the properties of the walk -/

mutual
/-- The file system without the content of the directories that `shouldSkipDir`
rejects; the root keeps its place and is cut like every other directory. -/
def pruneSkipped : FsNode → FsNode
  | FsNode.file name => FsNode.file name
  | FsNode.noStat name => FsNode.noStat name
  | FsNode.dir name readable entries =>
    if shouldSkipDir name then FsNode.dir name readable []
    else FsNode.dir name readable (pruneSkippedList entries)
/-- The entries of a directory, each cut by `pruneSkipped`. -/
def pruneSkippedList : List FsNode → List FsNode
  | [] => []
  | entry :: rest => pruneSkipped entry :: pruneSkippedList rest
end

/-- A file name as a directory lists it: it does not contain the separator. -/
def noSeparator (name : String) : Bool := !name.data.contains '/'

mutual
/-- Every entry name of the file system is free of the separator. -/
def namesOk : FsNode → Bool
  | FsNode.file name => noSeparator name
  | FsNode.noStat name => noSeparator name
  | FsNode.dir name _ entries => noSeparator name && namesOkList entries
/-- Every entry name below the listed entries is free of the separator. -/
def namesOkList : List FsNode → Bool
  | [] => true
  | entry :: rest => namesOk entry && namesOkList rest
end

/-- The scenario of two sub-projects: `frontend/package.json` and `backend/go.mod`. -/
def twoProjects : FsNode :=
  FsNode.dir "repo" true
    [FsNode.dir "backend" true [FsNode.file "go.mod", FsNode.file "main.go"],
     FsNode.dir "frontend" true [FsNode.file "package.json"]]

/-- A repository with marker files at the root, in a sub-project, and below the
skipped directories `node_modules`, `.cache` and `build`. -/
def withSkippedDirs : List FsNode :=
  [FsNode.file "package.json",
   FsNode.dir "node_modules" true [FsNode.dir "left-pad" true [FsNode.file "package.json"]],
   FsNode.dir ".cache" true [FsNode.file "go.mod"],
   FsNode.dir "services" true
     [FsNode.dir "api" true [FsNode.file "go.mod", FsNode.file "docker-compose.yml"],
      FsNode.dir "build" true [FsNode.dir "out" true [FsNode.file "pom.xml"]]],
   FsNode.noStat "broken"]

/-- Two directories with the same base name: `apps/api` and `services/api`. -/
def sameBaseName : FsNode :=
  FsNode.dir "repo" true
    [FsNode.dir "apps" true [FsNode.dir "api" true [FsNode.file "package.json"]],
     FsNode.dir "services" true [FsNode.dir "api" true [FsNode.file "go.mod"]]]

/-! ## Go maps and further `strings` primitives -/

/-- The read `v, exists := m[key]` of a Go map, kept as a list of entries. -/
def mapGet {α : Type} : List (String × α) → String → Option α
  | [], _ => none
  | (k, v) :: rest, key => if k = key then some v else mapGet rest key

/-- The write `m[key] = value` of a Go map, kept as a list of entries. -/
def mapSet {α : Type} : List (String × α) → String → α → List (String × α)
  | [], key, value => [(key, value)]
  | (k, v) :: rest, key, value =>
    if k = key then (k, value) :: rest else (k, v) :: mapSet rest key value

/-- Go `unicode.IsSpace`: the characters with the Unicode property White_Space. -/
def unicode_IsSpace (c : Char) : Bool :=
  let n := c.toNat
  (0x09 ≤ n && n ≤ 0x0D) || n = 0x20 || n = 0x85 || n = 0xA0 || n = 0x1680 ||
  (0x2000 ≤ n && n ≤ 0x200A) || n = 0x2028 || n = 0x2029 || n = 0x202F || n = 0x205F ||
  n = 0x3000

/-- Go `strings.TrimSpace` on character lists. -/
def trimSpaceChars (s : List Char) : List Char :=
  ((s.dropWhile unicode_IsSpace).reverse.dropWhile unicode_IsSpace).reverse

/-- Go `strings.TrimSpace`. -/
def strings_TrimSpace (s : String) : String := ⟨trimSpaceChars s.data⟩

/-- Go `strings.TrimPrefix`. -/
def strings_TrimPrefix (s pre : String) : String :=
  if strings_HasPrefix s pre then ⟨s.data.drop pre.data.length⟩ else s

/-- Go `strings.Split(s, sep)` for a separator of one character, on character lists. -/
def splitChar (sep : Char) : List Char → List (List Char)
  | [] => [[]]
  | c :: cs =>
    if c = sep then [] :: splitChar sep cs
    else
      match splitChar sep cs with
      | [] => [[c]]
      | part :: parts => (c :: part) :: parts

/-- Go `strings.Split(s, "\n")`. -/
def splitLines (s : String) : List String := (splitChar '\n' s.data).map String.mk

/-- Go `filepath.Ext`: the suffix beginning at the final dot of the last path element. -/
def filepath_Ext (path : String) : String :=
  let rev := path.data.reverse
  let after := rev.takeWhile (fun c => c ≠ '.' ∧ c ≠ '/')
  match rev.drop after.length with
  | c :: _ => if c = '.' then ⟨(c :: after.reverse)⟩ else ""
  | [] => ""

/-- Go `contains` of `dependency.go`. -/
def contains : List String → String → Bool
  | [], _ => false
  | s :: rest, item => if s = item then true else contains rest item

/-! ## Language classifier (`language.go`) -/

/-- The local `skipExtensions` slice of `shouldSkipFile`. -/
def skipExtensions : List String :=
  [".exe", ".dll", ".so", ".dylib", ".a", ".lib",
   ".jpg", ".jpeg", ".png", ".gif", ".bmp", ".svg", ".ico",
   ".mp4", ".mp3", ".wav", ".avi", ".mov",
   ".zip", ".tar", ".gz", ".7z", ".rar",
   ".pdf", ".doc", ".docx", ".xls", ".xlsx", ".ppt", ".pptx"]

/-- Go `shouldSkipFile`.  `toLower` stands for `strings.ToLower`. -/
def shouldSkipFile (toLower : String → String) (fileName filePath : String) : Bool :=
  if strings_HasPrefix fileName "." && fileName ≠ ".env"
      && !strings_HasPrefix fileName ".env." then true
  else if skipExtensions.any (fun skipExt => toLower (filepath_Ext fileName) = skipExt) then true
  else if strings_Contains filePath "node_modules" ||
      strings_Contains filePath ".git" ||
      strings_Contains filePath "__pycache__" ||
      strings_Contains filePath ".venv" ||
      strings_Contains filePath "venv" ||
      strings_Contains filePath "target" ||
      strings_Contains filePath "build" ||
      strings_Contains filePath "dist" then true
  else false

/-- The update `languages[language] += n` of the byte totals. -/
def addBytes (language : String) (n : Nat) : List (String × Nat) → List (String × Nat)
  | [] => [(language, n)]
  | (k, total) :: rest =>
    if k = language then (k, total + n) :: rest else (k, total) :: addBytes language n rest

/-- The callback that `GetLanguageStats` hands to `filepath.Walk`; the state is the map
`languages`.  `readFile` stands for `os.ReadFile` (`none` when it fails) and
`getLanguage` for `enry.GetLanguage`; the length of a content is its number of
bytes. -/
def languageVisit (toLower : String → String) (readFile : String → Option String)
    (getLanguage : String → String → String) (path : String)
    (languages : List (String × Nat)) (e : WalkEntry) : WalkError × List (String × Nat) :=
  if e.failed then (WalkError.nil, languages)
  else if e.isDir then (WalkError.nil, languages)
  else
    let filePath := walkPath path e.rel
    if shouldSkipFile toLower e.name filePath then (WalkError.nil, languages)
    else
      match readFile filePath with
      | none => (WalkError.nil, languages)
      | some content =>
        let language := getLanguage filePath content
        if language = "" then (WalkError.nil, languages)
        else (WalkError.nil, addBytes language content.utf8ByteSize languages)

/-- The map `languages` of `GetLanguageStats` when the walk has ended: the byte total
of every language to which a file was classified. -/
def collectLanguages (toLower : String → String) (readFile : String → Option String)
    (getLanguage : String → String → String) (path : String) (root : FsNode) :
    WalkError × List (String × Nat) :=
  filepath_Walk (languageVisit toLower readFile getLanguage path) root []

/-- The two loops that end `GetLanguageStats`: the total of the byte counts and the
percentage of every language, as exact rationals; nothing is stored when the total is
not positive. -/
def languagePercentages (languages : List (String × Nat)) : List (String × ℚ) :=
  let total := (languages.map Prod.snd).sum
  languages.filterMap (fun kv =>
    if total > 0 then some (kv.1, (kv.2 : ℚ) / (total : ℚ) * 100) else none)

/-- Go `GetLanguageStats` on the file system `root` found at `path`.  A root that does
not exist gives the empty map at once. -/
def GetLanguageStats (toLower : String → String) (readFile : String → Option String)
    (getLanguage : String → String → String) (path : String) (root : FsNode) :
    Except String (List (String × ℚ)) :=
  match root with
  | FsNode.noStat _ => Except.ok []
  | _ =>
    let r := collectLanguages toLower readFile getLanguage path root
    match r.1 with
    | WalkError.other msg => Except.error ("failed to walk directory: " ++ msg)
    | WalkError.SkipDir => Except.error "failed to walk directory: skip this directory"
    | WalkError.nil =>
      if r.2.length = 0 then Except.ok [] else Except.ok (languagePercentages r.2)

/-- The loop of Go `GetPrimaryLanguage` over the entries of `stats` in the order of
iteration, from the current `maxLang` and `maxPercentage`. -/
def primaryLoop : List (String × ℚ) → String → ℚ → String
  | [], maxLang, _ => maxLang
  | (lang, percentage) :: rest, maxLang, maxPercentage =>
    if percentage > maxPercentage then primaryLoop rest lang percentage
    else primaryLoop rest maxLang maxPercentage

/-- Go `GetPrimaryLanguage`; `stats` lists the entries of the map in the order of
iteration. -/
def GetPrimaryLanguage (stats : List (String × ℚ)) : String :=
  if stats.length = 0 then "" else primaryLoop stats "" 0


/-! ## Framework detector (`language.go`) -/

/-- The package variable `frameworkPatterns` of `language.go`, in the order of the
source.  Go ranges over this map in an unspecified order: the functions below take the
entries in the order of the iteration as an argument. -/
def frameworkPatterns : List (String × List String) :=
  [("React", ["react", "@types/react"]),
   ("Vue", ["vue", "@vue/cli", "vue-cli"]),
   ("Angular", ["@angular/core", "@angular/cli"]),
   ("Next.js", ["next"]),
   ("Nuxt", ["nuxt"]),
   ("Express", ["express"]),
   ("Fastify", ["fastify"]),
   ("Nest", ["@nestjs/core"]),
   ("Django", ["django", "Django"]),
   ("FastAPI", ["fastapi"]),
   ("Flask", ["flask", "Flask"]),
   ("Spring", ["org.springframework"]),
   ("SpringBoot", ["org.springframework.boot"]),
   ("Laravel", ["laravel/framework"]),
   ("Symfony", ["symfony/framework-bundle"]),
   ("Rails", ["rails"]),
   ("Gin", ["github.com/gin-gonic/gin"]),
   ("Echo", ["github.com/labstack/echo"]),
   ("Fiber", ["github.com/gofiber/fiber"]),
   ("Axum", ["axum"]),
   ("Actix", ["actix-web"]),
   ("Rocket", ["rocket"]),
   ("ASP.NET", ["Microsoft.AspNetCore"])]

/-- The test `_, exists := deps[pattern]` on a map of declared dependencies. -/
def hasKey (deps : List (String × String)) (key : String) : Bool :=
  (mapGet deps key).isSome

/-- The read `scores[framework]` of a Go map of integers: zero for a missing key. -/
def scoreOf (scores : List (String × Nat)) (framework : String) : Nat :=
  (mapGet scores framework).getD 0

/-- The inner loop of `detectFrameworkFromDependencies`: `scores[framework]++` for every
signature string that is a key of `deps`. -/
def scorePatterns (deps : List (String × String)) (framework : String) :
    List String → List (String × Nat) → List (String × Nat)
  | [], scores => scores
  | pattern :: rest, scores =>
    if hasKey deps pattern then
      scorePatterns deps framework rest (mapSet scores framework (scoreOf scores framework + 1))
    else scorePatterns deps framework rest scores

/-- The outer loop of `detectFrameworkFromDependencies` over the entries of
`frameworkPatterns` in the order of the iteration. -/
def scoreFrameworks (deps : List (String × String)) :
    List (String × List String) → List (String × Nat) → List (String × Nat)
  | [], scores => scores
  | (framework, patterns) :: rest, scores =>
    scoreFrameworks deps rest (scorePatterns deps framework patterns scores)

/-- Go `detectFrameworkFromDependencies`.  `patterns` lists `frameworkPatterns` in the
order of the first iteration, `rangeKeys` puts the keys of `scores` in the order of the
second one, and `sortSlice less` stands for `sort.Slice` with the comparison `less`.
The result is `frameworks[0]`. -/
def detectFrameworkFromDependencies
    (sortSlice : (String → String → Bool) → List String → List String)
    (rangeKeys : List String → List String) (patterns : List (String × List String))
    (deps : List (String × String)) : String :=
  let scores := scoreFrameworks deps patterns []
  if scores.length = 0 then ""
  else
    let frameworks := rangeKeys (scores.map Prod.fst)
    let sorted := sortSlice (fun a b => decide (scoreOf scores a > scoreOf scores b)) frameworks
    sorted.headD ""

/-- The inner loop of Go `insertionSortLessFunc`: `x` moves towards the front of the
sorted prefix, given from its last element to its first, while it is less than its
neighbour. -/
def insertionStep (less : String → String → Bool) (x : String) : List String → List String
  | [] => [x]
  | y :: rest => if less x y then y :: insertionStep less x rest else x :: y :: rest

/-- Go `insertionSortLessFunc`, the sort that `sort.Slice` runs on a slice of at most
twelve elements. -/
def insertionSortLess (less : String → String → Bool) (data : List String) : List String :=
  (data.foldl (fun sortedRev x => insertionStep less x sortedRev) []).reverse

/-- The contract of `sort.Slice`: the output is the input rearranged, and no element
is less than one that stands before it. -/
def SortedBy (less : String → String → Bool) (input output : List String) : Prop :=
  output.Perm input ∧ output.Pairwise (fun a b => less b a = false)

/-- What `os.Stat` and `os.ReadFile` report for a path. -/
inductive FileProbe where
  /-- The file does not exist: `os.IsNotExist(err)`. -/
  | notExist : FileProbe
  /-- The call of `os.Stat` fails for another reason, and so does `os.ReadFile`. -/
  | statError : FileProbe
  /-- The call of `os.Stat` succeeds and `os.ReadFile` fails. -/
  | unreadable : FileProbe
  /-- The file can be read and has the content `data`. -/
  | content (data : String) : FileProbe
  deriving DecidableEq, Repr

/-- The loops `for framework, patterns := range frameworkPatterns` of the detectors
that search the raw content: the first framework in the order of the iteration one of
whose signature strings occurs in `contentStr`. -/
def detectInContent (contentStr : String) : List (String × List String) → Option String
  | [] => none
  | (framework, patterns) :: rest =>
    if patterns.any (fun pattern => strings_Contains contentStr pattern) then some framework
    else detectInContent contentStr rest

/-- The union `allDeps` of two JSON maps: the entries of the second overwrite those of
the first. -/
def mergeDeps (first second : List (String × String)) : List (String × String) :=
  second.foldl (fun all kv => mapSet all kv.1 kv.2)
    (first.foldl (fun all kv => mapSet all kv.1 kv.2) [])

/-- Go `detectJSFramework`.  `probe` stands for `os.Stat` with `os.ReadFile`, and
`unmarshal data a b` for `json.Unmarshal` into a struct with the two maps of the JSON
keys `a` and `b` (`none` when it returns an error). -/
def detectJSFramework
    (sortSlice : (String → String → Bool) → List String → List String)
    (rangeKeys : List String → List String) (patterns : List (String × List String))
    (probe : String → FileProbe)
    (unmarshal : String → String → String →
      Option (List (String × String) × List (String × String)))
    (componentPath : String) : Except String String :=
  match probe (filepath_Join componentPath "package.json") with
  | FileProbe.notExist => Except.ok ""
  | FileProbe.statError => Except.error "read package.json"
  | FileProbe.unreadable => Except.error "read package.json"
  | FileProbe.content data =>
    match unmarshal data "dependencies" "devDependencies" with
    | none => Except.error "unmarshal package.json"
    | some (dependencies, devDependencies) =>
      Except.ok (detectFrameworkFromDependencies sortSlice rangeKeys patterns
        (mergeDeps dependencies devDependencies))


/-- The loop of Go `strings.Split(s, sep)` for a non-empty separator, on character
lists: `skip` counts the characters of a found separator still to pass, `cur` holds
the current part in reverse. -/
def splitOnChars (sep : List Char) : Nat → List Char → List Char → List (List Char)
  | _, cur, [] => [cur.reverse]
  | skip + 1, cur, _ :: cs => splitOnChars sep skip cur cs
  | 0, cur, c :: cs =>
    if hasPrefixChars (c :: cs) sep then cur.reverse :: splitOnChars sep (sep.length - 1) [] cs
    else splitOnChars sep 0 (c :: cur) cs

/-- Go `strings.Split(s, sep)` for a non-empty separator. -/
def strings_SplitOn (s sep : String) : List String :=
  (splitOnChars sep.data 0 [] s.data).map String.mk

/-- The loop over the lines of `requirements.txt` in `detectPythonFramework`. -/
def requirementsDeps : List String → List (String × String) → List (String × String)
  | [], deps => deps
  | rawLine :: rest, deps =>
    let line := strings_TrimSpace rawLine
    if line = "" ∨ strings_HasPrefix line "#" = true then requirementsDeps rest deps
    else
      match strings_SplitOn line "==" with
      | [] => requirementsDeps rest deps
      | part :: _ => requirementsDeps rest (mapSet deps (strings_TrimSpace part) "")

/-- Go `detectPythonFramework`. -/
def detectPythonFramework
    (sortSlice : (String → String → Bool) → List String → List String)
    (rangeKeys : List String → List String) (patterns : List (String × List String))
    (probe : String → FileProbe) (componentPath : String) : Except String String :=
  match probe (filepath_Join componentPath "requirements.txt") with
  | FileProbe.unreadable => Except.error "read requirements.txt"
  | FileProbe.content data =>
    Except.ok (detectFrameworkFromDependencies sortSlice rangeKeys patterns
      (requirementsDeps (splitLines data) []))
  | _ => Except.ok ""

/-- The body shared by `detectJavaFramework`, `detectGoFramework`, `detectRustFramework`
and `detectRubyFramework`: the manifest `fileName` is searched for a signature string
when `os.Stat` succeeds on it. -/
def detectInManifest (patterns : List (String × List String)) (probe : String → FileProbe)
    (componentPath fileName : String) : Except String String :=
  match probe (filepath_Join componentPath fileName) with
  | FileProbe.unreadable => Except.error ("read " ++ fileName)
  | FileProbe.content contentStr =>
    match detectInContent contentStr patterns with
    | some framework => Except.ok framework
    | none => Except.ok ""
  | _ => Except.ok ""

/-- Go `detectJavaFramework`. -/
def detectJavaFramework (patterns : List (String × List String)) (probe : String → FileProbe)
    (componentPath : String) : Except String String :=
  detectInManifest patterns probe componentPath "pom.xml"

/-- Go `detectGoFramework`. -/
def detectGoFramework (patterns : List (String × List String)) (probe : String → FileProbe)
    (componentPath : String) : Except String String :=
  detectInManifest patterns probe componentPath "go.mod"

/-- Go `detectRustFramework`. -/
def detectRustFramework (patterns : List (String × List String)) (probe : String → FileProbe)
    (componentPath : String) : Except String String :=
  detectInManifest patterns probe componentPath "Cargo.toml"

/-- Go `detectRubyFramework`. -/
def detectRubyFramework (patterns : List (String × List String)) (probe : String → FileProbe)
    (componentPath : String) : Except String String :=
  detectInManifest patterns probe componentPath "Gemfile"

/-- The loop over the matches of `*.csproj` in `detectDotNetFramework`. -/
def detectInMatches (patterns : List (String × List String)) (probe : String → FileProbe) :
    List String → String
  | [] => ""
  | m :: rest =>
    match probe m with
    | FileProbe.content contentStr =>
      match detectInContent contentStr patterns with
      | some framework => framework
      | none => detectInMatches patterns probe rest
    | _ => detectInMatches patterns probe rest

/-- Go `detectDotNetFramework`.  `glob` stands for `filepath.Glob`. -/
def detectDotNetFramework (patterns : List (String × List String)) (probe : String → FileProbe)
    (glob : String → Except String (List String)) (componentPath : String) :
    Except String String :=
  match glob (filepath_Join componentPath "*.csproj") with
  | Except.error err => Except.error err
  | Except.ok foundPaths => Except.ok (detectInMatches patterns probe foundPaths)

/-- Go `detectPHPFramework`. -/
def detectPHPFramework
    (sortSlice : (String → String → Bool) → List String → List String)
    (rangeKeys : List String → List String) (patterns : List (String × List String))
    (probe : String → FileProbe)
    (unmarshal : String → String → String →
      Option (List (String × String) × List (String × String)))
    (componentPath : String) : Except String String :=
  match probe (filepath_Join componentPath "composer.json") with
  | FileProbe.unreadable => Except.error "read composer.json"
  | FileProbe.content data =>
    match unmarshal data "require" "require-dev" with
    | none => Except.error "unmarshal composer.json"
    | some (require, requireDev) =>
      Except.ok (detectFrameworkFromDependencies sortSlice rangeKeys patterns
        (mergeDeps require requireDev))
  | _ => Except.ok ""

/-- Go `DetectFrameworks`.  `toLower` stands for `strings.ToLower`; the other arguments
are those of the detectors. -/
def DetectFrameworks (toLower : String → String)
    (sortSlice : (String → String → Bool) → List String → List String)
    (rangeKeys : List String → List String) (patterns : List (String × List String))
    (probe : String → FileProbe)
    (unmarshal : String → String → String →
      Option (List (String × String) × List (String × String)))
    (glob : String → Except String (List String))
    (componentPath primaryLang : String) : Except String String :=
  let lang := toLower primaryLang
  if lang = "javascript" ∨ lang = "typescript" then
    detectJSFramework sortSlice rangeKeys patterns probe unmarshal componentPath
  else if lang = "python" then
    detectPythonFramework sortSlice rangeKeys patterns probe componentPath
  else if lang = "java" then detectJavaFramework patterns probe componentPath
  else if lang = "go" then detectGoFramework patterns probe componentPath
  else if lang = "rust" then detectRustFramework patterns probe componentPath
  else if lang = "c#" then detectDotNetFramework patterns probe glob componentPath
  else if lang = "php" then
    detectPHPFramework sortSlice rangeKeys patterns probe unmarshal componentPath
  else if lang = "ruby" then detectRubyFramework patterns probe componentPath
  else Except.ok ""

/-- Go `types.ExternalDependencies`. -/
structure ExternalDependencies where
  Databases : List String
  Services : List String
  deriving DecidableEq, Repr

/-- Go `types.Component` (`Type_` is the field `Type`). -/
structure Component where
  Name : String
  Path : String
  Type_ : String
  PrimaryLanguage : String
  LanguageStats : List (String × ℚ)
  Framework : String
  VersionRequirements : List (String × String)
  ExternalDependencies : ExternalDependencies
  DevelopmentTools : List String
  deriving DecidableEq, Repr

/-- Go `AnalyzeComponent`.  The five analyses of the component directory are taken as
arguments, each a function of the path as Go calls it. -/
def AnalyzeComponent (toLower : String → String)
    (getLanguageStats : String → Except String (List (String × ℚ)))
    (detectFrameworks : String → String → Except String String)
    (extractVersionRequirements : String → Except String (List (String × String)))
    (detectExternalDependencies : String → Except String ExternalDependencies)
    (detectDevelopmentTools : String → Except String (List String))
    (compInfo : ComponentInfo) : Except String Component :=
  match getLanguageStats compInfo.Path with
  | Except.error err => Except.error ("failed to get language stats: " ++ err)
  | Except.ok langStats =>
    let primaryLang := GetPrimaryLanguage langStats
    match detectFrameworks compInfo.Path primaryLang with
    | Except.error err => Except.error ("failed to detect framework: " ++ err)
    | Except.ok framework =>
      match extractVersionRequirements compInfo.Path with
      | Except.error err => Except.error ("failed to extract version requirements: " ++ err)
      | Except.ok versionReqs =>
        match detectExternalDependencies compInfo.Path with
        | Except.error err => Except.error ("failed to detect external dependencies: " ++ err)
        | Except.ok externalDeps =>
          match detectDevelopmentTools compInfo.Path with
          | Except.error err => Except.error ("failed to detect development tools: " ++ err)
          | Except.ok devTools =>
            Except.ok
              { Name := compInfo.Name,
                Path := compInfo.RelativePath,
                Type_ := inferComponentType toLower primaryLang framework compInfo.ConfigFiles,
                PrimaryLanguage := primaryLang,
                LanguageStats := langStats,
                Framework := framework,
                VersionRequirements := versionReqs,
                ExternalDependencies := externalDeps,
                DevelopmentTools := devTools }


/-! ## Version extractor (`version.go`) -/

/-- The `package.json` block of `extractNodeVersions`: the map `requirements` after it,
or the error that ends the function.  `unmarshalEngines` stands for `json.Unmarshal`
into the struct with the map `engines` (`none` when it returns an error). -/
def nodeManifestBlock (probe : String → FileProbe)
    (unmarshalEngines : String → Option (List (String × String)))
    (componentPath : String) (requirements : List (String × String)) :
    Except String (List (String × String)) :=
  match probe (filepath_Join componentPath "package.json") with
  | FileProbe.unreadable => Except.error "read package.json"
  | FileProbe.content data =>
    match unmarshalEngines data with
    | none => Except.ok requirements
    | some engines =>
      let withNode :=
        match mapGet engines "node" with
        | some nodeVersion => mapSet requirements "node" nodeVersion
        | none => requirements
      match mapGet engines "npm" with
      | some npmVersion => Except.ok (mapSet withNode "npm" npmVersion)
      | none => Except.ok withNode
  | _ => Except.ok requirements

/-- The `.nvmrc` block of `extractNodeVersions`. -/
def nvmrcBlock (probe : String → FileProbe) (componentPath : String)
    (requirements : List (String × String)) : List (String × String) :=
  match probe (filepath_Join componentPath ".nvmrc") with
  | FileProbe.content content =>
    let version := strings_TrimSpace content
    if version ≠ "" then mapSet requirements "node" version else requirements
  | _ => requirements

/-- Go `extractNodeVersions`: the map `requirements` after the call, or the error. -/
def extractNodeVersions (probe : String → FileProbe)
    (unmarshalEngines : String → Option (List (String × String)))
    (componentPath : String) (requirements : List (String × String)) :
    Except String (List (String × String)) :=
  match nodeManifestBlock probe unmarshalEngines componentPath requirements with
  | Except.error err => Except.error err
  | Except.ok reqs => Except.ok (nvmrcBlock probe componentPath reqs)

/-- The struct `pom.Properties` that `xml.Unmarshal` fills in `extractJavaVersions`. -/
structure PomProperties where
  MavenCompilerSource : String
  MavenCompilerTarget : String
  JavaVersion : String
  deriving DecidableEq, Repr

/-- The `pom.xml` block of `extractJavaVersions`: the map `requirements` after it, or
the error that ends the function.  `unmarshalPom` stands for `xml.Unmarshal` into the
struct `pom` (`none` when it returns an error). -/
def pomBlock (probe : String → FileProbe) (unmarshalPom : String → Option PomProperties)
    (componentPath : String) (requirements : List (String × String)) :
    Except String (List (String × String)) :=
  match probe (filepath_Join componentPath "pom.xml") with
  | FileProbe.unreadable => Except.error "read pom.xml"
  | FileProbe.content content =>
    match unmarshalPom content with
    | none => Except.ok requirements
    | some properties =>
      if properties.MavenCompilerSource ≠ "" then
        Except.ok (mapSet requirements "java" properties.MavenCompilerSource)
      else if properties.JavaVersion ≠ "" then
        Except.ok (mapSet requirements "java" properties.JavaVersion)
      else Except.ok requirements
  | _ => Except.ok requirements

/-- The `build.gradle` block of `extractJavaVersions`.  `sourceCompatibility` stands for
the first submatch of the regular expression (`none` without a match). -/
def gradleBlock (probe : String → FileProbe) (sourceCompatibility : String → Option String)
    (componentPath : String) (requirements : List (String × String)) :
    List (String × String) :=
  match probe (filepath_Join componentPath "build.gradle") with
  | FileProbe.content contentStr =>
    match sourceCompatibility contentStr with
    | some version => mapSet requirements "java" version
    | none => requirements
  | _ => requirements

/-- Go `extractJavaVersions`: the map `requirements` after the call, or the error. -/
def extractJavaVersions (probe : String → FileProbe)
    (unmarshalPom : String → Option PomProperties)
    (sourceCompatibility : String → Option String)
    (componentPath : String) (requirements : List (String × String)) :
    Except String (List (String × String)) :=
  match pomBlock probe unmarshalPom componentPath requirements with
  | Except.error err => Except.error err
  | Except.ok reqs => Except.ok (gradleBlock probe sourceCompatibility componentPath reqs)

/-- The loop over the lines of `go.mod` in `extractGoVersions`, with its `break`. -/
def goDirectiveLoop : List String → List (String × String) → List (String × String)
  | [], requirements => requirements
  | rawLine :: rest, requirements =>
    let line := strings_TrimSpace rawLine
    if strings_HasPrefix line "go " then
      let version := strings_TrimSpace (strings_TrimPrefix line "go")
      if version ≠ "" then mapSet requirements "go" version else requirements
    else goDirectiveLoop rest requirements

/-- Go `extractGoVersions`. -/
def extractGoVersions (probe : String → FileProbe) (componentPath : String)
    (requirements : List (String × String)) : Except String (List (String × String)) :=
  match probe (filepath_Join componentPath "go.mod") with
  | FileProbe.unreadable => Except.error "read go.mod"
  | FileProbe.content content => Except.ok (goDirectiveLoop (splitLines content) requirements)
  | _ => Except.ok requirements

/-! ## External dependency detector (`dependency.go`) -/

/-- The local map `databases` of `categorizeService`, in the order of the source. -/
def categorizeDatabases : List (String × String) :=
  [("postgres", "PostgreSQL"), ("mysql", "MySQL"), ("mariadb", "MariaDB"),
   ("mongodb", "MongoDB"), ("redis", "Redis"), ("elasticsearch", "Elasticsearch"),
   ("cassandra", "Cassandra"), ("couchdb", "CouchDB"), ("neo4j", "Neo4j"),
   ("influxdb", "InfluxDB"), ("timescaledb", "TimescaleDB")]

/-- The local map `services` of `categorizeService`, in the order of the source. -/
def categorizeServices : List (String × String) :=
  [("nginx", "Nginx"), ("apache", "Apache"), ("traefik", "Traefik"),
   ("rabbitmq", "RabbitMQ"), ("kafka", "Apache Kafka"), ("zookeeper", "Apache Zookeeper"),
   ("memcached", "Memcached"), ("consul", "Consul"), ("vault", "HashiCorp Vault"),
   ("prometheus", "Prometheus"), ("grafana", "Grafana"), ("jaeger", "Jaeger"),
   ("zipkin", "Zipkin"), ("minio", "MinIO")]

/-- A loop `for key, name := range table` that stops at the first key contained in
`lowered`: the product name of that entry, `none` when the loop runs to its end. -/
def firstKeyword (lowered : String) : List (String × String) → Option String
  | [] => none
  | (key, name) :: rest =>
    if strings_Contains lowered key then some name else firstKeyword lowered rest

/-- The statement `if !contains(slice, item) { slice = append(slice, item) }`. -/
def appendIfMissing (slice : List String) (item : String) : List String :=
  if !contains slice item then slice ++ [item] else slice

/-- Go `categorizeService`: the record `deps` after the call.  `toLower` stands for
`strings.ToLower`; `databases` and `services` list the two local maps in the order of
their iteration. -/
def categorizeService (toLower : String → String) (databases services : List (String × String))
    (_serviceName image : String) (deps : ExternalDependencies) : ExternalDependencies :=
  let imageLower := toLower image
  match firstKeyword imageLower databases with
  | some dbName => { deps with Databases := appendIfMissing deps.Databases dbName }
  | none =>
    match firstKeyword imageLower services with
    | some name => { deps with Services := appendIfMissing deps.Services name }
    | none =>
      if !strings_Contains imageLower "/" || strings_Contains imageLower "scratch" then deps
      else { deps with Services := appendIfMissing deps.Services image }


/-! ## Directories used to state the properties of the extractors -/

/-- A component directory with a `pom.xml` declaring the compiler source 11 and a
`build.gradle` declaring the source compatibility 17. -/
def pomAndGradle (path : String) : FileProbe :=
  if path = "/repo/pom.xml" then
    FileProbe.content
      "<project><properties><maven.compiler.source>11</maven.compiler.source></properties></project>"
  else if path = "/repo/build.gradle" then FileProbe.content "sourceCompatibility = '17'"
  else FileProbe.notExist

/-- The result of `xml.Unmarshal` on the `pom.xml` of `pomAndGradle`. -/
def pomAndGradleXml (content : String) : Option PomProperties :=
  if content =
    "<project><properties><maven.compiler.source>11</maven.compiler.source></properties></project>"
  then some { MavenCompilerSource := "11", MavenCompilerTarget := "", JavaVersion := "" }
  else none

/-- The submatch of the regular expression on the `build.gradle` of `pomAndGradle`. -/
def pomAndGradleRegexp (contentStr : String) : Option String :=
  if contentStr = "sourceCompatibility = '17'" then some "17" else none

/-- A component directory with a `package.json` whose engines ask for node 16 and
npm 8, and a `.nvmrc` pinning 18.17.0. -/
def nodePinned (path : String) : FileProbe :=
  if path = "/repo/package.json" then
    FileProbe.content "\x7b\"engines\": \x7b\"node\": \">=16\", \"npm\": \">=8\"\x7d\x7d"
  else if path = "/repo/.nvmrc" then FileProbe.content "18.17.0\n"
  else FileProbe.notExist

/-- The result of `json.Unmarshal` on the `package.json` of `nodePinned`. -/
def nodePinnedEngines (data : String) : Option (List (String × String)) :=
  if data = "\x7b\"engines\": \x7b\"node\": \">=16\", \"npm\": \">=8\"\x7d\x7d" then
    some [("node", ">=16"), ("npm", ">=8")]
  else none


/-- A stand-in for `enry.GetLanguage` on the examples: the language of the extension. -/
def languageOfExtension (filePath _content : String) : String :=
  if strings_HasSuffix filePath ".go" then "Go"
  else if strings_HasSuffix filePath ".py" then "Python"
  else ""

/-- A component whose only source file `main.go` is zero bytes long. -/
def emptySource : FsNode := FsNode.dir "repo" true [FsNode.file "main.go"]

/-- The contents of a component with a Go file of twelve bytes and a Python file of
three. -/
def goAndPythonContent (filePath : String) : Option String :=
  if filePath = "/repo/main.go" then some "package main"
  else if filePath = "/repo/tools/gen.py" then some "x=1"
  else none

/-- The component of `goAndPythonContent`, with a file that cannot be read. -/
def goAndPython : FsNode :=
  FsNode.dir "repo" true
    [FsNode.file "main.go", FsNode.file "LICENSE.go",
     FsNode.dir "tools" true [FsNode.file "gen.py"]]


/-- The number of signature strings of a framework that are keys of `deps`: the score
that the specification gives the framework. -/
def presentCount (deps : List (String × String)) (patterns : List String) : Nat :=
  patterns.countP (hasKey deps)

/-- One run of `detectFrameworkFromDependencies` as Go may perform it: `patterns` is
`frameworkPatterns` in some order, `rangeKeys` rearranges the keys of `scores`, and
`sortSlice` keeps the contract of `sort.Slice` on them. -/
def FaithfulRun (sortSlice : (String → String → Bool) → List String → List String)
    (rangeKeys : List String → List String) (patterns : List (String × List String))
    (deps : List (String × String)) : Prop :=
  patterns.Perm frameworkPatterns ∧
  (rangeKeys ((scoreFrameworks deps patterns []).map Prod.fst)).Perm
    ((scoreFrameworks deps patterns []).map Prod.fst) ∧
  SortedBy
    (fun a b => decide (scoreOf (scoreFrameworks deps patterns []) a
      > scoreOf (scoreFrameworks deps patterns []) b))
    (rangeKeys ((scoreFrameworks deps patterns []).map Prod.fst))
    (sortSlice
      (fun a b => decide (scoreOf (scoreFrameworks deps patterns []) a
        > scoreOf (scoreFrameworks deps patterns []) b))
      (rangeKeys ((scoreFrameworks deps patterns []).map Prod.fst)))


/-- The manifest that `DetectFrameworks` reads for a lower-cased primary language; the
C# detector looks for `*.csproj` files instead. -/
def ecosystemManifest (langLower : String) : Option String :=
  if langLower = "javascript" ∨ langLower = "typescript" then some "package.json"
  else if langLower = "python" then some "requirements.txt"
  else if langLower = "java" then some "pom.xml"
  else if langLower = "go" then some "go.mod"
  else if langLower = "rust" then some "Cargo.toml"
  else if langLower = "php" then some "composer.json"
  else if langLower = "ruby" then some "Gemfile"
  else none

/-- A component directory with the source file `index.js` and a `package.json` that is
cut off in the middle. -/
def brokenManifest (path : String) : FileProbe :=
  if path = "/repo/package.json" then FileProbe.content "\x7b\"dependencies\": \x7b\"react\""
  else if path = "/repo/index.js" then
    FileProbe.content "const React = require(\"react\");\nconsole.log(React.version);\n"
  else FileProbe.notExist

/-- The result of `json.Unmarshal` on the files of `brokenManifest`: an error on the
document that is cut off. -/
def brokenManifestJson (data _first _second : String) :
    Option (List (String × String) × List (String × String)) :=
  if data = "\x7b\"dependencies\": \x7b\"react\"" then none else some ([], [])

/-- The file system of `brokenManifest`. -/
def brokenManifestRoot : FsNode :=
  FsNode.dir "repo" true [FsNode.file "index.js", FsNode.file "package.json"]

/-- The result of `os.ReadFile` on the files of `brokenManifest`. -/
def brokenManifestContent (filePath : String) : Option String :=
  match brokenManifest filePath with
  | FileProbe.content data => some data
  | _ => none

/-- A stand-in for `enry.GetLanguage` on the files of `brokenManifest`: the language of
the extension, `JSON` for `package.json`. -/
def brokenManifestLanguage (filePath _content : String) : String :=
  if strings_HasSuffix filePath ".js" then "JavaScript"
  else if strings_HasSuffix filePath ".json" then "JSON"
  else ""

/-- The language statistics of the directory at `path` in the file system of
`brokenManifest`, as `GetLanguageStats` computes them. -/
def brokenManifestStats (path : String) : Except String (List (String × ℚ)) :=
  GetLanguageStats strings_ToLower_ascii brokenManifestContent brokenManifestLanguage path
    (if path = "/repo" then brokenManifestRoot else FsNode.noStat (filepath_Base path))

/-- The analysis of a component of `brokenManifest`: the language statistics and the
framework detection are those of the code on its files; the three analyses that follow
the framework detection in `AnalyzeComponent` are given empty results. -/
def analyzeBroken (compInfo : ComponentInfo) : Except String Component :=
  AnalyzeComponent strings_ToLower_ascii brokenManifestStats
    (DetectFrameworks strings_ToLower_ascii insertionSortLess id frameworkPatterns
      brokenManifest brokenManifestJson (fun _ => Except.ok []))
    (fun _ => Except.ok []) (fun _ => Except.ok { Databases := [], Services := [] })
    (fun _ => Except.ok []) compInfo


/-! ## Environment files and the whole detector (`dependency.go`) -/

/-- The local map `databases` of `extractDatabaseFromEnv`, in the order of the source. -/
def envDatabases : List (String × String) :=
  [("postgres", "PostgreSQL"), ("mysql", "MySQL"), ("mariadb", "MariaDB"),
   ("mongodb", "MongoDB"), ("sqlite", "SQLite"), ("redis", "Redis"),
   ("elasticsearch", "Elasticsearch")]

/-- The local map `services` of `extractServiceFromEnv`, in the order of the source. -/
def envServices : List (String × String) :=
  [("redis", "Redis"), ("memcached", "Memcached"), ("rabbitmq", "RabbitMQ"),
   ("kafka", "Apache Kafka")]

/-- Go `extractDatabaseFromEnv`: the record `deps` after the call.  `databases` lists the
local map in the order of its iteration. -/
def extractDatabaseFromEnv (toLower : String → String) (databases : List (String × String))
    (line : String) (deps : ExternalDependencies) : ExternalDependencies :=
  match firstKeyword (toLower line) databases with
  | some dbName => { deps with Databases := appendIfMissing deps.Databases dbName }
  | none => deps

/-- Go `extractServiceFromEnv`: the record `deps` after the call.  `services` lists the
local map in the order of its iteration. -/
def extractServiceFromEnv (toLower : String → String) (services : List (String × String))
    (line : String) (deps : ExternalDependencies) : ExternalDependencies :=
  match firstKeyword (toLower line) services with
  | some serviceName => { deps with Services := appendIfMissing deps.Services serviceName }
  | none => deps

/-- The loop `for serviceName, service := range compose.Services` of
`analyzeDockerCompose` over the pairs of service name and image, in the order of the
iteration.  `dbOrder image` and `svcOrder image` list the two maps of `categorizeService`
in the order in which the call for `image` iterates them. -/
def categorizeAll (toLower : String → String)
    (dbOrder svcOrder : String → List (String × String)) :
    List (String × String) → ExternalDependencies → ExternalDependencies
  | [], deps => deps
  | (serviceName, image) :: rest, deps =>
    if image ≠ "" then
      categorizeAll toLower dbOrder svcOrder rest
        (categorizeService toLower (dbOrder image) (svcOrder image) serviceName image deps)
    else categorizeAll toLower dbOrder svcOrder rest deps

/-- The loop over `composeFiles` in `analyzeDockerCompose`.  `unmarshalCompose` stands
for `yaml.Unmarshal` into the struct `compose`: the services with their images, `none`
when it returns an error. -/
def composeFilesLoop (toLower : String → String)
    (dbOrder svcOrder : String → List (String × String)) (probe : String → FileProbe)
    (unmarshalCompose : String → Option (List (String × String))) (componentPath : String) :
    List String → ExternalDependencies → ExternalDependencies
  | [], deps => deps
  | filename :: rest, deps =>
    match probe (filepath_Join componentPath filename) with
    | FileProbe.content content =>
      match unmarshalCompose content with
      | none => composeFilesLoop toLower dbOrder svcOrder probe unmarshalCompose componentPath
          rest deps
      | some services =>
        composeFilesLoop toLower dbOrder svcOrder probe unmarshalCompose componentPath rest
          (categorizeAll toLower dbOrder svcOrder services deps)
    | _ => composeFilesLoop toLower dbOrder svcOrder probe unmarshalCompose componentPath
        rest deps

/-- Go `analyzeDockerCompose`: the record `deps` after the call; the error it returns is
always nil. -/
def analyzeDockerCompose (toLower : String → String)
    (dbOrder svcOrder : String → List (String × String)) (probe : String → FileProbe)
    (unmarshalCompose : String → Option (List (String × String))) (componentPath : String)
    (deps : ExternalDependencies) : ExternalDependencies :=
  composeFilesLoop toLower dbOrder svcOrder probe unmarshalCompose componentPath
    ["docker-compose.yml", "docker-compose.yaml", "compose.yml", "compose.yaml"] deps

/-- The loop over the lines of an environment file in `analyzeEnvironmentFiles`. -/
def envLinesLoop (toLower : String → String)
    (envDbOrder envSvcOrder : String → List (String × String)) :
    List String → ExternalDependencies → ExternalDependencies
  | [], deps => deps
  | rawLine :: rest, deps =>
    let line := strings_TrimSpace rawLine
    if line = "" ∨ strings_HasPrefix line "#" = true then
      envLinesLoop toLower envDbOrder envSvcOrder rest deps
    else
      let afterDb :=
        if strings_Contains line "DATABASE_URL" || strings_Contains line "DB_" then
          extractDatabaseFromEnv toLower (envDbOrder line) line deps
        else deps
      let afterSvc :=
        if strings_Contains line "REDIS" || strings_Contains line "CACHE" then
          extractServiceFromEnv toLower (envSvcOrder line) line afterDb
        else afterDb
      envLinesLoop toLower envDbOrder envSvcOrder rest afterSvc

/-- The loop over `envFiles` in `analyzeEnvironmentFiles`. -/
def envFilesLoop (toLower : String → String)
    (envDbOrder envSvcOrder : String → List (String × String)) (probe : String → FileProbe)
    (componentPath : String) : List String → ExternalDependencies → ExternalDependencies
  | [], deps => deps
  | filename :: rest, deps =>
    match probe (filepath_Join componentPath filename) with
    | FileProbe.content content =>
      envFilesLoop toLower envDbOrder envSvcOrder probe componentPath rest
        (envLinesLoop toLower envDbOrder envSvcOrder (splitLines content) deps)
    | _ => envFilesLoop toLower envDbOrder envSvcOrder probe componentPath rest deps

/-- Go `analyzeEnvironmentFiles`: the record `deps` after the call; the error it returns
is always nil. -/
def analyzeEnvironmentFiles (toLower : String → String)
    (envDbOrder envSvcOrder : String → List (String × String)) (probe : String → FileProbe)
    (componentPath : String) (deps : ExternalDependencies) : ExternalDependencies :=
  envFilesLoop toLower envDbOrder envSvcOrder probe componentPath
    [".env", ".env.local", ".env.development", ".env.production"] deps

/-- Go `DetectExternalDependencies`. -/
def DetectExternalDependencies (toLower : String → String)
    (dbOrder svcOrder envDbOrder envSvcOrder : String → List (String × String))
    (probe : String → FileProbe)
    (unmarshalCompose : String → Option (List (String × String))) (componentPath : String) :
    Except String ExternalDependencies :=
  Except.ok
    (analyzeEnvironmentFiles toLower envDbOrder envSvcOrder probe componentPath
      (analyzeDockerCompose toLower dbOrder svcOrder probe unmarshalCompose componentPath
        { Databases := [], Services := [] }))

/-- One call on the record of external dependencies: a list without repeated name has
none afterwards, the entries that were there keep their positions, and at most one
name is appended. -/
def AppendsAtMostOne (before after : ExternalDependencies) : Prop :=
  (before.Databases.Nodup → after.Databases.Nodup) ∧
  (before.Services.Nodup → after.Services.Nodup) ∧
  before.Databases <+: after.Databases ∧
  before.Services <+: after.Services ∧
  after.Databases.length + after.Services.length
    ≤ before.Databases.length + before.Services.length + 1

/-- Both lists are free of repeated names. -/
def DuplicateFree (deps : ExternalDependencies) : Prop :=
  deps.Databases.Nodup ∧ deps.Services.Nodup

/-- A component directory with a compose file of three services and an environment
file. -/
def composeAndEnv (path : String) : FileProbe :=
  if path = "/repo/docker-compose.yml" then FileProbe.content "services: db, cache, db2"
  else if path = "/repo/.env" then
    FileProbe.content "# settings\nDATABASE_URL=postgres://db/app\nREDIS_URL=redis://cache\nDB_HOST=redis\n"
  else FileProbe.notExist

/-- The result of `yaml.Unmarshal` on the compose file of `composeAndEnv`. -/
def composeAndEnvYaml (content : String) : Option (List (String × String)) :=
  if content = "services: db, cache, db2" then
    some [("db", "postgres:15"), ("cache", "redis:7"), ("db2", "bitnami/postgresql:16"),
          ("build", "")]
  else none


/-- A component directory whose `requirements.txt` pins Django with `>=`. -/
def requirementsAtLeast (path : String) : FileProbe :=
  if path = "/repo/requirements.txt" then
    FileProbe.content "# web\n\ndjango>=4.0\n"
  else FileProbe.notExist

/-- A component directory whose `requirements.txt` pins Django with `==`. -/
def requirementsExactly (path : String) : FileProbe :=
  if path = "/repo/requirements.txt" then
    FileProbe.content "# web\n\ndjango==4.0\n"
  else FileProbe.notExist

/-- A component with the source file `bin/main.go`, below a directory that
`shouldSkipDir` rejects, and the source file `builder.go` at its root. -/
def binAndBuilder : FsNode :=
  FsNode.dir "repo" true [FsNode.dir "bin" true [FsNode.file "main.go"], FsNode.file "builder.go"]

/-- The contents of the files of `binAndBuilder`: twelve bytes and nine bytes. -/
def binAndBuilderContent (filePath : String) : Option String :=
  if filePath = "/repo/bin/main.go" then some "package main"
  else if filePath = "/repo/builder.go" then some "package b"
  else none

/-- A checkout with the single source file `main.go`. -/
def underBuilds : FsNode := FsNode.dir "repo" true [FsNode.file "main.go"]

/-- The contents of the checkout `underBuilds`, found at `/home/u/repo` and at
`/builds/42/repo`: twelve bytes. -/
def underBuildsContent (filePath : String) : Option String :=
  if filePath = "/home/u/repo/main.go" ∨ filePath = "/builds/42/repo/main.go" then
    some "package main"
  else none

/-- The substrings of the file path for which `shouldSkipFile` skips a file. -/
def skipPathParts : List String :=
  ["node_modules", ".git", "__pycache__", ".venv", "venv", "target", "build", "dist"]

/-- A checkout named `build` with marker files at the root and in a sub-project. -/
def checkoutNamedBuild : FsNode :=
  FsNode.dir "build" true
    [FsNode.file "package.json", FsNode.dir "api" true [FsNode.file "go.mod"]]


/-! ## Lemmas on the string primitives -/

theorem hasPrefixChars_iff (s pre : List Char) : hasPrefixChars s pre = true ↔ pre <+: s := by
  induction s generalizing pre with
  | nil =>
    cases pre with
    | nil => simp [hasPrefixChars]
    | cons p ps => simp [hasPrefixChars]
  | cons c cs ih =>
    cases pre with
    | nil => simp [hasPrefixChars]
    | cons p ps =>
      simp only [hasPrefixChars, Bool.and_eq_true, beq_iff_eq, ih, List.cons_prefix_cons]
      constructor
      · rintro ⟨h1, h2⟩
        exact ⟨h1.symm, h2⟩
      · rintro ⟨h1, h2⟩
        exact ⟨h1.symm, h2⟩

theorem containsChars_iff (s sub : List Char) : containsChars s sub = true ↔ sub <:+: s := by
  induction s with
  | nil =>
    simp only [containsChars, hasPrefixChars_iff, List.prefix_nil, List.infix_nil]
  | cons c cs ih =>
    simp only [containsChars, Bool.or_eq_true, hasPrefixChars_iff, ih, List.infix_cons_iff]

theorem strings_Contains_iff (s sub : String) :
    strings_Contains s sub = true ↔ sub.data <:+: s.data :=
  containsChars_iff s.data sub.data

theorem strings_HasSuffix_iff (s suf : String) :
    strings_HasSuffix s suf = true ↔ suf.data <:+ s.data := by
  unfold strings_HasSuffix
  rw [hasPrefixChars_iff, List.reverse_prefix]

theorem strings_HasPrefix_iff (s pre : String) :
    strings_HasPrefix s pre = true ↔ pre.data <+: s.data :=
  hasPrefixChars_iff s.data pre.data

theorem hasConfigFile_iff (configFiles : List String) (targetFile : String) :
    hasConfigFile configFiles targetFile = true ↔ targetFile ∈ configFiles := by
  induction configFiles with
  | nil => simp [hasConfigFile]
  | cons file rest ih =>
    unfold hasConfigFile
    by_cases h : file = targetFile
    · simp [h]
    · simp only [h, if_false, ih, List.mem_cons]
      constructor
      · exact fun hm => Or.inr hm
      · rintro (hm | hm)
        · exact absurd hm.symm h
        · exact hm

theorem any_contains_iff (lowered : String) (kws : List String) :
    kws.any (fun fw => strings_Contains lowered fw) = true
      ↔ ∃ kw ∈ kws, kw.data <:+: lowered.data := by
  simp only [List.any_eq_true, strings_Contains_iff]

/-! ## Component classifier -/

/-- C1: rule 1 of `inferComponentType`.  Whatever the primary language and the marker
files are, a framework name whose lower-cased form contains one of the web-UI keywords
gives `web-application`. -/
theorem inferComponentType_web_keyword (toLower : String → String)
    (primaryLang framework : String) (configFiles : List String) (kw : String)
    (hkw : kw ∈ ["react", "vue", "angular", "next.js", "nuxt"])
    (hsub : kw.data <:+: (toLower framework).data) :
    inferComponentType toLower primaryLang framework configFiles = "web-application" := by
  have hany : webFrameworks.any (fun fw => strings_Contains (toLower framework) fw) = true :=
    (any_contains_iff _ _).2 ⟨kw, hkw, hsub⟩
  simp only [inferComponentType, hany, if_true]

theorem inferComponentType_web_keyword_witness :
    "react".data <:+: (strings_ToLower_ascii "React Express").data ∧
    inferComponentType strings_ToLower_ascii "Go" "React Express" ["docker-compose.yml"]
      = "web-application" :=
  ⟨by decide,
   inferComponentType_web_keyword strings_ToLower_ascii "Go" "React Express"
     ["docker-compose.yml"] "react" (by decide) (by decide)⟩

theorem any_contains_false (lowered : String) (kws : List String)
    (h : ∀ kw ∈ kws, ¬ kw.data <:+: lowered.data) :
    kws.any (fun fw => strings_Contains lowered fw) = false := by
  rw [Bool.eq_false_iff]
  intro hany
  obtain ⟨kw, hkw, hsub⟩ := (any_contains_iff _ _).1 hany
  exact h kw hkw hsub

/-- The classifier once rules 1 to 3 are out of the way: no framework keyword and no
docker-compose marker. -/
theorem inferComponentType_fallback (toLower : String → String)
    (primaryLang framework : String) (configFiles : List String)
    (hweb : ∀ kw ∈ webFrameworks, ¬ kw.data <:+: (toLower framework).data)
    (hapi : ∀ kw ∈ apiFrameworks, ¬ kw.data <:+: (toLower framework).data)
    (hyml : "docker-compose.yml" ∉ configFiles)
    (hyaml : "docker-compose.yaml" ∉ configFiles) :
    inferComponentType toLower primaryLang framework configFiles =
      match languageSwitch (toLower primaryLang) configFiles with
      | some role => role
      | none => if primaryLang = "" then "configuration" else "library" := by
  have h1 := any_contains_false _ _ hweb
  have h2 := any_contains_false _ _ hapi
  have h3 : hasConfigFile configFiles "docker-compose.yml" = false := by
    rw [Bool.eq_false_iff, Ne, hasConfigFile_iff]; exact hyml
  have h4 : hasConfigFile configFiles "docker-compose.yaml" = false := by
    rw [Bool.eq_false_iff, Ne, hasConfigFile_iff]; exact hyaml
  simp only [inferComponentType, h1, h2, h3, h4, Bool.or_self, Bool.false_eq_true, if_false]

/-- C2: rule 2 of `inferComponentType`.  A framework name whose lower-cased form
contains no web-UI keyword but one of the server keywords gives `api-service`,
whatever the primary language and the marker files are. -/
theorem inferComponentType_server_keyword (toLower : String → String)
    (primaryLang framework : String) (configFiles : List String) (kw : String)
    (hweb : ∀ w ∈ ["react", "vue", "angular", "next.js", "nuxt"],
      ¬ w.data <:+: (toLower framework).data)
    (hkw : kw ∈ ["express", "fastify", "nest", "django", "fastapi", "flask", "spring",
      "springboot", "gin", "echo", "fiber"])
    (hsub : kw.data <:+: (toLower framework).data) :
    inferComponentType toLower primaryLang framework configFiles = "api-service" := by
  have h1 : webFrameworks.any (fun fw => strings_Contains (toLower framework) fw) = false :=
    any_contains_false _ _ hweb
  have h2 : apiFrameworks.any (fun fw => strings_Contains (toLower framework) fw) = true :=
    (any_contains_iff _ _).2 ⟨kw, hkw, hsub⟩
  simp only [inferComponentType, h1, h2, Bool.false_eq_true, if_false, if_true]

theorem inferComponentType_server_keyword_witness :
    (∀ w ∈ ["react", "vue", "angular", "next.js", "nuxt"],
      ¬ w.data <:+: (strings_ToLower_ascii "Gin").data) ∧
    "gin".data <:+: (strings_ToLower_ascii "Gin").data ∧
    inferComponentType strings_ToLower_ascii "Go" "Gin" ["go.mod", "docker-compose.yml"]
      = "api-service" :=
  ⟨by decide, by decide,
   inferComponentType_server_keyword strings_ToLower_ascii "Go" "Gin"
     ["go.mod", "docker-compose.yml"] "gin" (by decide) (by decide) (by decide)⟩

/-- C3: rule 3 of `inferComponentType`.  With a framework name that contains no web-UI
and no server keyword, a marker list holding `docker-compose.yml` or
`docker-compose.yaml` gives `service`, for every primary language and whatever other
markers the list holds. -/
theorem inferComponentType_compose_marker (toLower : String → String)
    (primaryLang framework : String) (configFiles : List String)
    (hweb : ∀ w ∈ ["react", "vue", "angular", "next.js", "nuxt"],
      ¬ w.data <:+: (toLower framework).data)
    (hapi : ∀ a ∈ ["express", "fastify", "nest", "django", "fastapi", "flask", "spring",
      "springboot", "gin", "echo", "fiber"], ¬ a.data <:+: (toLower framework).data)
    (hcompose : "docker-compose.yml" ∈ configFiles ∨ "docker-compose.yaml" ∈ configFiles) :
    inferComponentType toLower primaryLang framework configFiles = "service" := by
  have h1 : webFrameworks.any (fun fw => strings_Contains (toLower framework) fw) = false :=
    any_contains_false _ _ hweb
  have h2 : apiFrameworks.any (fun fw => strings_Contains (toLower framework) fw) = false :=
    any_contains_false _ _ hapi
  have h3 : (hasConfigFile configFiles "docker-compose.yml"
      || hasConfigFile configFiles "docker-compose.yaml") = true := by
    rw [Bool.or_eq_true, hasConfigFile_iff, hasConfigFile_iff]; exact hcompose
  simp only [inferComponentType, h1, h2, h3, Bool.false_eq_true, if_false, if_true]

theorem inferComponentType_compose_marker_witness :
    (∀ w ∈ ["react", "vue", "angular", "next.js", "nuxt"],
      ¬ w.data <:+: (strings_ToLower_ascii "").data) ∧
    (∀ a ∈ ["express", "fastify", "nest", "django", "fastapi", "flask", "spring",
      "springboot", "gin", "echo", "fiber"], ¬ a.data <:+: (strings_ToLower_ascii "").data) ∧
    inferComponentType strings_ToLower_ascii "Go" "" ["go.mod", "docker-compose.yaml"]
      = "service" :=
  ⟨by decide, by decide,
   inferComponentType_compose_marker strings_ToLower_ascii "Go" ""
     ["go.mod", "docker-compose.yaml"] (by decide) (by decide) (by decide)⟩

theorem any_hasSuffix_iff (configFiles : List String) (suf : String) :
    configFiles.any (fun file => strings_HasSuffix file suf) = true
      ↔ ∃ file ∈ configFiles, suf.data <:+ file.data := by
  simp only [List.any_eq_true, strings_HasSuffix_iff]

/-- C4: rule 4 of `inferComponentType`.  With no framework keyword and no
docker-compose marker the language fallback decides: the lower-cased primary language
selects the case and the manifest is looked up by exact name (by the suffix `.csproj`
for C#). -/
theorem inferComponentType_language_fallback (toLower : String → String)
    (primaryLang framework : String) (configFiles : List String)
    (hweb : ∀ w ∈ ["react", "vue", "angular", "next.js", "nuxt"],
      ¬ w.data <:+: (toLower framework).data)
    (hapi : ∀ a ∈ ["express", "fastify", "nest", "django", "fastapi", "flask", "spring",
      "springboot", "gin", "echo", "fiber"], ¬ a.data <:+: (toLower framework).data)
    (hyml : "docker-compose.yml" ∉ configFiles)
    (hyaml : "docker-compose.yaml" ∉ configFiles) :
    ((toLower primaryLang = "javascript" ∨ toLower primaryLang = "typescript") →
        "package.json" ∈ configFiles →
        inferComponentType toLower primaryLang framework configFiles = "web-application") ∧
    (toLower primaryLang = "python" →
        ("requirements.txt" ∈ configFiles ∨ "pyproject.toml" ∈ configFiles) →
        inferComponentType toLower primaryLang framework configFiles = "api-service") ∧
    (toLower primaryLang = "java" →
        ("pom.xml" ∈ configFiles ∨ "build.gradle" ∈ configFiles) →
        inferComponentType toLower primaryLang framework configFiles = "api-service") ∧
    (toLower primaryLang = "go" → "go.mod" ∈ configFiles →
        inferComponentType toLower primaryLang framework configFiles = "api-service") ∧
    (toLower primaryLang = "rust" → "Cargo.toml" ∈ configFiles →
        inferComponentType toLower primaryLang framework configFiles = "application") ∧
    (toLower primaryLang = "c#" → (∃ file ∈ configFiles, ".csproj".data <:+ file.data) →
        inferComponentType toLower primaryLang framework configFiles = "api-service") := by
  have hfb := inferComponentType_fallback toLower primaryLang framework configFiles
    hweb hapi hyml hyaml
  refine ⟨?_, ?_, ?_, ?_, ?_, ?_⟩
  · intro hl hm
    have hf := (hasConfigFile_iff configFiles "package.json").2 hm
    rw [hfb]
    simp only [languageSwitch, hl, hf, if_true]
  · intro hl hm
    have hf : (hasConfigFile configFiles "requirements.txt"
        || hasConfigFile configFiles "pyproject.toml") = true := by
      rw [Bool.or_eq_true, hasConfigFile_iff, hasConfigFile_iff]; exact hm
    rw [hfb, hl]
    simp [languageSwitch, hf]
  · intro hl hm
    have hf : (hasConfigFile configFiles "pom.xml"
        || hasConfigFile configFiles "build.gradle") = true := by
      rw [Bool.or_eq_true, hasConfigFile_iff, hasConfigFile_iff]; exact hm
    rw [hfb, hl]
    simp [languageSwitch, hf]
  · intro hl hm
    have hf := (hasConfigFile_iff configFiles "go.mod").2 hm
    rw [hfb, hl]
    simp [languageSwitch, hf]
  · intro hl hm
    have hf := (hasConfigFile_iff configFiles "Cargo.toml").2 hm
    rw [hfb, hl]
    simp [languageSwitch, hf]
  · intro hl hm
    have hf := (any_hasSuffix_iff configFiles ".csproj").2 hm
    rw [hfb, hl]
    simp only [languageSwitch, hf]
    simp

theorem inferComponentType_language_fallback_witness :
    inferComponentType strings_ToLower_ascii "TypeScript" "" ["package.json"]
        = "web-application" ∧
    inferComponentType strings_ToLower_ascii "PYTHON" "" ["pyproject.toml"] = "api-service" ∧
    inferComponentType strings_ToLower_ascii "C#" "" ["Web.csproj"] = "api-service" :=
  ⟨(inferComponentType_language_fallback strings_ToLower_ascii "TypeScript" ""
      ["package.json"] (by decide) (by decide) (by decide) (by decide)).1
      (by decide) (by decide),
   (inferComponentType_language_fallback strings_ToLower_ascii "PYTHON" ""
      ["pyproject.toml"] (by decide) (by decide) (by decide) (by decide)).2.1
      (by decide) (by decide),
   (inferComponentType_language_fallback strings_ToLower_ascii "C#" ""
      ["Web.csproj"] (by decide) (by decide) (by decide) (by decide)).2.2.2.2.2
      (by decide) ⟨"Web.csproj", by decide, by decide⟩⟩

theorem languageSwitch_range (langLower : String) (configFiles : List String) :
    languageSwitch langLower configFiles = none ∨
    languageSwitch langLower configFiles = some "web-application" ∨
    languageSwitch langLower configFiles = some "api-service" ∨
    languageSwitch langLower configFiles = some "application" := by
  unfold languageSwitch
  split_ifs <;>
    first
    | exact Or.inl rfl
    | exact Or.inr (Or.inl rfl)
    | exact Or.inr (Or.inr (Or.inl rfl))
    | exact Or.inr (Or.inr (Or.inr rfl))

/-- C5: rules 5 and 6 of `inferComponentType`.  When no framework keyword, no
docker-compose marker and no language/manifest pair of rule 4 applies, the result is
`configuration` for the empty primary language and `library` otherwise; and every
result of the classifier is one of the six roles. -/
theorem inferComponentType_default_and_range (toLower : String → String)
    (primaryLang framework : String) (configFiles : List String) :
    ((∀ w ∈ ["react", "vue", "angular", "next.js", "nuxt"],
        ¬ w.data <:+: (toLower framework).data) →
      (∀ a ∈ ["express", "fastify", "nest", "django", "fastapi", "flask", "spring",
        "springboot", "gin", "echo", "fiber"], ¬ a.data <:+: (toLower framework).data) →
      "docker-compose.yml" ∉ configFiles → "docker-compose.yaml" ∉ configFiles →
      ((toLower primaryLang = "javascript" ∨ toLower primaryLang = "typescript") →
        "package.json" ∉ configFiles) →
      (toLower primaryLang = "python" →
        "requirements.txt" ∉ configFiles ∧ "pyproject.toml" ∉ configFiles) →
      (toLower primaryLang = "java" →
        "pom.xml" ∉ configFiles ∧ "build.gradle" ∉ configFiles) →
      (toLower primaryLang = "go" → "go.mod" ∉ configFiles) →
      (toLower primaryLang = "rust" → "Cargo.toml" ∉ configFiles) →
      (toLower primaryLang = "c#" → ∀ file ∈ configFiles, ¬ ".csproj".data <:+ file.data) →
      inferComponentType toLower primaryLang framework configFiles
        = if primaryLang = "" then "configuration" else "library") ∧
    inferComponentType toLower primaryLang framework configFiles ∈
      ["web-application", "api-service", "service", "application", "configuration",
       "library"] := by
  constructor
  · intro hweb hapi hyml hyaml hjs hpy hjava hgo hrust hcs
    rw [inferComponentType_fallback toLower primaryLang framework configFiles
      hweb hapi hyml hyaml]
    have hnone : languageSwitch (toLower primaryLang) configFiles = none := by
      unfold languageSwitch
      split_ifs with h1 h2 h3 h4 h5 h6 h7 h8 h9 h10 h11 h12 <;> try rfl
      · exact absurd ((hasConfigFile_iff _ _).1 h2) (hjs h1)
      · rw [Bool.or_eq_true, hasConfigFile_iff, hasConfigFile_iff] at h4
        exact absurd h4 (by have := hpy h3; tauto)
      · rw [Bool.or_eq_true, hasConfigFile_iff, hasConfigFile_iff] at h6
        exact absurd h6 (by have := hjava h5; tauto)
      · exact absurd ((hasConfigFile_iff _ _).1 h8) (hgo h7)
      · exact absurd ((hasConfigFile_iff _ _).1 h10) (hrust h9)
      · obtain ⟨file, hfile, hsuf⟩ := (any_hasSuffix_iff _ _).1 h12
        exact absurd hsuf (hcs h11 file hfile)
    rw [hnone]
  · have hsw := languageSwitch_range (toLower primaryLang) configFiles
    unfold inferComponentType
    simp only []
    split_ifs
    · decide
    · decide
    · decide
    · rcases hsw with h | h | h | h <;> rw [h] <;> decide
    · rcases hsw with h | h | h | h <;> rw [h] <;> decide

theorem inferComponentType_default_and_range_witness :
    inferComponentType strings_ToLower_ascii "" "" ["config.yaml"] = "configuration" ∧
    inferComponentType strings_ToLower_ascii "Go" "" ["package.json"] = "library" :=
  ⟨(inferComponentType_default_and_range strings_ToLower_ascii "" "" ["config.yaml"]).1
      (by decide) (by decide) (by decide) (by decide) (by decide) (by decide) (by decide)
      (by decide) (by decide) (by decide),
   (inferComponentType_default_and_range strings_ToLower_ascii "Go" "" ["package.json"]).1
      (by decide) (by decide) (by decide) (by decide) (by decide) (by decide) (by decide)
      (by decide) (by decide) (by decide)⟩

/-! ## Exclusion filter -/

/-- C6: `shouldExcludeComponent` returns true exactly when some pattern of the list
glob-matches the relative path without error or occurs in it as a substring; a path
equal to a pattern is excluded, and the empty pattern list excludes nothing. -/
theorem shouldExcludeComponent_iff (fpMatch : String → String → Except Unit Bool)
    (relativePath : String) (excludePatterns : List String) :
    (shouldExcludeComponent fpMatch relativePath excludePatterns = true ↔
      ∃ pattern ∈ excludePatterns,
        fpMatch pattern relativePath = Except.ok true ∨
        pattern.data <:+: relativePath.data) ∧
    (relativePath ∈ excludePatterns →
      shouldExcludeComponent fpMatch relativePath excludePatterns = true) ∧
    shouldExcludeComponent fpMatch relativePath [] = false := by
  have hmatch : ∀ r : Except Unit Bool, matchedNoErr r = true ↔ r = Except.ok true := by
    intro r
    cases r with
    | error e => simp [matchedNoErr]
    | ok b => cases b <;> simp [matchedNoErr]
  have hiff : ∀ patterns : List String,
      (shouldExcludeComponent fpMatch relativePath patterns = true ↔
        ∃ pattern ∈ patterns,
          fpMatch pattern relativePath = Except.ok true ∨
          pattern.data <:+: relativePath.data) := by
    intro patterns
    induction patterns with
    | nil => simp [shouldExcludeComponent]
    | cons pattern rest ih =>
      unfold shouldExcludeComponent
      by_cases h1 : matchedNoErr (fpMatch pattern relativePath) = true
      · simp only [h1, if_true, true_iff]
        exact ⟨pattern, List.mem_cons_self _ _, Or.inl ((hmatch _).1 h1)⟩
      · by_cases h2 : strings_Contains relativePath pattern = true
        · simp only [h1, h2, Bool.false_eq_true, if_true, if_false, true_iff]
          exact ⟨pattern, List.mem_cons_self _ _, Or.inr ((strings_Contains_iff _ _).1 h2)⟩
        · simp only [h1, h2, if_false, ih, Bool.false_eq_true]
          constructor
          · rintro ⟨q, hq, hq2⟩
            exact ⟨q, List.mem_cons_of_mem _ hq, hq2⟩
          · rintro ⟨q, hq, hq2⟩
            rcases List.mem_cons.1 hq with rfl | hq
            · rcases hq2 with hq2 | hq2
              · exact absurd ((hmatch _).2 hq2) h1
              · exact absurd ((strings_Contains_iff _ _).2 hq2) h2
            · exact ⟨q, hq, hq2⟩
  refine ⟨hiff excludePatterns, ?_, rfl⟩
  intro hmem
  exact (hiff excludePatterns).2 ⟨relativePath, hmem, Or.inr List.infix_rfl⟩

theorem shouldExcludeComponent_iff_witness :
    shouldExcludeComponent filepath_Match "node_modules" ["*.txt", "node_modules"] = true :=
  (shouldExcludeComponent_iff filepath_Match "node_modules" ["*.txt", "node_modules"]).2.1
    (by decide)

/-! ## Structure discoverer -/

mutual
/-- A callback that never returns an error of its own makes `walk` return only `nil`
or `SkipDir`. -/
theorem walk_no_other {σ : Type} (walkFn : σ → WalkEntry → WalkError × σ)
    (hfn : ∀ st e msg, (walkFn st e).1 ≠ WalkError.other msg) :
    ∀ (n : FsNode) (rel : List String) (st : σ) (msg : String),
      (walk walkFn rel n st).1 ≠ WalkError.other msg
  | FsNode.file name, rel, st, msg => by
    simp only [walk]
    exact hfn _ _ _
  | FsNode.noStat name, rel, st, msg => by
    simp only [walk]
    exact hfn _ _ _
  | FsNode.dir name readable entries, rel, st, msg => by
    simp only [walk]
    split_ifs
    · exact hfn _ _ _
    · exact walkEntries_no_other walkFn hfn entries rel _ msg
theorem walkEntries_no_other {σ : Type} (walkFn : σ → WalkEntry → WalkError × σ)
    (hfn : ∀ st e msg, (walkFn st e).1 ≠ WalkError.other msg) :
    ∀ (entries : List FsNode) (rel : List String) (st : σ) (msg : String),
      (walkEntries walkFn rel entries st).1 ≠ WalkError.other msg
  | [], rel, st, msg => by
    simp [walkEntries]
  | FsNode.noStat name :: rest, rel, st, msg => by
    simp only [walkEntries]
    split_ifs
    · exact hfn _ _ _
    · exact walkEntries_no_other walkFn hfn rest rel _ msg
  | FsNode.file name :: rest, rel, st, msg => by
    simp only [walkEntries]
    split_ifs
    · exact walk_no_other walkFn hfn (FsNode.file name) _ _ msg
    · exact walkEntries_no_other walkFn hfn rest rel _ msg
  | FsNode.dir name readable entries :: rest, rel, st, msg => by
    simp only [walkEntries]
    split_ifs
    · exact walk_no_other walkFn hfn (FsNode.dir name readable entries) _ _ msg
    · exact walkEntries_no_other walkFn hfn rest rel _ msg
end

theorem discoverVisit_no_other (fpMatch : String → String → Except Unit Bool)
    (repoPath : String) (components : List (String × ComponentInfo)) (e : WalkEntry)
    (msg : String) : (discoverVisit fpMatch repoPath components e).1 ≠ WalkError.other msg := by
  unfold discoverVisit
  simp only []
  split_ifs <;> simp

/-- The walk of `DiscoverProjectStructure` ends without error on every file system. -/
theorem discover_walk_nil (fpMatch : String → String → Except Unit Bool)
    (repoPath : String) (root : FsNode) :
    (filepath_Walk (discoverVisit fpMatch repoPath) root []).1 = WalkError.nil := by
  have h := walk_no_other (discoverVisit fpMatch repoPath)
    (discoverVisit_no_other fpMatch repoPath) root [] []
  unfold filepath_Walk
  simp only []
  split_ifs with hs
  · rfl
  · cases hw : (walk (discoverVisit fpMatch repoPath) [] root []).1 with
    | nil => rfl
    | SkipDir => exact absurd hw hs
    | other msg => exact absurd hw (h msg)

/-- `DiscoverProjectStructure` returns a structure on every file system: the values of
the map built by the walk, classified by their number. -/
theorem DiscoverProjectStructure_eq (fpMatch : String → String → Except Unit Bool)
    (repoPath : String) (root : FsNode) :
    DiscoverProjectStructure fpMatch repoPath root =
      Except.ok
        { Type_ :=
            if ((filepath_Walk (discoverVisit fpMatch repoPath) root []).2.map Prod.snd).length
              > 1 then "monorepo" else "single",
          Components := (filepath_Walk (discoverVisit fpMatch repoPath) root []).2.map Prod.snd }
    := by
  unfold DiscoverProjectStructure
  simp only [discover_walk_nil]

/-- C7: `DiscoverProjectStructure` returns a structure whose classification is
`monorepo` exactly when it lists more than one candidate and `single` exactly when it
lists one or none; the root with `frontend/package.json` and `backend/go.mod` is a
`monorepo` with the two candidates `backend` and `frontend`. -/
theorem DiscoverProjectStructure_classification
    (fpMatch : String → String → Except Unit Bool) (repoPath : String) (root : FsNode) :
    (∃ ps, DiscoverProjectStructure fpMatch repoPath root = Except.ok ps ∧
      (ps.Type_ = "monorepo" ↔ 1 < ps.Components.length) ∧
      (ps.Type_ = "single" ↔ ps.Components.length ≤ 1)) ∧
    (∃ ps, DiscoverProjectStructure filepath_Match "/home/u/repo" twoProjects = Except.ok ps ∧
      ps.Type_ = "monorepo" ∧ ps.Components.length = 2 ∧
      ps.Components.map ComponentInfo.RelativePath = ["backend", "frontend"]) := by
  constructor
  · refine ⟨_, DiscoverProjectStructure_eq fpMatch repoPath root, ?_, ?_⟩
    · simp only []
      split_ifs with h
      · simp only [true_iff]; exact h
      · simp only [(by decide : ¬ ("single" = "monorepo")), false_iff]; exact h
    · simp only []
      split_ifs with h
      · simp only [(by decide : ¬ ("monorepo" = "single")), false_iff]; omega
      · simp only [true_iff]; omega
  · exact ⟨_, DiscoverProjectStructure_eq filepath_Match "/home/u/repo" twoProjects,
      by decide, by decide, by decide⟩

/-- C8 (failing input): the map of `DiscoverProjectStructure` is keyed by the component
name, the last segment of the relative path.  The marker-bearing directories `apps/api`
and `services/api` give one candidate, not two: it has the path of `apps/api` and also
carries the marker `go.mod` of `services/api`, and the repository is classified
`single`. -/
theorem DiscoverProjectStructure_same_base_name_merged :
    DiscoverProjectStructure filepath_Match "/home/u/repo" sameBaseName =
      Except.ok
        { Type_ := "single",
          Components :=
            [{ Name := "api", Path := "/home/u/repo/apps/api",
               ConfigFiles := ["package.json", "go.mod"], RelativePath := "apps/api" }] } := by
  decide

/-- C10 (failing input): a root that does not exist, or a root directory that cannot be
read, makes `DiscoverProjectStructure` return no error but the empty structure
classified `single`, and `AnalyzeRepository` succeeds with no component. -/
theorem DiscoverProjectStructure_unwalkable_root_no_error {γ : Type}
    (fpMatch : String → String → Except Unit Bool)
    (AnalyzeComponent : ComponentInfo → Except String γ) (repoPath name : String)
    (entries : List FsNode) (options : AnalysisOptions) :
    DiscoverProjectStructure fpMatch repoPath (FsNode.noStat name)
      = Except.ok { Type_ := "single", Components := [] } ∧
    DiscoverProjectStructure fpMatch repoPath (FsNode.dir name false entries)
      = Except.ok { Type_ := "single", Components := [] } ∧
    AnalyzeRepository fpMatch AnalyzeComponent repoPath (FsNode.noStat name) options
      = Except.ok
          { Repository := { Type_ := "single", Path := repoPath, Name := filepath_Base repoPath },
            Components := [] } ∧
    AnalyzeRepository fpMatch AnalyzeComponent repoPath (FsNode.dir name false entries) options
      = Except.ok
          { Repository := { Type_ := "single", Path := repoPath, Name := filepath_Base repoPath },
            Components := [] } := by
  have h1 : DiscoverProjectStructure fpMatch repoPath (FsNode.noStat name)
      = Except.ok { Type_ := "single", Components := [] } := by
    simp [DiscoverProjectStructure, filepath_Walk, walk, discoverVisit]
  have h2 : DiscoverProjectStructure fpMatch repoPath (FsNode.dir name false entries)
      = Except.ok { Type_ := "single", Components := [] } := by
    simp [DiscoverProjectStructure, filepath_Walk, walk, discoverVisit]
  refine ⟨h1, h2, ?_, ?_⟩
  · simp [AnalyzeRepository, h1]
  · simp [AnalyzeRepository, h2]

/-! ### Relative paths and their segments -/

theorem noSeparator_iff (name : String) : noSeparator name = true ↔ '/' ∉ name.data := by
  simp [noSeparator]

theorem splitSep_noSep (a : List Char) (ha : '/' ∉ a) : splitSep a = [a] := by
  induction a with
  | nil => rfl
  | cons c cs ih =>
    have hc : c ≠ '/' := fun h => ha (h ▸ List.mem_cons_self _ _)
    have hcs : '/' ∉ cs := fun h => ha (List.mem_cons_of_mem _ h)
    simp only [splitSep, hc, if_false, ih hcs]

theorem splitSep_append_sep (a rest : List Char) (ha : '/' ∉ a) :
    splitSep (a ++ '/' :: rest) = a :: splitSep rest := by
  induction a with
  | nil => simp [splitSep]
  | cons c cs ih =>
    have hc : c ≠ '/' := fun h => ha (h ▸ List.mem_cons_self _ _)
    have hcs : '/' ∉ cs := fun h => ha (List.mem_cons_of_mem _ h)
    show splitSep (c :: (cs ++ '/' :: rest)) = _
    simp only [splitSep, hc, if_false, ih hcs]

theorem splitSep_joinSep (parts : List String) (hne : parts ≠ [])
    (h : ∀ part ∈ parts, '/' ∉ part.data) :
    splitSep (joinSep parts) = parts.map String.data := by
  induction parts with
  | nil => exact absurd rfl hne
  | cons p rest ih =>
    cases rest with
    | nil => simp [joinSep, splitSep_noSep _ (h p (List.mem_cons_self _ _))]
    | cons q qs =>
      have hp := h p (List.mem_cons_self _ _)
      have hrest := ih (by simp) (fun x hx => h x (List.mem_cons_of_mem _ hx))
      simp only [joinSep, splitSep_append_sep _ _ hp, hrest, List.map_cons]

/-- Splitting the joined names of directories gives the names back. -/
theorem strings_Split_joinSep (parts : List String) (hne : parts ≠ [])
    (h : ∀ part ∈ parts, noSeparator part = true) :
    strings_Split ⟨joinSep parts⟩ = parts := by
  unfold strings_Split
  rw [splitSep_joinSep parts hne (fun part hpart => (noSeparator_iff part).1 (h part hpart))]
  rw [List.map_map]
  exact List.map_id _

theorem shouldSkipDir_eq_false_iff (dirName : String) :
    shouldSkipDir dirName = false ↔ dirName ∉ skipDirs ∧ ¬ ".".data <+: dirName.data := by
  unfold shouldSkipDir
  by_cases h : skipDirs.any (fun skip => decide (dirName = skip)) = true
  · have hmem : dirName ∈ skipDirs := by
      obtain ⟨x, hx, hxe⟩ := List.any_eq_true.1 h
      rw [of_decide_eq_true hxe]
      exact hx
    simp [h, hmem]
  · have hmem : dirName ∉ skipDirs := by
      intro hm
      exact h (List.any_eq_true.2 ⟨dirName, hm, decide_eq_true rfl⟩)
    rw [if_neg h]
    constructor
    · intro hp
      refine ⟨hmem, fun hpre => ?_⟩
      rw [(strings_HasPrefix_iff dirName ".").2 hpre] at hp
      exact Bool.noConfusion hp
    · rintro ⟨_, hpre⟩
      rw [Bool.eq_false_iff]
      exact fun hp => hpre ((strings_HasPrefix_iff dirName ".").1 hp)

/-- The relative path recorded for a file found at `prel ++ [name]`: the directories
`prel` leading to it. -/
theorem relOfDir_segments (prel : List String) (name : String)
    (hprel : ∀ s ∈ prel, noSeparator s = true ∧ shouldSkipDir s = false) :
    ∀ seg ∈ strings_Split
        (if relOfDir (prel ++ [name]) = "." then "" else relOfDir (prel ++ [name])),
      shouldSkipDir seg = false := by
  have hempty : ∀ seg ∈ strings_Split "", shouldSkipDir seg = false := by decide
  split_ifs with hdot
  · exact hempty
  · cases prel with
    | nil => exact absurd rfl hdot
    | cons p ps =>
      have hrel : relOfDir (p :: ps ++ [name]) = ⟨joinSep (p :: ps)⟩ := by
        cases ps with
        | nil => rfl
        | cons q qs =>
          show (⟨joinSep (p :: q :: (qs ++ [name])).dropLast⟩ : String) = _
          have hd : (p :: q :: (qs ++ [name])).dropLast = p :: q :: qs := by
            have := @List.dropLast_concat _ (p :: q :: qs) name
            simpa using this
          rw [hd]
      rw [hrel, strings_Split_joinSep _ (by simp) (fun s hs => (hprel s hs).1)]
      exact fun seg hseg => (hprel seg hseg).2

/-! ### Invariants of the walk -/

mutual
/-- An invariant `I` of the callback state is kept by `walk` below the root: the
callback is only called on entries whose ancestors `prel` it has entered (`D`, from
its own `nil` answer) and whose names are free of the separator. -/
theorem walk_inv {σ : Type} (walkFn : σ → WalkEntry → WalkError × σ) (I : σ → Prop)
    (D : String → Prop)
    (hstep : ∀ st prel name isDir failed, (∀ s ∈ prel, noSeparator s = true ∧ D s) → I st →
      I (walkFn st ⟨prel ++ [name], name, isDir, failed⟩).2)
    (hdesc : ∀ st rel name, (walkFn st ⟨rel, name, true, false⟩).1 = WalkError.nil → D name) :
    ∀ (n : FsNode) (prel : List String) (st : σ), namesOk n = true →
      (∀ s ∈ prel, noSeparator s = true ∧ D s) → I st →
      I (walk walkFn (prel ++ [n.name]) n st).2
  | FsNode.file name, prel, st, _, hprel, hst => by
    simp only [walk, FsNode.name]
    exact hstep st prel name false false hprel hst
  | FsNode.noStat name, prel, st, _, hprel, hst => by
    simp only [walk, FsNode.name]
    exact hstep st prel name false true hprel hst
  | FsNode.dir name readable entries, prel, st, hn, hprel, hst => by
    simp only [namesOk, Bool.and_eq_true] at hn
    simp only [walk, FsNode.name]
    split_ifs with h
    · exact hstep st prel name true (!readable) hprel hst
    · simp only [Bool.or_eq_true, Bool.not_eq_true', decide_eq_true_eq, not_or,
        Bool.not_eq_false, not_not] at h
      have hr : readable = true := h.1
      subst hr
      refine walkEntries_inv walkFn I D hstep hdesc entries (prel ++ [name]) _ hn.2 ?_
        (hstep st prel name true false hprel hst)
      intro s hs
      rcases List.mem_append.1 hs with hs | hs
      · exact hprel s hs
      · rw [List.mem_singleton.1 hs]
        exact ⟨hn.1, hdesc st (prel ++ [name]) name h.2⟩
/-- The invariant of `walk_inv` along the entries of a directory. -/
theorem walkEntries_inv {σ : Type} (walkFn : σ → WalkEntry → WalkError × σ) (I : σ → Prop)
    (D : String → Prop)
    (hstep : ∀ st prel name isDir failed, (∀ s ∈ prel, noSeparator s = true ∧ D s) → I st →
      I (walkFn st ⟨prel ++ [name], name, isDir, failed⟩).2)
    (hdesc : ∀ st rel name, (walkFn st ⟨rel, name, true, false⟩).1 = WalkError.nil → D name) :
    ∀ (entries : List FsNode) (prel : List String) (st : σ), namesOkList entries = true →
      (∀ s ∈ prel, noSeparator s = true ∧ D s) → I st →
      I (walkEntries walkFn prel entries st).2
  | [], prel, st, _, _, hst => by
    simp only [walkEntries]
    exact hst
  | FsNode.noStat name :: rest, prel, st, hn, hprel, hst => by
    simp only [namesOkList, Bool.and_eq_true] at hn
    have h1 := hstep st prel name false true hprel hst
    simp only [walkEntries]
    split_ifs
    · exact h1
    · exact walkEntries_inv walkFn I D hstep hdesc rest prel _ hn.2 hprel h1
  | FsNode.file name :: rest, prel, st, hn, hprel, hst => by
    simp only [namesOkList, Bool.and_eq_true] at hn
    have h1 := walk_inv walkFn I D hstep hdesc (FsNode.file name) prel st hn.1 hprel hst
    simp only [FsNode.name] at h1
    simp only [walkEntries]
    split_ifs
    · exact h1
    · exact walkEntries_inv walkFn I D hstep hdesc rest prel _ hn.2 hprel h1
  | FsNode.dir name readable entries :: rest, prel, st, hn, hprel, hst => by
    simp only [namesOkList, Bool.and_eq_true] at hn
    have h1 := walk_inv walkFn I D hstep hdesc (FsNode.dir name readable entries) prel st
      hn.1 hprel hst
    simp only [FsNode.name] at h1
    simp only [walkEntries]
    split_ifs
    · exact h1
    · exact walkEntries_inv walkFn I D hstep hdesc rest prel _ hn.2 hprel h1
end

mutual
/-- When the callback refuses every directory that `shouldSkipDir` rejects, `walk` does
not depend on what lies below such directories. -/
theorem walk_pruneSkipped {σ : Type} (walkFn : σ → WalkEntry → WalkError × σ)
    (hskip : ∀ st rel name, shouldSkipDir name = true →
      (walkFn st ⟨rel, name, true, false⟩).1 ≠ WalkError.nil) :
    ∀ (n : FsNode) (rel : List String) (st : σ),
      walk walkFn rel (pruneSkipped n) st = walk walkFn rel n st
  | FsNode.file name, rel, st => by simp only [pruneSkipped]
  | FsNode.noStat name, rel, st => by simp only [pruneSkipped]
  | FsNode.dir name readable entries, rel, st => by
    simp only [pruneSkipped]
    split_ifs with h
    · cases readable with
      | false => simp [walk]
      | true =>
        have hne := hskip st rel name h
        simp [walk, hne]
    · simp only [walk, walkEntries_pruneSkipped walkFn hskip entries]
/-- The independence of `walk_pruneSkipped` along the entries of a directory. -/
theorem walkEntries_pruneSkipped {σ : Type} (walkFn : σ → WalkEntry → WalkError × σ)
    (hskip : ∀ st rel name, shouldSkipDir name = true →
      (walkFn st ⟨rel, name, true, false⟩).1 ≠ WalkError.nil) :
    ∀ (entries : List FsNode) (rel : List String) (st : σ),
      walkEntries walkFn rel (pruneSkippedList entries) st = walkEntries walkFn rel entries st
  | [], rel, st => by simp only [pruneSkippedList]
  | FsNode.noStat name :: rest, rel, st => by
    simp only [pruneSkippedList, pruneSkipped, walkEntries,
      walkEntries_pruneSkipped walkFn hskip rest]
  | FsNode.file name :: rest, rel, st => by
    simp only [pruneSkippedList, pruneSkipped, walkEntries,
      walkEntries_pruneSkipped walkFn hskip rest]
  | FsNode.dir name readable entries :: rest, rel, st => by
    have hw := walk_pruneSkipped walkFn hskip (FsNode.dir name readable entries)
      (rel ++ [name]) st
    simp only [pruneSkipped] at hw
    simp only [pruneSkippedList, pruneSkipped]
    split_ifs with h
    · rw [if_pos h] at hw
      simp only [walkEntries, hw, walkEntries_pruneSkipped walkFn hskip rest]
    · rw [if_neg h] at hw
      simp only [walkEntries, hw, walkEntries_pruneSkipped walkFn hskip rest]
end

/-! ### The discoverer never enters a skipped directory -/

theorem recordMarker_relativePath (componentName fileName : String) (fresh : ComponentInfo)
    (components : List (String × ComponentInfo)) (kc : String × ComponentInfo)
    (h : kc ∈ recordMarker componentName fileName fresh components) :
    kc.2.RelativePath = fresh.RelativePath ∨
      ∃ old ∈ components, old.2.RelativePath = kc.2.RelativePath := by
  induction components with
  | nil =>
    simp only [recordMarker, List.mem_singleton] at h
    exact Or.inl (by rw [h])
  | cons head rest ih =>
    obtain ⟨key, comp⟩ := head
    unfold recordMarker at h
    split_ifs at h with hk
    · rcases List.mem_cons.1 h with h | h
      · exact Or.inr ⟨(key, comp), List.mem_cons_self _ _, by rw [h]⟩
      · exact Or.inr ⟨kc, List.mem_cons_of_mem _ h, rfl⟩
    · rcases List.mem_cons.1 h with h | h
      · exact Or.inr ⟨(key, comp), List.mem_cons_self _ _, by rw [h]⟩
      · rcases ih h with h | ⟨old, hold, hrel⟩
        · exact Or.inl h
        · exact Or.inr ⟨old, List.mem_cons_of_mem _ hold, hrel⟩

/-- The callback keeps the relative paths of the map free of skipped segments, as long
as the directories leading to the visited entry are not skipped. -/
theorem discoverVisit_segments (fpMatch : String → String → Except Unit Bool)
    (repoPath : String) (components : List (String × ComponentInfo))
    (prel : List String) (name : String) (isDir failed : Bool)
    (hprel : ∀ s ∈ prel, noSeparator s = true ∧ shouldSkipDir s = false)
    (hst : ∀ kc ∈ components, ∀ seg ∈ strings_Split kc.2.RelativePath,
      shouldSkipDir seg = false) :
    ∀ kc ∈ (discoverVisit fpMatch repoPath components ⟨prel ++ [name], name, isDir, failed⟩).2,
      ∀ seg ∈ strings_Split kc.2.RelativePath, shouldSkipDir seg = false := by
  unfold discoverVisit
  simp only []
  by_cases hf : failed = true
  · simp only [hf, if_true]
    exact hst
  · by_cases hd : isDir = true
    · simp only [hf, hd, if_true, if_false]
      split_ifs <;> exact hst
    · by_cases hm : isConfigFile fpMatch name = true
      · simp only [hf, hd, hm, if_true, if_false]
        intro kc hkc seg hseg
        rcases recordMarker_relativePath _ _ _ _ kc hkc with h | ⟨old, hold, h⟩
        · rw [h] at hseg
          exact relOfDir_segments prel name hprel seg hseg
        · rw [← h] at hseg
          exact hst old hold seg hseg
      · simp only [hf, hd, hm, if_false]
        exact hst

theorem discoverVisit_enters (fpMatch : String → String → Except Unit Bool)
    (repoPath : String) (components : List (String × ComponentInfo)) (rel : List String)
    (name : String)
    (h : (discoverVisit fpMatch repoPath components ⟨rel, name, true, false⟩).1
      = WalkError.nil) : shouldSkipDir name = false := by
  by_cases hs : shouldSkipDir name = true
  · simp [discoverVisit, hs] at h
  · simpa using hs

theorem discoverVisit_refuses (fpMatch : String → String → Except Unit Bool)
    (repoPath : String) (components : List (String × ComponentInfo)) (rel : List String)
    (name : String) (h : shouldSkipDir name = true) :
    (discoverVisit fpMatch repoPath components ⟨rel, name, true, false⟩).1
      ≠ WalkError.nil := by
  unfold discoverVisit
  simp [h]

/-- C9: on every directory tree `DiscoverProjectStructure` returns a structure in which
no candidate has a relative path with a segment that is on the skip-list or begins with
a dot, and the structure is the one obtained from the tree in which every skipped
directory is empty: what lies below a skipped directory gives no candidate and no
marker. -/
theorem DiscoverProjectStructure_never_enters_skipped
    (fpMatch : String → String → Except Unit Bool) (repoPath name : String)
    (readable : Bool) (entries : List FsNode) (hnames : namesOkList entries = true) :
    ∃ ps, DiscoverProjectStructure fpMatch repoPath (FsNode.dir name readable entries)
        = Except.ok ps ∧
      (∀ c ∈ ps.Components, ∀ seg ∈ strings_Split c.RelativePath,
        seg ∉ skipDirs ∧ ¬ ".".data <+: seg.data) ∧
      DiscoverProjectStructure fpMatch repoPath
        (pruneSkipped (FsNode.dir name readable entries)) = Except.ok ps := by
  refine ⟨_, DiscoverProjectStructure_eq fpMatch repoPath _, ?_, ?_⟩
  · have hinv : ∀ kc ∈ (filepath_Walk (discoverVisit fpMatch repoPath)
        (FsNode.dir name readable entries) []).2,
        ∀ seg ∈ strings_Split kc.2.RelativePath, shouldSkipDir seg = false := by
      have hroot : (discoverVisit fpMatch repoPath [] ⟨[], name, true, !readable⟩).2 = [] := by
        unfold discoverVisit
        simp only []
        split_ifs <;> rfl
      have hentries := walkEntries_inv (discoverVisit fpMatch repoPath)
        (fun st => ∀ kc ∈ st, ∀ seg ∈ strings_Split kc.2.RelativePath,
          shouldSkipDir seg = false)
        (fun s => shouldSkipDir s = false)
        (fun st prel nm isDir failed hprel hst =>
          discoverVisit_segments fpMatch repoPath st prel nm isDir failed hprel hst)
        (fun st rel nm h => discoverVisit_enters fpMatch repoPath st rel nm h)
        entries [] [] hnames (fun s hs => absurd hs (List.not_mem_nil s))
        (fun kc hkc => absurd hkc (List.not_mem_nil kc))
      unfold filepath_Walk
      simp only [walk]
      split_ifs
      · rw [hroot]; exact fun kc hkc => absurd hkc (List.not_mem_nil kc)
      · rw [hroot]; exact fun kc hkc => absurd hkc (List.not_mem_nil kc)
      · rw [hroot]; exact hentries
      · rw [hroot]; exact hentries
    intro c hc seg hseg
    simp only [List.mem_map] at hc
    obtain ⟨kc, hkc, rfl⟩ := hc
    exact (shouldSkipDir_eq_false_iff seg).1 (hinv kc hkc seg hseg)
  · rw [DiscoverProjectStructure_eq]
    have hw : filepath_Walk (discoverVisit fpMatch repoPath)
        (pruneSkipped (FsNode.dir name readable entries)) []
        = filepath_Walk (discoverVisit fpMatch repoPath)
            (FsNode.dir name readable entries) [] := by
      unfold filepath_Walk
      rw [walk_pruneSkipped (discoverVisit fpMatch repoPath)
        (fun st rel nm h => discoverVisit_refuses fpMatch repoPath st rel nm h)]
    rw [hw]

theorem DiscoverProjectStructure_never_enters_skipped_witness :
    namesOkList withSkippedDirs = true ∧
    ∃ ps, DiscoverProjectStructure filepath_Match "/home/u/repo"
        (FsNode.dir "repo" true withSkippedDirs) = Except.ok ps ∧
      (∀ c ∈ ps.Components, ∀ seg ∈ strings_Split c.RelativePath,
        seg ∉ skipDirs ∧ ¬ ".".data <+: seg.data) ∧
      DiscoverProjectStructure filepath_Match "/home/u/repo"
        (pruneSkipped (FsNode.dir "repo" true withSkippedDirs)) = Except.ok ps :=
  ⟨by decide,
   DiscoverProjectStructure_never_enters_skipped filepath_Match "/home/u/repo" "repo" true
     withSkippedDirs (by decide)⟩

/-- The structure found in `withSkippedDirs`: the root and `services/api`. -/
theorem DiscoverProjectStructure_withSkippedDirs :
    DiscoverProjectStructure filepath_Match "/home/u/repo"
        (FsNode.dir "repo" true withSkippedDirs) =
      Except.ok
        { Type_ := "monorepo",
          Components :=
            [{ Name := "repo", Path := "/home/u/repo", ConfigFiles := ["package.json"],
               RelativePath := "" },
             { Name := "api", Path := "/home/u/repo/services/api",
               ConfigFiles := ["go.mod", "docker-compose.yml"],
               RelativePath := "services/api" }] } := by
  decide

/-! ## The repository's tests, run on the embedding -/

/-- The cases of `TestInferComponentType` in `analyzer_test.go`. -/
theorem test_inferComponentType :
    inferComponentType strings_ToLower_ascii "JavaScript" "React" ["package.json"]
      = "web-application" ∧
    inferComponentType strings_ToLower_ascii "JavaScript" "Vue.js" ["package.json"]
      = "web-application" ∧
    inferComponentType strings_ToLower_ascii "JavaScript" "Express" ["package.json"]
      = "api-service" ∧
    inferComponentType strings_ToLower_ascii "Go" "Gin" ["go.mod"] = "api-service" ∧
    inferComponentType strings_ToLower_ascii "Python" "Django" ["requirements.txt"]
      = "api-service" ∧
    inferComponentType strings_ToLower_ascii "Rust" "" ["Cargo.toml"] = "application" ∧
    inferComponentType strings_ToLower_ascii "Go" "" ["docker-compose.yml"] = "service" ∧
    inferComponentType strings_ToLower_ascii "" "" ["config.yaml"] = "configuration" ∧
    inferComponentType strings_ToLower_ascii "JavaScript" "" ["package.json"]
      = "web-application" := by
  decide

/-- The cases of `TestHasConfigFile` in `analyzer_test.go`. -/
theorem test_hasConfigFile :
    hasConfigFile ["package.json", "go.mod", "docker-compose.yml"] "package.json" = true ∧
    hasConfigFile ["package.json", "go.mod", "docker-compose.yml"] "go.mod" = true ∧
    hasConfigFile ["package.json", "go.mod", "docker-compose.yml"] "requirements.txt" = false ∧
    hasConfigFile ["package.json", "go.mod", "docker-compose.yml"] "Package.json" = false := by
  decide

/-- The cases of `TestShouldExcludeComponent` in `analyzer_test.go`, with the port of
`filepath.Match`. -/
theorem test_shouldExcludeComponent :
    shouldExcludeComponent filepath_Match "node_modules" ["node_modules"] = true ∧
    shouldExcludeComponent filepath_Match "test.txt" ["*.txt"] = true ∧
    shouldExcludeComponent filepath_Match "src/node_modules/lib" ["node_modules"] = true ∧
    shouldExcludeComponent filepath_Match "src/main.go" ["*.txt", "node_modules"] = false ∧
    shouldExcludeComponent filepath_Match "src/main.go" [] = false := by
  decide

/-- The port of `filepath.Match` on patterns with stars, classes, escapes and errors. -/
theorem test_filepath_Match :
    filepath_Match "*.csproj" "App.csproj" = Except.ok true ∧
    filepath_Match "*.csproj" "a/App.csproj" = Except.ok false ∧
    filepath_Match "a*b*c" "axxbyyc" = Except.ok true ∧
    filepath_Match "a*b*c" "axxbyy" = Except.ok false ∧
    filepath_Match "[a-c]?\\*" "bx*" = Except.ok true ∧
    filepath_Match "[^a-c]" "b" = Except.ok false ∧
    filepath_Match "[a-c" "b" = Except.error () ∧
    filepath_Match "a[" "b" = Except.error () := by
  decide

/-- The path helpers on Clean absolute paths. -/
theorem test_filepath_helpers :
    filepath_Base "/home/u/repo" = "repo" ∧ filepath_Base "/" = "/" ∧
    filepath_Base "" = "." ∧ filepath_Dir "/home/u/repo" = "/home/u" ∧
    filepath_Dir "/repo" = "/" ∧ filepath_Join "/repo" "a" = "/repo/a" ∧
    filepath_Join "/" "a" = "/a" ∧ strings_Split "apps/api" = ["apps", "api"] ∧
    strings_Split "" = [""] ∧ getComponentName "/home/u/repo" "" = "repo" ∧
    getComponentName "/home/u/repo/apps/api" "apps/api" = "api" := by
  decide

/-! ## Go maps -/

theorem mapGet_mapSet {α : Type} (m : List (String × α)) (key : String) (value : α)
    (k : String) :
    mapGet (mapSet m key value) k = if k = key then some value else mapGet m k := by
  induction m with
  | nil =>
    by_cases h : k = key
    · simp [mapSet, mapGet, h]
    · have h2 : ¬ key = k := fun e => h e.symm
      simp [mapSet, mapGet, h, h2]
  | cons head rest ih =>
    obtain ⟨k0, v0⟩ := head
    unfold mapSet
    by_cases h0 : k0 = key
    · subst h0
      by_cases h : k = k0
      · subst h
        simp [mapGet]
      · have h2 : ¬ k0 = k := fun e => h e.symm
        simp [mapGet, h, h2]
    · by_cases h : k = key
      · subst h
        simp [mapGet, h0, ih]
      · by_cases h1 : k0 = k
        · simp [mapGet, h0, h, h1]
        · simp [mapGet, h0, h, h1, ih]

theorem mapGet_mapSet_same {α : Type} (m : List (String × α)) (key : String) (value : α) :
    mapGet (mapSet m key value) key = some value := by
  rw [mapGet_mapSet, if_pos rfl]

theorem mapGet_mapSet_other {α : Type} (m : List (String × α)) (key : String) (value : α)
    (k : String) (h : k ≠ key) : mapGet (mapSet m key value) k = mapGet m k := by
  rw [mapGet_mapSet, if_neg h]

/-! ## Language classifier -/

/-- C12 (counterexample): for the mapping with the single entry `Go` at 0 per cent,
`GetPrimaryLanguage` returns the empty string, not `Go`. -/
theorem GetPrimaryLanguage_single_zero_counterexample :
    GetPrimaryLanguage [("Go", 0)] = "" ∧ GetPrimaryLanguage [("Go", 0)] ≠ "Go" := by
  decide

/-- C12 (amended): `GetPrimaryLanguage` returns the empty string for the empty mapping;
for a mapping with exactly one entry it returns that entry's language when the
percentage is greater than 0, and the empty string when it is 0 or less. -/
theorem GetPrimaryLanguage_empty_and_single (lang : String) (percentage : ℚ) :
    GetPrimaryLanguage [] = "" ∧
    (0 < percentage → GetPrimaryLanguage [(lang, percentage)] = lang) ∧
    (percentage ≤ 0 → GetPrimaryLanguage [(lang, percentage)] = "") := by
  refine ⟨rfl, ?_, ?_⟩
  · intro h
    have hgt : percentage > 0 := h
    simp [GetPrimaryLanguage, primaryLoop, hgt]
  · intro h
    have hgt : ¬ percentage > 0 := not_lt.2 h
    simp [GetPrimaryLanguage, primaryLoop, hgt]

theorem GetPrimaryLanguage_empty_and_single_witness :
    (0 : ℚ) < 100 ∧ GetPrimaryLanguage [("Go", 100)] = "Go" :=
  ⟨by decide, (GetPrimaryLanguage_empty_and_single "Go" 100).2.1 (by decide)⟩


/-! ## Version extractor -/

/-- The `package.json` block of `extractNodeVersions` on the empty map copies the
entries `node` and `npm` of the parsed `engines`. -/
theorem nodeManifestBlock_parsed (probe : String → FileProbe)
    (unmarshalEngines : String → Option (List (String × String)))
    (componentPath data : String) (engines : List (String × String))
    (hmanifest : probe (filepath_Join componentPath "package.json") = FileProbe.content data)
    (hparse : unmarshalEngines data = some engines) :
    ∃ reqs, nodeManifestBlock probe unmarshalEngines componentPath [] = Except.ok reqs ∧
      mapGet reqs "npm" = mapGet engines "npm" ∧ mapGet reqs "node" = mapGet engines "node" := by
  unfold nodeManifestBlock
  simp only [hmanifest, hparse]
  cases hnpm : mapGet engines "npm" with
  | none =>
    cases hnode : mapGet engines "node" with
    | none => exact ⟨_, rfl, rfl, rfl⟩
    | some nodeVersion =>
      exact ⟨_, rfl, mapGet_mapSet_other _ _ _ _ (by decide), mapGet_mapSet_same _ _ _⟩
  | some npmVersion =>
    cases hnode : mapGet engines "node" with
    | none =>
      exact ⟨_, rfl, mapGet_mapSet_same _ _ _, mapGet_mapSet_other _ _ _ _ (by decide)⟩
    | some nodeVersion =>
      refine ⟨_, rfl, mapGet_mapSet_same _ _ _, ?_⟩
      rw [mapGet_mapSet_other _ _ _ _ (by decide)]
      exact mapGet_mapSet_same _ _ _

/-- C16: node version extraction is later-wins.  With a `package.json` that parses to
the mapping `engines`, a `.nvmrc` whose trimmed content `v` is not empty gives
`node = v` whatever `engines` declares; without such a `.nvmrc` (absent, unreadable or
blank) `node` is `engines.node` when declared and absent otherwise; in both cases `npm`
is `engines.npm` when declared and absent otherwise. -/
theorem extractNodeVersions_later_wins (probe : String → FileProbe)
    (unmarshalEngines : String → Option (List (String × String)))
    (componentPath data : String) (engines : List (String × String))
    (hmanifest : probe (filepath_Join componentPath "package.json") = FileProbe.content data)
    (hparse : unmarshalEngines data = some engines) :
    ∃ reqs, extractNodeVersions probe unmarshalEngines componentPath [] = Except.ok reqs ∧
      mapGet reqs "npm" = mapGet engines "npm" ∧
      (∀ content, probe (filepath_Join componentPath ".nvmrc") = FileProbe.content content →
        strings_TrimSpace content ≠ "" →
        mapGet reqs "node" = some (strings_TrimSpace content)) ∧
      ((∀ content, probe (filepath_Join componentPath ".nvmrc") = FileProbe.content content →
        strings_TrimSpace content = "") →
        mapGet reqs "node" = mapGet engines "node") := by
  obtain ⟨base, hbase, hnpm, hnode⟩ :=
    nodeManifestBlock_parsed probe unmarshalEngines componentPath data engines hmanifest hparse
  unfold extractNodeVersions
  rw [hbase]
  refine ⟨_, rfl, ?_, ?_, ?_⟩
  · unfold nvmrcBlock
    cases probe (filepath_Join componentPath ".nvmrc") with
    | content content =>
      simp only []
      split_ifs
      · rw [mapGet_mapSet_other _ _ _ _ (by decide)]
        exact hnpm
      · exact hnpm
    | notExist => exact hnpm
    | statError => exact hnpm
    | unreadable => exact hnpm
  · intro content hcontent hne
    unfold nvmrcBlock
    rw [hcontent]
    simp only [hne, ne_eq, not_false_eq_true, if_true]
    exact mapGet_mapSet_same _ _ _
  · intro hblank
    unfold nvmrcBlock
    cases hp : probe (filepath_Join componentPath ".nvmrc") with
    | content content =>
      simp only [hblank content hp, ne_eq, not_true, if_false]
      exact hnode
    | notExist => exact hnode
    | statError => exact hnode
    | unreadable => exact hnode

theorem extractNodeVersions_later_wins_witness :
    ∃ reqs, extractNodeVersions nodePinned nodePinnedEngines "/repo" [] = Except.ok reqs ∧
      mapGet reqs "npm" = some ">=8" ∧ mapGet reqs "node" = some "18.17.0" := by
  obtain ⟨reqs, h, hnpm, hnode, _⟩ :=
    extractNodeVersions_later_wins nodePinned nodePinnedEngines "/repo"
      "\x7b\"engines\": \x7b\"node\": \">=16\", \"npm\": \">=8\"\x7d\x7d"
      [("node", ">=16"), ("npm", ">=8")] (by decide) (by decide)
  exact ⟨reqs, h, hnpm, hnode "18.17.0\n" (by decide) (by decide)⟩

/-- C17 (counterexample): with a `pom.xml` declaring the compiler source 11 and a
`build.gradle` declaring the source compatibility 17, the resulting mapping has the
single entry `java = 17`; the value 11 of `pom.xml` is overwritten. -/
theorem extractJavaVersions_overwrites_counterexample :
    ∃ reqs, extractJavaVersions pomAndGradle pomAndGradleXml pomAndGradleRegexp "/repo" []
        = Except.ok reqs ∧
      reqs.length = 1 ∧ mapGet reqs "java" = some "17" ∧
      ∀ key, mapGet reqs key ≠ some "11" := by
  refine ⟨[("java", "17")], by decide, by decide, by decide, ?_⟩
  intro key
  by_cases h : "java" = key
  · simp [mapGet, h.symm]
  · simp [mapGet, h]

/-- C17 (amended): both build tools write the one key `java`.  When `pom.xml` parses
and `build.gradle` declares the source compatibility `g`, the resulting mapping is the
single entry `java = g`, whatever `pom.xml` declares (later wins); the compiler source
version of `pom.xml` (`maven.compiler.source`, else `java.version`) is the value of
`java` only when `build.gradle` declares no source compatibility. -/
theorem extractJavaVersions_single_key (probe : String → FileProbe)
    (unmarshalPom : String → Option PomProperties)
    (sourceCompatibility : String → Option String)
    (componentPath pomContent gradleContent : String) (properties : PomProperties)
    (hpom : probe (filepath_Join componentPath "pom.xml") = FileProbe.content pomContent)
    (hxml : unmarshalPom pomContent = some properties)
    (hgradle : probe (filepath_Join componentPath "build.gradle")
      = FileProbe.content gradleContent) :
    (∀ g, sourceCompatibility gradleContent = some g →
      extractJavaVersions probe unmarshalPom sourceCompatibility componentPath []
        = Except.ok [("java", g)]) ∧
    (sourceCompatibility gradleContent = none →
      extractJavaVersions probe unmarshalPom sourceCompatibility componentPath []
        = Except.ok
            (if properties.MavenCompilerSource ≠ "" then
              [("java", properties.MavenCompilerSource)]
            else if properties.JavaVersion ≠ "" then [("java", properties.JavaVersion)]
            else [])) := by
  constructor
  · intro g hg
    unfold extractJavaVersions pomBlock gradleBlock
    simp only [hpom, hxml, hgradle, hg]
    split_ifs <;> simp [mapSet]
  · intro hnone
    unfold extractJavaVersions pomBlock gradleBlock
    simp only [hpom, hxml, hgradle, hnone]
    split_ifs <;> simp [mapSet]

theorem extractJavaVersions_single_key_witness :
    extractJavaVersions pomAndGradle pomAndGradleXml pomAndGradleRegexp "/repo" []
      = Except.ok [("java", "17")] :=
  (extractJavaVersions_single_key pomAndGradle pomAndGradleXml pomAndGradleRegexp "/repo"
    "<project><properties><maven.compiler.source>11</maven.compiler.source></properties></project>"
    "sourceCompatibility = '17'"
    { MavenCompilerSource := "11", MavenCompilerTarget := "", JavaVersion := "" }
    (by decide) (by decide) (by decide)).1 "17" (by decide)


/-! ## External dependency detector -/

theorem contains_iff (slice : List String) (item : String) :
    contains slice item = true ↔ item ∈ slice := by
  induction slice with
  | nil => simp [contains]
  | cons s rest ih =>
    unfold contains
    by_cases h : s = item
    · simp [h]
    · have h2 : ¬ item = s := fun e => h e.symm
      simp [h, h2, ih]

theorem mem_appendIfMissing (slice : List String) (item : String) :
    item ∈ appendIfMissing slice item := by
  unfold appendIfMissing
  by_cases h : contains slice item = true
  · simp only [h, Bool.not_true, Bool.false_eq_true, if_false]
    exact (contains_iff slice item).1 h
  · simp [h]

theorem firstKeyword_some (lowered : String) (table : List (String × String)) (name : String)
    (h : firstKeyword lowered table = some name) :
    ∃ kv ∈ table, kv.1.data <:+: lowered.data ∧ kv.2 = name := by
  induction table with
  | nil => simp [firstKeyword] at h
  | cons head rest ih =>
    obtain ⟨key, nm⟩ := head
    unfold firstKeyword at h
    by_cases hc : strings_Contains lowered key = true
    · simp only [hc, if_true, Option.some.injEq] at h
      exact ⟨(key, nm), List.mem_cons_self _ _, (strings_Contains_iff _ _).1 hc, h⟩
    · simp only [hc, Bool.false_eq_true, if_false] at h
      obtain ⟨kv, hkv, hsub, hname⟩ := ih h
      exact ⟨kv, List.mem_cons_of_mem _ hkv, hsub, hname⟩

theorem firstKeyword_eq_none_iff (lowered : String) (table : List (String × String)) :
    firstKeyword lowered table = none ↔ ∀ kv ∈ table, ¬ kv.1.data <:+: lowered.data := by
  induction table with
  | nil => simp [firstKeyword]
  | cons head rest ih =>
    obtain ⟨key, nm⟩ := head
    unfold firstKeyword
    by_cases hc : strings_Contains lowered key = true
    · simp only [hc, if_true, List.mem_cons, forall_eq_or_imp]
      constructor
      · intro h
        exact Option.noConfusion h
      · intro h
        exact absurd ((strings_Contains_iff _ _).1 hc) h.1
    · simp only [hc, Bool.false_eq_true, if_false, ih, List.mem_cons, forall_eq_or_imp]
      constructor
      · exact fun h => ⟨fun hsub => hc ((strings_Contains_iff _ _).2 hsub), h⟩
      · exact fun h => h.2

/-- C19: the database table has priority in `categorizeService`.  For an image whose
lower-cased form contains a database keyword, the services list is unchanged and the
databases list holds the product name of a database keyword contained in the image,
whatever the order of iteration and whatever service keyword the image contains; from
empty lists the image `postgres:15` gives the databases `PostgreSQL` and no service. -/
theorem categorizeService_database_priority (toLower : String → String)
    (databases services : List (String × String)) (serviceName image : String)
    (deps : ExternalDependencies) (hdb : databases.Perm categorizeDatabases) :
    ((∃ kv ∈ categorizeDatabases, kv.1.data <:+: (toLower image).data) →
      (categorizeService toLower databases services serviceName image deps).Services
        = deps.Services ∧
      ∃ kv ∈ categorizeDatabases, kv.1.data <:+: (toLower image).data ∧
        kv.2 ∈ (categorizeService toLower databases services serviceName image deps).Databases) ∧
    categorizeService strings_ToLower_ascii databases services serviceName "postgres:15"
      { Databases := [], Services := [] } = { Databases := ["PostgreSQL"], Services := [] } := by
  have hgeneral : ∀ (lower : String → String) (img : String) (d : ExternalDependencies),
      (∃ kv ∈ categorizeDatabases, kv.1.data <:+: (lower img).data) →
      ∃ name, firstKeyword (lower img) databases = some name ∧
        categorizeService lower databases services serviceName img d
          = { d with Databases := appendIfMissing d.Databases name } ∧
        ∃ kv ∈ categorizeDatabases, kv.1.data <:+: (lower img).data ∧ kv.2 = name := by
    intro lower img d hkw
    cases hfirst : firstKeyword (lower img) databases with
    | none =>
      obtain ⟨kv, hkv, hsub⟩ := hkw
      exact absurd hsub
        ((firstKeyword_eq_none_iff _ _).1 hfirst kv (hdb.symm.subset hkv))
    | some name =>
      obtain ⟨kv, hkv, hsub, hname⟩ := firstKeyword_some _ _ _ hfirst
      refine ⟨name, rfl, ?_, kv, hdb.subset hkv, hsub, hname⟩
      simp only [categorizeService, hfirst]
  constructor
  · intro hkw
    obtain ⟨name, _, heq, kv, hkv, hsub, hname⟩ := hgeneral toLower image deps hkw
    rw [heq]
    refine ⟨rfl, kv, hkv, hsub, ?_⟩
    rw [hname]
    exact mem_appendIfMissing _ _
  · obtain ⟨name, _, heq, kv, hkv, hsub, hname⟩ :=
      hgeneral strings_ToLower_ascii "postgres:15" { Databases := [], Services := [] }
        ⟨("postgres", "PostgreSQL"), by decide, by decide⟩
    have honly : ∀ kv ∈ categorizeDatabases,
        kv.1.data <:+: (strings_ToLower_ascii "postgres:15").data → kv.2 = "PostgreSQL" := by
      decide
    rw [heq, ← hname, honly kv hkv hsub]
    rfl

theorem categorizeService_database_priority_witness :
    (∃ kv ∈ categorizeDatabases,
      kv.1.data <:+: (strings_ToLower_ascii "bitnami/Redis-Kafka:7").data) ∧
    (categorizeService strings_ToLower_ascii categorizeDatabases.reverse categorizeServices
        "cache" "bitnami/Redis-Kafka:7" { Databases := ["MySQL"], Services := [] }).Services
      = [] :=
  ⟨⟨("redis", "Redis"), by decide, by decide⟩,
   ((categorizeService_database_priority strings_ToLower_ascii categorizeDatabases.reverse
      categorizeServices "cache" "bitnami/Redis-Kafka:7" { Databases := ["MySQL"], Services := [] }
      (List.reverse_perm _)).1 ⟨("redis", "Redis"), by decide, by decide⟩).1⟩

/-- C20 (counterexample): the image `acme/scratchpad:1.0` matches no keyword of either
table, contains `/` and is not the image `scratch`, yet `categorizeService` leaves both
lists as they are: the image is dropped because its name contains `scratch`. -/
theorem categorizeService_scratch_substring_counterexample :
    (∀ kv ∈ categorizeDatabases ++ categorizeServices,
      ¬ kv.1.data <:+: (strings_ToLower_ascii "acme/scratchpad:1.0").data) ∧
    "/".data <:+: "acme/scratchpad:1.0".data ∧
    "acme/scratchpad:1.0" ≠ "scratch" ∧
    categorizeService strings_ToLower_ascii categorizeDatabases categorizeServices "tool"
      "acme/scratchpad:1.0" { Databases := [], Services := [] }
      = { Databases := [], Services := [] } := by
  decide

/-- C20 (amended): the fallback of `categorizeService`.  For an image whose lower-cased
form matches no keyword of either table, contains `/` and does not contain the
substring `scratch`, the services list holds the raw image after the call (appended
when it was not there) and the databases list is unchanged; an image that matches no
keyword and has no `/`, or contains `scratch`, changes neither list. -/
theorem categorizeService_fallback (toLower : String → String)
    (databases services : List (String × String)) (serviceName image : String)
    (deps : ExternalDependencies) (hdb : databases.Perm categorizeDatabases)
    (hsvc : services.Perm categorizeServices)
    (hno : ∀ kv ∈ categorizeDatabases ++ categorizeServices,
      ¬ kv.1.data <:+: (toLower image).data) :
    ("/".data <:+: (toLower image).data → ¬ "scratch".data <:+: (toLower image).data →
      image ∈ (categorizeService toLower databases services serviceName image deps).Services ∧
      (categorizeService toLower databases services serviceName image deps).Services
        = (if image ∈ deps.Services then deps.Services else deps.Services ++ [image]) ∧
      (categorizeService toLower databases services serviceName image deps).Databases
        = deps.Databases) ∧
    (¬ "/".data <:+: (toLower image).data →
      categorizeService toLower databases services serviceName image deps = deps) ∧
    ("scratch".data <:+: (toLower image).data →
      categorizeService toLower databases services serviceName image deps = deps) := by
  have h1 : firstKeyword (toLower image) databases = none :=
    (firstKeyword_eq_none_iff _ _).2
      (fun kv hkv => hno kv (List.mem_append_left _ (hdb.subset hkv)))
  have h2 : firstKeyword (toLower image) services = none :=
    (firstKeyword_eq_none_iff _ _).2
      (fun kv hkv => hno kv (List.mem_append_right _ (hsvc.subset hkv)))
  refine ⟨?_, ?_, ?_⟩
  · intro hslash hscratch
    have c1 : strings_Contains (toLower image) "/" = true := (strings_Contains_iff _ _).2 hslash
    have c2 : strings_Contains (toLower image) "scratch" = false := by
      rw [Bool.eq_false_iff]
      exact fun h => hscratch ((strings_Contains_iff _ _).1 h)
    have heq : categorizeService toLower databases services serviceName image deps
        = { deps with Services := appendIfMissing deps.Services image } := by
      simp [categorizeService, h1, h2, c1, c2]
    rw [heq]
    refine ⟨mem_appendIfMissing _ _, ?_, rfl⟩
    show appendIfMissing deps.Services image = _
    unfold appendIfMissing
    by_cases hm : image ∈ deps.Services
    · simp [hm, (contains_iff _ _).2 hm]
    · have hc : contains deps.Services image = false := by
        rw [Bool.eq_false_iff]
        exact fun h => hm ((contains_iff _ _).1 h)
      simp [hm, hc]
  · intro hslash
    have c1 : strings_Contains (toLower image) "/" = false := by
      rw [Bool.eq_false_iff]
      exact fun h => hslash ((strings_Contains_iff _ _).1 h)
    simp [categorizeService, h1, h2, c1]
  · intro hscratch
    have c2 : strings_Contains (toLower image) "scratch" = true :=
      (strings_Contains_iff _ _).2 hscratch
    simp [categorizeService, h1, h2, c2]

theorem categorizeService_fallback_witness :
    (categorizeService strings_ToLower_ascii categorizeDatabases categorizeServices "tool"
      "ghcr.io/Acme/Tool:1.0" { Databases := [], Services := ["Nginx"] }).Services
      = ["Nginx", "ghcr.io/Acme/Tool:1.0"] :=
  ((categorizeService_fallback strings_ToLower_ascii categorizeDatabases categorizeServices
      "tool" "ghcr.io/Acme/Tool:1.0" { Databases := [], Services := ["Nginx"] }
      (List.Perm.refl _) (List.Perm.refl _) (by decide)).1 (by decide) (by decide)).2.1


/-! ### The `go` directive -/

theorem trimSpaceChars_eq_nil_iff (s : List Char) :
    trimSpaceChars s = [] ↔ ∀ c ∈ s, unicode_IsSpace c = true := by
  unfold trimSpaceChars
  rw [List.reverse_eq_nil_iff, List.dropWhile_eq_nil_iff]
  constructor
  · intro h
    have hnil : s.dropWhile unicode_IsSpace = [] := by
      by_contra hne
      have hhead := List.head_dropWhile_not unicode_IsSpace s hne
      have hmem : (s.dropWhile unicode_IsSpace).head hne ∈ (s.dropWhile unicode_IsSpace).reverse :=
        List.mem_reverse.2 (List.head_mem hne)
      rw [h _ hmem] at hhead
      exact Bool.noConfusion hhead
    exact List.dropWhile_eq_nil_iff.1 hnil
  · intro h c hc
    have hnil : s.dropWhile unicode_IsSpace = [] := List.dropWhile_eq_nil_iff.2 h
    rw [hnil] at hc
    exact absurd hc (List.not_mem_nil c)

/-- A trimmed string does not end with a white space character. -/
theorem trimSpaceChars_getLast (s : List Char) (h : trimSpaceChars s ≠ []) :
    unicode_IsSpace ((trimSpaceChars s).getLast h) = false := by
  unfold trimSpaceChars at h ⊢
  have hne : (s.dropWhile unicode_IsSpace).reverse.dropWhile unicode_IsSpace ≠ [] := by
    intro hnil
    exact h (by rw [hnil]; rfl)
  rw [List.getLast_reverse]
  exact List.head_dropWhile_not unicode_IsSpace _ hne

/-- The remainder of a trimmed line that begins with `go ` is not blank. -/
theorem goDirective_remainder_nonempty (rawLine : String)
    (h : strings_HasPrefix (strings_TrimSpace rawLine) "go " = true) :
    strings_TrimSpace (strings_TrimPrefix (strings_TrimSpace rawLine) "go") ≠ "" := by
  have hpre : "go ".data <+: (trimSpaceChars rawLine.data) :=
    (strings_HasPrefix_iff (strings_TrimSpace rawLine) "go ").1 h
  obtain ⟨rest, hrest⟩ := hpre
  have hline : trimSpaceChars rawLine.data = 'g' :: 'o' :: ' ' :: rest := hrest.symm
  have hne : trimSpaceChars rawLine.data ≠ [] := by rw [hline]; exact List.cons_ne_nil _ _
  have hlast := trimSpaceChars_getLast rawLine.data hne
  have hgo : strings_HasPrefix (strings_TrimSpace rawLine) "go" = true := by
    rw [strings_HasPrefix_iff]
    refine ⟨' ' :: rest, ?_⟩
    show "go".data ++ ' ' :: rest = trimSpaceChars rawLine.data
    rw [hline]
    rfl
  have hrem : (strings_TrimPrefix (strings_TrimSpace rawLine) "go").data = ' ' :: rest := by
    unfold strings_TrimPrefix
    rw [if_pos hgo]
    show (trimSpaceChars rawLine.data).drop 2 = _
    rw [hline]
    rfl
  intro hempty
  have hnil : trimSpaceChars (strings_TrimPrefix (strings_TrimSpace rawLine) "go").data = [] := by
    have := congrArg String.data hempty
    exact this
  rw [hrem, trimSpaceChars_eq_nil_iff] at hnil
  have hmem : (trimSpaceChars rawLine.data).getLast hne ∈ ' ' :: rest := by
    have hl : (trimSpaceChars rawLine.data).getLast hne
        = ('g' :: 'o' :: ' ' :: rest).getLast (List.cons_ne_nil _ _) := by
      congr 1
    rw [hl, List.getLast_cons (List.cons_ne_nil _ _), List.getLast_cons (List.cons_ne_nil _ _)]
    exact List.getLast_mem _
  rw [hnil _ hmem] at hlast
  exact Bool.noConfusion hlast

theorem goDirectiveLoop_eq (lines : List String) (requirements : List (String × String)) :
    goDirectiveLoop lines requirements =
      match (lines.map strings_TrimSpace).find? (fun line => strings_HasPrefix line "go ") with
      | none => requirements
      | some line =>
        mapSet requirements "go" (strings_TrimSpace (strings_TrimPrefix line "go")) := by
  induction lines with
  | nil => rfl
  | cons rawLine rest ih =>
    unfold goDirectiveLoop
    by_cases h : strings_HasPrefix (strings_TrimSpace rawLine) "go " = true
    · have hne := goDirective_remainder_nonempty rawLine h
      simp only [h, if_true, List.map_cons, List.find?_cons_of_pos, hne, ne_eq,
        not_false_eq_true]
    · simp only [h, Bool.false_eq_true, if_false, List.map_cons, ih]
      rw [List.find?_cons_of_neg _ (by simpa using h)]

/-- C18: `extractGoVersions` on a readable `go.mod` looks at the first line that begins
with `go ` once trimmed and at no later one: the mapping gets `go` = the trimmed
remainder of that line after `go`, which is never empty; when no line begins with
`go ` the mapping is unchanged.  The content `go 1.21` gives `1.21`. -/
theorem extractGoVersions_first_directive (probe : String → FileProbe)
    (componentPath content : String) (requirements : List (String × String))
    (hmod : probe (filepath_Join componentPath "go.mod") = FileProbe.content content) :
    (((splitLines content).map strings_TrimSpace).find?
        (fun line => strings_HasPrefix line "go ") = none →
      extractGoVersions probe componentPath requirements = Except.ok requirements) ∧
    (∀ line, ((splitLines content).map strings_TrimSpace).find?
        (fun line => strings_HasPrefix line "go ") = some line →
      extractGoVersions probe componentPath requirements
        = Except.ok
            (mapSet requirements "go" (strings_TrimSpace (strings_TrimPrefix line "go"))) ∧
      strings_TrimPrefix line "go" = ⟨line.data.drop 2⟩ ∧
      strings_TrimSpace (strings_TrimPrefix line "go") ≠ "") ∧
    extractGoVersions (fun _ => FileProbe.content "module m\n\ngo 1.21\ngo 1.22\n") componentPath []
      = Except.ok [("go", "1.21")] := by
  have heq : extractGoVersions probe componentPath requirements
      = Except.ok (goDirectiveLoop (splitLines content) requirements) := by
    unfold extractGoVersions
    rw [hmod]
  refine ⟨?_, ?_, ?_⟩
  · intro hnone
    rw [heq, goDirectiveLoop_eq, hnone]
  · intro line hline
    have hfound := List.find?_some hline
    obtain ⟨rawLine, _, hraw⟩ := List.mem_map.1 (List.mem_of_find?_eq_some hline)
    subst hraw
    refine ⟨?_, ?_, goDirective_remainder_nonempty rawLine hfound⟩
    · rw [heq, goDirectiveLoop_eq, hline]
    · have hgo : strings_HasPrefix (strings_TrimSpace rawLine) "go" = true := by
        rw [strings_HasPrefix_iff]
        obtain ⟨rest, hrest⟩ := (strings_HasPrefix_iff _ _).1 hfound
        refine ⟨' ' :: rest, ?_⟩
        rw [← hrest]
        rfl
      unfold strings_TrimPrefix
      rw [if_pos hgo]
      rfl
  · unfold extractGoVersions
    simp only []
    decide

theorem extractGoVersions_first_directive_witness :
    extractGoVersions (fun _ => FileProbe.content "module m\n  go 1.21  \ngo 1.22\n") "/repo"
        [("node", "18")]
      = Except.ok [("node", "18"), ("go", "1.21")] :=
  ((extractGoVersions_first_directive (fun _ => FileProbe.content "module m\n  go 1.21  \ngo 1.22\n")
      "/repo" "module m\n  go 1.21  \ngo 1.22\n" [("node", "18")] rfl).2.1 "go 1.21"
      (by decide)).1


/-! ### Language percentages -/

/-- A callback that never returns an error of its own makes `filepath.Walk` return
`nil`. -/
theorem filepath_Walk_nil {σ : Type} (walkFn : σ → WalkEntry → WalkError × σ)
    (hfn : ∀ st e msg, (walkFn st e).1 ≠ WalkError.other msg) (root : FsNode) (st : σ) :
    (filepath_Walk walkFn root st).1 = WalkError.nil := by
  have h := walk_no_other walkFn hfn root [] st
  unfold filepath_Walk
  simp only []
  split_ifs with hs
  · rfl
  · cases hw : (walk walkFn [] root st).1 with
    | nil => rfl
    | SkipDir => exact absurd hw hs
    | other msg => exact absurd hw (h msg)

theorem languageVisit_no_other (toLower : String → String)
    (readFile : String → Option String) (getLanguage : String → String → String)
    (path : String) (languages : List (String × Nat)) (e : WalkEntry) (msg : String) :
    (languageVisit toLower readFile getLanguage path languages e).1 ≠ WalkError.other msg := by
  unfold languageVisit
  simp only []
  split_ifs
  · simp
  · simp
  · simp
  · cases readFile (walkPath path e.rel) with
    | none => simp
    | some content =>
      simp only []
      split_ifs <;> simp

theorem collectLanguages_noStat (toLower : String → String)
    (readFile : String → Option String) (getLanguage : String → String → String)
    (path name : String) :
    (collectLanguages toLower readFile getLanguage path (FsNode.noStat name)).2 = [] := by
  simp [collectLanguages, filepath_Walk, walk, languageVisit]

/-- `GetLanguageStats` returns a mapping on every file system: the percentages of the
byte totals collected by the walk. -/
theorem GetLanguageStats_eq (toLower : String → String)
    (readFile : String → Option String) (getLanguage : String → String → String)
    (path : String) (root : FsNode) :
    GetLanguageStats toLower readFile getLanguage path root =
      Except.ok (languagePercentages
        (collectLanguages toLower readFile getLanguage path root).2) := by
  have hnil : (collectLanguages toLower readFile getLanguage path root).1 = WalkError.nil :=
    filepath_Walk_nil _ (languageVisit_no_other toLower readFile getLanguage path) root []
  have hempty : languagePercentages [] = [] := rfl
  cases root with
  | noStat name =>
    simp only [GetLanguageStats, collectLanguages_noStat, hempty]
  | file name =>
    simp only [GetLanguageStats, hnil]
    split_ifs with h
    · rw [List.length_eq_zero.1 h, hempty]
    · rfl
  | dir name readable entries =>
    simp only [GetLanguageStats, hnil]
    split_ifs with h
    · rw [List.length_eq_zero.1 h, hempty]
    · rfl

theorem languagePercentages_of_pos (languages : List (String × Nat))
    (h : 0 < (languages.map Prod.snd).sum) :
    languagePercentages languages =
      languages.map (fun kv =>
        (kv.1, (kv.2 : ℚ) / (((languages.map Prod.snd).sum : Nat) : ℚ) * 100)) := by
  have hmap : ∀ (f : String × Nat → String × ℚ) (l : List (String × Nat)),
      l.filterMap (fun kv => some (f kv)) = l.map f := by
    intro f l
    induction l with
    | nil => rfl
    | cons head rest ih => simp only [List.filterMap_cons, List.map_cons, ih]
  unfold languagePercentages
  simp only [gt_iff_lt, h, if_true]
  exact hmap _ _

theorem languagePercentages_of_zero (languages : List (String × Nat))
    (h : (languages.map Prod.snd).sum = 0) : languagePercentages languages = [] := by
  unfold languagePercentages
  simp [h]

theorem sum_percentages (languages : List (String × Nat)) (total : ℚ) :
    ((languages.map (fun kv => (kv.1, (kv.2 : ℚ) / total * 100))).map Prod.snd).sum
      = (((languages.map Prod.snd).sum : Nat) : ℚ) / total * 100 := by
  induction languages with
  | nil => simp
  | cons head rest ih =>
    simp only [List.map_cons, List.sum_cons, Nat.cast_add] at ih ⊢
    rw [ih]
    ring

theorem sum_eq_zero_iff_all_zero (languages : List (String × Nat)) :
    (languages.map Prod.snd).sum = 0 ↔ ∀ kv ∈ languages, kv.2 = 0 := by
  induction languages with
  | nil => simp
  | cons head rest ih =>
    simp only [List.map_cons, List.sum_cons, Nat.add_eq_zero_iff, ih, List.mem_cons,
      forall_eq_or_imp]

/-- C11 (counterexample): a component whose only classified file is zero bytes long.
A file was classified to `Go`, yet the mapping of `GetLanguageStats` is empty, so it
does not sum to 100. -/
theorem GetLanguageStats_zero_bytes_counterexample :
    (collectLanguages strings_ToLower_ascii (fun _ => some "") languageOfExtension "/repo"
      emptySource).2 = [("Go", 0)] ∧
    GetLanguageStats strings_ToLower_ascii (fun _ => some "") languageOfExtension "/repo"
      emptySource = Except.ok [] := by
  decide

/-- C11 (amended): `GetLanguageStats` returns a mapping for every component.  When some
language has a positive byte total, the mapping has an entry for every language to
which a file was classified and its values sum to 100; the mapping is empty exactly
when the byte totals are all zero, that is when no file was classified or the
classified files are all zero bytes long. -/
theorem GetLanguageStats_percentages (toLower : String → String)
    (readFile : String → Option String) (getLanguage : String → String → String)
    (path : String) (root : FsNode) :
    ∃ stats, GetLanguageStats toLower readFile getLanguage path root = Except.ok stats ∧
      ((∃ kv ∈ (collectLanguages toLower readFile getLanguage path root).2, 0 < kv.2) →
        (stats.map Prod.snd).sum = 100 ∧
        stats.map Prod.fst
          = (collectLanguages toLower readFile getLanguage path root).2.map Prod.fst) ∧
      (stats = [] ↔
        ∀ kv ∈ (collectLanguages toLower readFile getLanguage path root).2, kv.2 = 0) := by
  refine ⟨_, GetLanguageStats_eq toLower readFile getLanguage path root, ?_, ?_⟩
  · rintro ⟨kv, hkv, hpos⟩
    have htotal : 0 < ((collectLanguages toLower readFile getLanguage path root).2.map
        Prod.snd).sum := by
      rcases Nat.eq_zero_or_pos ((collectLanguages toLower readFile getLanguage path root).2.map
        Prod.snd).sum with h0 | h0
      · have := (sum_eq_zero_iff_all_zero _).1 h0 kv hkv
        omega
      · exact h0
    rw [languagePercentages_of_pos _ htotal]
    constructor
    · rw [sum_percentages]
      have hne : ((((collectLanguages toLower readFile getLanguage path root).2.map
          Prod.snd).sum : Nat) : ℚ) ≠ 0 := by
        exact_mod_cast Nat.pos_iff_ne_zero.1 htotal
      rw [div_self hne, one_mul]
    · rw [List.map_map]
      rfl
  · constructor
    · intro hempty
      rcases Nat.eq_zero_or_pos ((collectLanguages toLower readFile getLanguage path root).2.map
        Prod.snd).sum with h0 | h0
      · exact (sum_eq_zero_iff_all_zero _).1 h0
      · rw [languagePercentages_of_pos _ h0] at hempty
        have hnil := List.map_eq_nil_iff.1 hempty
        intro kv hkv
        rw [hnil] at hkv
        exact absurd hkv (List.not_mem_nil kv)
    · intro hall
      exact languagePercentages_of_zero _ ((sum_eq_zero_iff_all_zero _).2 hall)

theorem GetLanguageStats_percentages_witness :
    ∃ stats, GetLanguageStats strings_ToLower_ascii goAndPythonContent languageOfExtension
        "/repo" goAndPython = Except.ok stats ∧
      (stats.map Prod.snd).sum = 100 ∧ stats.map Prod.fst = ["Go", "Python"] := by
  obtain ⟨stats, h, hsum, _⟩ :=
    GetLanguageStats_percentages strings_ToLower_ascii goAndPythonContent languageOfExtension
      "/repo" goAndPython
  have hpos := hsum ⟨("Go", 12), by decide, by decide⟩
  exact ⟨stats, h, hpos.1, hpos.2.trans (by decide)⟩


/-! ## Framework detector -/

theorem mem_keys_iff_mapGet {α : Type} (m : List (String × α)) (k : String) :
    k ∈ m.map Prod.fst ↔ mapGet m k ≠ none := by
  induction m with
  | nil => simp [mapGet]
  | cons head rest ih =>
    obtain ⟨k0, v0⟩ := head
    by_cases h : k0 = k
    · simp [mapGet, h]
    · have h2 : ¬ k = k0 := fun e => h e.symm
      simp only [List.map_cons, List.mem_cons, h2, false_or, ih, mapGet, h, if_false]

theorem mapGet_eq_some_iff_mem {α : Type} (m : List (String × α))
    (hnodup : (m.map Prod.fst).Nodup) (k : String) (v : α) :
    mapGet m k = some v ↔ (k, v) ∈ m := by
  induction m with
  | nil => simp [mapGet]
  | cons head rest ih =>
    obtain ⟨k0, v0⟩ := head
    simp only [List.map_cons, List.nodup_cons] at hnodup
    by_cases h : k0 = k
    · subst h
      have hnot : ∀ w, (k0, w) ∉ rest := fun w hw =>
        hnodup.1 (List.mem_map.2 ⟨(k0, w), hw, rfl⟩)
      simp only [mapGet, if_true, Option.some.injEq, List.mem_cons, Prod.mk.injEq, true_and]
      constructor
      · exact fun e => Or.inl e.symm
      · rintro (e | e)
        · exact e.symm
        · exact absurd e (hnot v)
    · have h2 : ¬ k = k0 := fun e => h e.symm
      simp only [mapGet, h, if_false, ih hnodup.2, List.mem_cons, Prod.mk.injEq, h2,
        false_and, false_or]

theorem scoreOf_mapSet_same (scores : List (String × Nat)) (k : String) (v : Nat) :
    scoreOf (mapSet scores k v) k = v := by
  unfold scoreOf
  rw [mapGet_mapSet_same]
  rfl

theorem presentCount_cons (deps : List (String × String)) (p : String) (rest : List String) :
    presentCount deps (p :: rest)
      = presentCount deps rest + (if hasKey deps p = true then 1 else 0) := by
  unfold presentCount
  rw [List.countP_cons]

/-- The inner loop adds the number of present signature strings to the score of its
framework and touches no other entry. -/
theorem mapGet_scorePatterns (deps : List (String × String)) (framework : String)
    (patterns : List String) (scores : List (String × Nat)) (k : String) :
    mapGet (scorePatterns deps framework patterns scores) k =
      if k = framework then
        (if 0 < presentCount deps patterns then
          some (scoreOf scores framework + presentCount deps patterns)
        else mapGet scores framework)
      else mapGet scores k := by
  induction patterns generalizing scores with
  | nil =>
    by_cases hk : k = framework
    · subst hk
      simp [scorePatterns, presentCount]
    · simp [scorePatterns, hk]
  | cons p rest ih =>
    unfold scorePatterns
    rw [presentCount_cons]
    by_cases hp : hasKey deps p = true
    · simp only [hp, if_true]
      rw [ih]
      by_cases hk : k = framework
      · subst hk
        simp only [if_true, scoreOf_mapSet_same, mapGet_mapSet_same]
        by_cases hc : 0 < presentCount deps rest
        · simp only [hc, if_true, Nat.lt_add_left_iff_pos, Nat.lt_add_one, or_true,
            Nat.add_pos_left]
          congr 1
          omega
        · have h0 : presentCount deps rest = 0 := by omega
          simp [h0]
      · simp only [hk, if_false]
        exact mapGet_mapSet_other _ _ _ _ hk
    · simp only [hp, Bool.false_eq_true, if_false, Nat.add_zero]
      exact ih scores

/-- The outer loop: the score of every framework of the table is the number of its
signature strings present, stored only when it is positive. -/
theorem mapGet_scoreFrameworks (deps : List (String × String))
    (table : List (String × List String)) (hnodup : (table.map Prod.fst).Nodup)
    (scores : List (String × Nat)) (k : String) :
    mapGet (scoreFrameworks deps table scores) k =
      match mapGet table k with
      | some patterns =>
        if 0 < presentCount deps patterns then
          some (scoreOf scores k + presentCount deps patterns)
        else mapGet scores k
      | none => mapGet scores k := by
  induction table generalizing scores with
  | nil => rfl
  | cons head rest ih =>
    obtain ⟨framework, patterns⟩ := head
    simp only [List.map_cons, List.nodup_cons] at hnodup
    unfold scoreFrameworks
    rw [ih hnodup.2]
    by_cases hk : framework = k
    · subst hk
      have hrest : mapGet rest framework = none := by
        by_contra hne
        exact hnodup.1 ((mem_keys_iff_mapGet rest framework).2 hne)
      simp only [hrest, mapGet, if_true]
      rw [mapGet_scorePatterns, if_pos rfl]
    · have hk2 : ¬ k = framework := fun e => hk e.symm
      have hget : mapGet (scorePatterns deps framework patterns scores) k = mapGet scores k := by
        rw [mapGet_scorePatterns, if_neg hk2]
      have hscore : scoreOf (scorePatterns deps framework patterns scores) k = scoreOf scores k := by
        unfold scoreOf
        rw [hget]
      simp only [mapGet, hk, if_false, hget, hscore]


theorem frameworkPatterns_nodup : (frameworkPatterns.map Prod.fst).Nodup := by decide

theorem frameworkPatterns_names_ne_empty : ∀ kv ∈ frameworkPatterns, kv.1 ≠ "" := by decide

/-- The map `scores` of a run: a framework of the table has an entry exactly when one
of its signature strings is present, and its score is their number. -/
theorem scores_of_run (patterns : List (String × List String))
    (deps : List (String × String)) (hperm : patterns.Perm frameworkPatterns) :
    (∀ kv ∈ frameworkPatterns,
      scoreOf (scoreFrameworks deps patterns []) kv.1 = presentCount deps kv.2) ∧
    (∀ k, k ∈ (scoreFrameworks deps patterns []).map Prod.fst ↔
      ∃ pats, (k, pats) ∈ frameworkPatterns ∧ 0 < presentCount deps pats) := by
  have hnodup : (patterns.map Prod.fst).Nodup :=
    (hperm.map Prod.fst).nodup_iff.2 frameworkPatterns_nodup
  have hget : ∀ k, mapGet (scoreFrameworks deps patterns []) k =
      match mapGet patterns k with
      | some pats => if 0 < presentCount deps pats then some (presentCount deps pats) else none
      | none => none := by
    intro k
    rw [mapGet_scoreFrameworks deps patterns hnodup [] k]
    cases mapGet patterns k with
    | none => rfl
    | some pats => simp [scoreOf, mapGet]
  constructor
  · intro kv hkv
    have hmem : (kv.1, kv.2) ∈ patterns := hperm.symm.subset hkv
    have hsome := (mapGet_eq_some_iff_mem patterns hnodup kv.1 kv.2).2 hmem
    unfold scoreOf
    rw [hget, hsome]
    by_cases hc : 0 < presentCount deps kv.2
    · simp [hc]
    · have h0 : presentCount deps kv.2 = 0 := by omega
      simp [h0]
  · intro k
    rw [mem_keys_iff_mapGet, hget]
    constructor
    · intro hne
      cases hp : mapGet patterns k with
      | none => simp [hp] at hne
      | some pats =>
        rw [hp] at hne
        by_cases hc : 0 < presentCount deps pats
        · exact ⟨pats, hperm.subset ((mapGet_eq_some_iff_mem patterns hnodup k pats).1 hp), hc⟩
        · simp [hc] at hne
    · rintro ⟨pats, hmem, hc⟩
      have hsome := (mapGet_eq_some_iff_mem patterns hnodup k pats).2 (hperm.symm.subset hmem)
      rw [hsome]
      simp [hc]

/-- What every faithful run returns: the empty string when no signature string is
present, and otherwise a framework of the table whose score is positive and maximal. -/
theorem detectFramework_cases
    (sortSlice : (String → String → Bool) → List String → List String)
    (rangeKeys : List String → List String) (patterns : List (String × List String))
    (deps : List (String × String)) (hrun : FaithfulRun sortSlice rangeKeys patterns deps) :
    ((∀ kv ∈ frameworkPatterns, presentCount deps kv.2 = 0) ∧
      detectFrameworkFromDependencies sortSlice rangeKeys patterns deps = "") ∨
    (∃ pats, (detectFrameworkFromDependencies sortSlice rangeKeys patterns deps, pats)
        ∈ frameworkPatterns ∧
      0 < presentCount deps pats ∧
      ∀ kv ∈ frameworkPatterns, presentCount deps kv.2 ≤ presentCount deps pats) := by
  obtain ⟨hperm, hrange, hsortPerm, hsorted⟩ := hrun
  obtain ⟨hscore, hkeys⟩ := scores_of_run patterns deps hperm
  unfold detectFrameworkFromDependencies
  simp only []
  by_cases hlen : (scoreFrameworks deps patterns []).length = 0
  · left
    rw [if_pos hlen]
    refine ⟨?_, rfl⟩
    intro kv hkv
    by_contra hne
    have hin : kv.1 ∈ (scoreFrameworks deps patterns []).map Prod.fst :=
      (hkeys kv.1).2 ⟨kv.2, hkv, Nat.pos_of_ne_zero hne⟩
    rw [List.length_eq_zero.1 hlen] at hin
    exact absurd hin (List.not_mem_nil _)
  · right
    rw [if_neg hlen]
    have hall := hsortPerm.trans hrange
    cases hs : sortSlice
        (fun a b => decide (scoreOf (scoreFrameworks deps patterns []) a
          > scoreOf (scoreFrameworks deps patterns []) b))
        (rangeKeys ((scoreFrameworks deps patterns []).map Prod.fst)) with
    | nil =>
      rw [hs] at hall
      have hnil := List.map_eq_nil_iff.1 hall.symm.eq_nil
      exact absurd (by rw [hnil]; rfl) hlen
    | cons r tail =>
      rw [hs] at hall hsorted
      have hr : r ∈ (scoreFrameworks deps patterns []).map Prod.fst :=
        hall.subset (List.mem_cons_self _ _)
      obtain ⟨pats, hmem, hpos⟩ := (hkeys r).1 hr
      refine ⟨pats, hmem, hpos, ?_⟩
      intro kv hkv
      by_cases hc : 0 < presentCount deps kv.2
      · have hin : kv.1 ∈ r :: tail := hall.symm.subset ((hkeys kv.1).2 ⟨kv.2, hkv, hc⟩)
        rw [← hscore kv hkv, ← hscore (r, pats) hmem]
        rcases List.mem_cons.1 hin with heq | htail
        · rw [heq]
        · have hle := (List.pairwise_cons.1 hsorted).1 kv.1 htail
          simpa using hle
      · omega

theorem presentCount_eq_zero_iff (deps : List (String × String)) (patterns : List String) :
    presentCount deps patterns = 0 ↔ ∀ p ∈ patterns, mapGet deps p = none := by
  unfold presentCount
  rw [List.countP_eq_zero]
  constructor
  · intro h p hp
    have := h p hp
    cases hg : mapGet deps p with
    | none => rfl
    | some v => simp [hasKey, hg] at this
  · intro h p hp
    simp [hasKey, h p hp]

/-- C13: for every declared-dependency set and every faithful run,
`detectFrameworkFromDependencies` returns the empty string exactly when no signature
string of the table is a key of the set, and otherwise a framework of the table whose
number of present signature strings is maximal over the table; the set declaring only
`react` gives `React`. -/
theorem detectFrameworkFromDependencies_maximal
    (sortSlice : (String → String → Bool) → List String → List String)
    (rangeKeys : List String → List String) (patterns : List (String × List String))
    (deps : List (String × String)) (hrun : FaithfulRun sortSlice rangeKeys patterns deps) :
    (detectFrameworkFromDependencies sortSlice rangeKeys patterns deps = "" ↔
      ∀ kv ∈ frameworkPatterns, ∀ p ∈ kv.2, mapGet deps p = none) ∧
    (detectFrameworkFromDependencies sortSlice rangeKeys patterns deps ≠ "" →
      ∃ pats, (detectFrameworkFromDependencies sortSlice rangeKeys patterns deps, pats)
          ∈ frameworkPatterns ∧
        ∀ kv ∈ frameworkPatterns, presentCount deps kv.2 ≤ presentCount deps pats) ∧
    detectFrameworkFromDependencies insertionSortLess id frameworkPatterns [("react", "^18.2.0")]
      = "React" := by
  refine ⟨?_, ?_, by decide⟩
  · constructor
    · intro hempty kv hkv
      rcases detectFramework_cases sortSlice rangeKeys patterns deps hrun with
        ⟨hzero, _⟩ | ⟨pats, hmem, _, _⟩
      · exact (presentCount_eq_zero_iff deps kv.2).1 (hzero kv hkv)
      · rw [hempty] at hmem
        exact absurd rfl (frameworkPatterns_names_ne_empty _ hmem)
    · intro hnone
      rcases detectFramework_cases sortSlice rangeKeys patterns deps hrun with
        ⟨_, hres⟩ | ⟨pats, hmem, hpos, _⟩
      · exact hres
      · have hzero := (presentCount_eq_zero_iff deps pats).2 (hnone _ hmem)
        omega
  · intro hne
    rcases detectFramework_cases sortSlice rangeKeys patterns deps hrun with
      ⟨_, hres⟩ | ⟨pats, hmem, _, hmax⟩
    · exact absurd hres hne
    · exact ⟨pats, hmem, hmax⟩

theorem detectFrameworkFromDependencies_maximal_witness :
    FaithfulRun insertionSortLess List.reverse frameworkPatterns
      [("vue", "^3"), ("react", "^18"), ("@vue/cli", "^5")] ∧
    ∃ pats, (detectFrameworkFromDependencies insertionSortLess List.reverse frameworkPatterns
        [("vue", "^3"), ("react", "^18"), ("@vue/cli", "^5")], pats) ∈ frameworkPatterns ∧
      ∀ kv ∈ frameworkPatterns,
        presentCount [("vue", "^3"), ("react", "^18"), ("@vue/cli", "^5")] kv.2
          ≤ presentCount [("vue", "^3"), ("react", "^18"), ("@vue/cli", "^5")] pats :=
  ⟨⟨List.Perm.refl _, by decide, by decide, by decide⟩,
   (detectFrameworkFromDependencies_maximal insertionSortLess List.reverse frameworkPatterns
      [("vue", "^3"), ("react", "^18"), ("@vue/cli", "^5")]
      ⟨List.Perm.refl _, by decide, by decide, by decide⟩).2.1 (by decide)⟩


/-- C14 (counterexample): with the dependency set declaring `react` and `vue`, both at
the score 1, the run that iterates the score map as `React, Vue` returns `React` and
the run that iterates it as `Vue, React` returns `Vue`. -/
theorem detectFrameworkFromDependencies_tie_counterexample :
    FaithfulRun insertionSortLess id frameworkPatterns [("react", "^18"), ("vue", "^3")] ∧
    FaithfulRun insertionSortLess List.reverse frameworkPatterns
      [("react", "^18"), ("vue", "^3")] ∧
    detectFrameworkFromDependencies insertionSortLess id frameworkPatterns
      [("react", "^18"), ("vue", "^3")] = "React" ∧
    detectFrameworkFromDependencies insertionSortLess List.reverse frameworkPatterns
      [("react", "^18"), ("vue", "^3")] = "Vue" :=
  ⟨⟨List.Perm.refl _, by decide, by decide, by decide⟩,
   ⟨List.Perm.refl _, by decide, by decide, by decide⟩, by decide, by decide⟩

/-- C14 (amended): when at most one framework reaches the top score, two faithful runs
of `detectFrameworkFromDependencies` on the same dependency set return the same
framework name, whatever the orders of iteration and the sort are.  (With several
frameworks at the top score the result is one of them and depends on the order.) -/
theorem detectFrameworkFromDependencies_same_without_tie
    (sortSlice₁ sortSlice₂ : (String → String → Bool) → List String → List String)
    (rangeKeys₁ rangeKeys₂ : List String → List String)
    (patterns₁ patterns₂ : List (String × List String)) (deps : List (String × String))
    (hrun₁ : FaithfulRun sortSlice₁ rangeKeys₁ patterns₁ deps)
    (hrun₂ : FaithfulRun sortSlice₂ rangeKeys₂ patterns₂ deps)
    (hunique : ∀ a ∈ frameworkPatterns, ∀ b ∈ frameworkPatterns,
      (∀ kv ∈ frameworkPatterns, presentCount deps kv.2 ≤ presentCount deps a.2) →
      (∀ kv ∈ frameworkPatterns, presentCount deps kv.2 ≤ presentCount deps b.2) →
      0 < presentCount deps a.2 → a.1 = b.1) :
    detectFrameworkFromDependencies sortSlice₁ rangeKeys₁ patterns₁ deps
      = detectFrameworkFromDependencies sortSlice₂ rangeKeys₂ patterns₂ deps := by
  rcases detectFramework_cases sortSlice₁ rangeKeys₁ patterns₁ deps hrun₁ with
    ⟨hzero₁, hres₁⟩ | ⟨pats₁, hmem₁, hpos₁, hmax₁⟩
  · rcases detectFramework_cases sortSlice₂ rangeKeys₂ patterns₂ deps hrun₂ with
      ⟨_, hres₂⟩ | ⟨pats₂, hmem₂, hpos₂, _⟩
    · rw [hres₁, hres₂]
    · have := hzero₁ _ hmem₂
      simp only [] at this
      omega
  · rcases detectFramework_cases sortSlice₂ rangeKeys₂ patterns₂ deps hrun₂ with
      ⟨hzero₂, _⟩ | ⟨pats₂, hmem₂, _, hmax₂⟩
    · have := hzero₂ _ hmem₁
      simp only [] at this
      omega
    · exact hunique _ hmem₁ _ hmem₂ hmax₁ hmax₂ hpos₁

theorem detectFrameworkFromDependencies_same_without_tie_witness :
    detectFrameworkFromDependencies insertionSortLess id frameworkPatterns
        [("vue", "^3"), ("react", "^18"), ("@vue/cli", "^5")]
      = detectFrameworkFromDependencies insertionSortLess List.reverse frameworkPatterns.reverse
        [("vue", "^3"), ("react", "^18"), ("@vue/cli", "^5")] :=
  detectFrameworkFromDependencies_same_without_tie insertionSortLess insertionSortLess
    id List.reverse frameworkPatterns frameworkPatterns.reverse
    [("vue", "^3"), ("react", "^18"), ("@vue/cli", "^5")]
    ⟨List.Perm.refl _, by decide, by decide, by decide⟩
    ⟨List.reverse_perm _, by decide, by decide, by decide⟩
    (by decide)


/-- C15 (counterexample): the component holds the source file `index.js` and a
`package.json` that is not valid JSON.  `GetLanguageStats` makes `JavaScript` the
primary language, `DetectFrameworks` returns the error of `json.Unmarshal`,
`AnalyzeComponent` fails with it, and `AnalyzeRepository` reports no component. -/
theorem DetectFrameworks_invalid_json_counterexample :
    brokenManifestStats "/repo"
      = Except.ok [("JavaScript", 1200 / 17), ("JSON", 500 / 17)] ∧
    GetPrimaryLanguage [("JavaScript", 1200 / 17), ("JSON", 500 / 17)] = "JavaScript" ∧
    DetectFrameworks strings_ToLower_ascii insertionSortLess id frameworkPatterns
      brokenManifest brokenManifestJson (fun _ => Except.ok []) "/repo" "JavaScript"
      = Except.error "unmarshal package.json" ∧
    analyzeBroken
        { Name := "repo", Path := "/repo", ConfigFiles := ["package.json"], RelativePath := "" }
      = Except.error "failed to detect framework: unmarshal package.json" ∧
    AnalyzeRepository filepath_Match analyzeBroken "/repo" brokenManifestRoot
        { Format := "yaml", Output := "", Verbose := false, Component := "", Exclude := [] }
      = Except.ok
          { Repository := { Type_ := "single", Path := "/repo", Name := "repo" },
            Components := [] } := by
  have hc : (collectLanguages strings_ToLower_ascii brokenManifestContent
      brokenManifestLanguage "/repo" brokenManifestRoot).2
      = [("JavaScript", 60), ("JSON", 25)] := by decide
  have hs : brokenManifestStats "/repo"
      = Except.ok [("JavaScript", 1200 / 17), ("JSON", 500 / 17)] := by
    unfold brokenManifestStats
    rw [if_pos rfl, GetLanguageStats_eq, hc]
    simp only [languagePercentages, List.map, List.sum_cons, List.sum_nil, List.filterMap]
    norm_num
  have hp : GetPrimaryLanguage [("JavaScript", (1200 / 17 : ℚ)), ("JSON", 500 / 17)]
      = "JavaScript" := by
    simp only [GetPrimaryLanguage, primaryLoop]
    norm_num
  have hd : DetectFrameworks strings_ToLower_ascii insertionSortLess id frameworkPatterns
      brokenManifest brokenManifestJson (fun _ => Except.ok []) "/repo" "JavaScript"
      = Except.error "unmarshal package.json" := by decide
  have ha : analyzeBroken
        { Name := "repo", Path := "/repo", ConfigFiles := ["package.json"], RelativePath := "" }
      = Except.error "failed to detect framework: unmarshal package.json" := by
    simp only [analyzeBroken, AnalyzeComponent, hs, hp, hd]
    rfl
  have hdisc : DiscoverProjectStructure filepath_Match "/repo" brokenManifestRoot
      = Except.ok
          { Type_ := "single",
            Components := [{ Name := "repo", Path := "/repo", ConfigFiles := ["package.json"],
                             RelativePath := "" }] } := by decide
  refine ⟨hs, hp, hd, ha, ?_⟩
  have hexcl : shouldExcludeComponent filepath_Match "" [] = false := by decide
  simp only [AnalyzeRepository, hdisc, List.filterMap, analyzeCandidate, ha, hexcl]
  decide

/-- C15 (amended): `DetectFrameworks` returns the empty framework name and no error
when the manifest of the ecosystem does not exist (for C#: when no `*.csproj` file is
found) and for a language without detector.  A manifest that is searched as text
(`requirements.txt`, `pom.xml`, `go.mod`, `Cargo.toml`, `Gemfile`) gives no error
whatever its content.  When the primary language is JavaScript or TypeScript and
`package.json` exists and is not valid JSON, or the primary language is PHP and
`composer.json` exists and is not valid JSON, it returns the error of `json.Unmarshal`;
`AnalyzeComponent` fails whenever `DetectFrameworks` does. -/
theorem DetectFrameworks_manifest_problems (toLower : String → String)
    (sortSlice : (String → String → Bool) → List String → List String)
    (rangeKeys : List String → List String) (patterns : List (String × List String))
    (probe : String → FileProbe)
    (unmarshal : String → String → String →
      Option (List (String × String) × List (String × String)))
    (glob : String → Except String (List String))
    (componentPath primaryLang : String) :
    (∀ manifest, ecosystemManifest (toLower primaryLang) = some manifest →
      probe (filepath_Join componentPath manifest) = FileProbe.notExist →
      DetectFrameworks toLower sortSlice rangeKeys patterns probe unmarshal glob
        componentPath primaryLang = Except.ok "") ∧
    (toLower primaryLang = "c#" → glob (filepath_Join componentPath "*.csproj") = Except.ok [] →
      DetectFrameworks toLower sortSlice rangeKeys patterns probe unmarshal glob
        componentPath primaryLang = Except.ok "") ∧
    (ecosystemManifest (toLower primaryLang) = none → toLower primaryLang ≠ "c#" →
      DetectFrameworks toLower sortSlice rangeKeys patterns probe unmarshal glob
        componentPath primaryLang = Except.ok "") ∧
    (∀ manifest data, ecosystemManifest (toLower primaryLang) = some manifest →
      manifest ≠ "package.json" → manifest ≠ "composer.json" →
      probe (filepath_Join componentPath manifest) = FileProbe.content data →
      ∃ framework, DetectFrameworks toLower sortSlice rangeKeys patterns probe unmarshal glob
        componentPath primaryLang = Except.ok framework) ∧
    (∀ data, (toLower primaryLang = "javascript" ∨ toLower primaryLang = "typescript") →
      probe (filepath_Join componentPath "package.json") = FileProbe.content data →
      unmarshal data "dependencies" "devDependencies" = none →
      DetectFrameworks toLower sortSlice rangeKeys patterns probe unmarshal glob
        componentPath primaryLang = Except.error "unmarshal package.json") ∧
    (∀ data, toLower primaryLang = "php" →
      probe (filepath_Join componentPath "composer.json") = FileProbe.content data →
      unmarshal data "require" "require-dev" = none →
      DetectFrameworks toLower sortSlice rangeKeys patterns probe unmarshal glob
        componentPath primaryLang = Except.error "unmarshal composer.json") ∧
    (∀ (getLanguageStats : String → Except String (List (String × ℚ)))
      (extractVersionRequirements : String → Except String (List (String × String)))
      (detectExternalDependencies : String → Except String ExternalDependencies)
      (detectDevelopmentTools : String → Except String (List String))
      (compInfo : ComponentInfo) (langStats : List (String × ℚ)) (err : String),
      getLanguageStats compInfo.Path = Except.ok langStats →
      DetectFrameworks toLower sortSlice rangeKeys patterns probe unmarshal glob
        compInfo.Path (GetPrimaryLanguage langStats) = Except.error err →
      AnalyzeComponent toLower getLanguageStats
        (DetectFrameworks toLower sortSlice rangeKeys patterns probe unmarshal glob)
        extractVersionRequirements detectExternalDependencies detectDevelopmentTools compInfo
        = Except.error ("failed to detect framework: " ++ err)) := by
  have htext : ∀ fileName data,
      probe (filepath_Join componentPath fileName) = FileProbe.content data →
      ∃ framework, detectInManifest patterns probe componentPath fileName
        = Except.ok framework := by
    intro fileName data hprobe
    cases hfound : detectInContent data patterns with
    | none => exact ⟨"", by simp only [detectInManifest, hprobe, hfound]⟩
    | some framework => exact ⟨framework, by simp only [detectInManifest, hprobe, hfound]⟩
  refine ⟨?_, ?_, ?_, ?_, ?_, ?_, ?_⟩
  · intro manifest hm hprobe
    unfold ecosystemManifest at hm
    split_ifs at hm with h1 h2 h3 h4 h5 h6 h7
    · injection hm with hm
      subst hm
      simp only [DetectFrameworks, h1, if_true, detectJSFramework, hprobe]
    · injection hm with hm
      subst hm
      simp [DetectFrameworks, h2, detectPythonFramework, hprobe]
    · injection hm with hm
      subst hm
      simp [DetectFrameworks, h3, detectJavaFramework, detectInManifest, hprobe]
    · injection hm with hm
      subst hm
      simp [DetectFrameworks, h4, detectGoFramework, detectInManifest, hprobe]
    · injection hm with hm
      subst hm
      simp [DetectFrameworks, h5, detectRustFramework, detectInManifest, hprobe]
    · injection hm with hm
      subst hm
      simp [DetectFrameworks, h6, detectPHPFramework, hprobe]
    · injection hm with hm
      subst hm
      simp [DetectFrameworks, h7, detectRubyFramework, detectInManifest, hprobe]
  · intro hl hglob
    simp [DetectFrameworks, hl, detectDotNetFramework, hglob, detectInMatches]
  · intro hm hc
    unfold ecosystemManifest at hm
    split_ifs at hm with h1 h2 h3 h4 h5 h6 h7
    simp only [DetectFrameworks, h1, h2, h3, h4, h5, h6, h7, hc, if_false]
  · intro manifest data hm hjs hphp hprobe
    unfold ecosystemManifest at hm
    split_ifs at hm with h1 h2 h3 h4 h5 h6 h7
    · injection hm with hm
      exact absurd hm.symm hjs
    · injection hm with hm
      subst hm
      exact ⟨detectFrameworkFromDependencies sortSlice rangeKeys patterns
        (requirementsDeps (splitLines data) []),
        by simp [DetectFrameworks, h2, detectPythonFramework, hprobe]⟩
    · injection hm with hm
      subst hm
      obtain ⟨framework, hf⟩ := htext "pom.xml" data hprobe
      exact ⟨framework, by simp [DetectFrameworks, h3, detectJavaFramework, hf]⟩
    · injection hm with hm
      subst hm
      obtain ⟨framework, hf⟩ := htext "go.mod" data hprobe
      exact ⟨framework, by simp [DetectFrameworks, h4, detectGoFramework, hf]⟩
    · injection hm with hm
      subst hm
      obtain ⟨framework, hf⟩ := htext "Cargo.toml" data hprobe
      exact ⟨framework, by simp [DetectFrameworks, h5, detectRustFramework, hf]⟩
    · injection hm with hm
      exact absurd hm.symm hphp
    · injection hm with hm
      subst hm
      obtain ⟨framework, hf⟩ := htext "Gemfile" data hprobe
      exact ⟨framework, by simp [DetectFrameworks, h7, detectRubyFramework, hf]⟩
  · intro data hl hprobe hparse
    simp only [DetectFrameworks, hl, if_true, detectJSFramework, hprobe, hparse]
  · intro data hl hprobe hparse
    simp [DetectFrameworks, hl, detectPHPFramework, hprobe, hparse]
  · intro getLanguageStats extractVersionRequirements detectExternalDependencies
      detectDevelopmentTools compInfo langStats err hstats hdetect
    unfold AnalyzeComponent
    simp only [hstats, hdetect]

theorem DetectFrameworks_manifest_problems_witness :
    DetectFrameworks strings_ToLower_ascii insertionSortLess id frameworkPatterns
      brokenManifest brokenManifestJson (fun _ => Except.ok []) "/repo" "Go" = Except.ok "" ∧
    (∃ framework,
      DetectFrameworks strings_ToLower_ascii insertionSortLess id frameworkPatterns
        requirementsAtLeast brokenManifestJson (fun _ => Except.ok []) "/repo" "Python"
        = Except.ok framework) ∧
    DetectFrameworks strings_ToLower_ascii insertionSortLess id frameworkPatterns
      brokenManifest brokenManifestJson (fun _ => Except.ok []) "/repo" "TypeScript"
      = Except.error "unmarshal package.json" :=
  ⟨(DetectFrameworks_manifest_problems strings_ToLower_ascii insertionSortLess id
      frameworkPatterns brokenManifest brokenManifestJson (fun _ => Except.ok [])
      "/repo" "Go").1 "go.mod" (by decide) (by decide),
   (DetectFrameworks_manifest_problems strings_ToLower_ascii insertionSortLess id
      frameworkPatterns requirementsAtLeast brokenManifestJson (fun _ => Except.ok [])
      "/repo" "Python").2.2.2.1 "requirements.txt" "# web\n\ndjango>=4.0\n" (by decide)
      (by decide) (by decide) (by decide),
   (DetectFrameworks_manifest_problems strings_ToLower_ascii insertionSortLess id
      frameworkPatterns brokenManifest brokenManifestJson (fun _ => Except.ok [])
      "/repo" "TypeScript").2.2.2.2.1 "\x7b\"dependencies\": \x7b\"react\"" (by decide)
      (by decide) (by decide)⟩


/-! ### Duplicate-free lists of external dependencies -/

theorem appendIfMissing_spec (slice : List String) (item : String) :
    (slice.Nodup → (appendIfMissing slice item).Nodup) ∧
    slice <+: appendIfMissing slice item ∧
    (appendIfMissing slice item).length ≤ slice.length + 1 := by
  unfold appendIfMissing
  by_cases h : contains slice item = true
  · simp only [h, Bool.not_true, Bool.false_eq_true, if_false]
    exact ⟨fun hn => hn, List.prefix_refl _, Nat.le_succ _⟩
  · have hmem : item ∉ slice := fun hm => h ((contains_iff slice item).2 hm)
    simp only [h, Bool.not_false, if_true]
    refine ⟨fun hn => ?_, List.prefix_append _ _, ?_⟩
    · rw [List.nodup_append]
      refine ⟨hn, List.nodup_singleton _, ?_⟩
      intro a ha hb
      rw [List.mem_singleton.1 hb] at ha
      exact hmem ha
    · simp

theorem appendsAtMostOne_refl (deps : ExternalDependencies) : AppendsAtMostOne deps deps :=
  ⟨fun h => h, fun h => h, List.prefix_refl _, List.prefix_refl _, Nat.le_succ _⟩

theorem appendsAtMostOne_database (deps : ExternalDependencies) (name : String) :
    AppendsAtMostOne deps { deps with Databases := appendIfMissing deps.Databases name } := by
  obtain ⟨hn, hp, hl⟩ := appendIfMissing_spec deps.Databases name
  refine ⟨hn, fun h => h, hp, List.prefix_refl _, ?_⟩
  show (appendIfMissing deps.Databases name).length + deps.Services.length ≤ _
  omega

theorem appendsAtMostOne_service (deps : ExternalDependencies) (name : String) :
    AppendsAtMostOne deps { deps with Services := appendIfMissing deps.Services name } := by
  obtain ⟨hn, hp, hl⟩ := appendIfMissing_spec deps.Services name
  refine ⟨fun h => h, hn, List.prefix_refl _, hp, ?_⟩
  show deps.Databases.length + (appendIfMissing deps.Services name).length ≤ _
  omega

theorem categorizeService_appends (toLower : String → String)
    (databases services : List (String × String)) (serviceName image : String)
    (deps : ExternalDependencies) :
    AppendsAtMostOne deps
      (categorizeService toLower databases services serviceName image deps) := by
  unfold categorizeService
  simp only []
  cases firstKeyword (toLower image) databases with
  | some dbName => exact appendsAtMostOne_database deps dbName
  | none =>
    cases firstKeyword (toLower image) services with
    | some name => exact appendsAtMostOne_service deps name
    | none =>
      simp only []
      split_ifs
      · exact appendsAtMostOne_refl deps
      · exact appendsAtMostOne_service deps image

theorem extractDatabaseFromEnv_appends (toLower : String → String)
    (databases : List (String × String)) (line : String) (deps : ExternalDependencies) :
    AppendsAtMostOne deps (extractDatabaseFromEnv toLower databases line deps) := by
  unfold extractDatabaseFromEnv
  cases firstKeyword (toLower line) databases with
  | some dbName => exact appendsAtMostOne_database deps dbName
  | none => exact appendsAtMostOne_refl deps

theorem extractServiceFromEnv_appends (toLower : String → String)
    (services : List (String × String)) (line : String) (deps : ExternalDependencies) :
    AppendsAtMostOne deps (extractServiceFromEnv toLower services line deps) := by
  unfold extractServiceFromEnv
  cases firstKeyword (toLower line) services with
  | some name => exact appendsAtMostOne_service deps name
  | none => exact appendsAtMostOne_refl deps

theorem duplicateFree_of_appends (before after : ExternalDependencies)
    (happ : AppendsAtMostOne before after) (h : DuplicateFree before) : DuplicateFree after :=
  ⟨happ.1 h.1, happ.2.1 h.2⟩

theorem categorizeAll_duplicateFree (toLower : String → String)
    (dbOrder svcOrder : String → List (String × String)) (services : List (String × String))
    (deps : ExternalDependencies) (h : DuplicateFree deps) :
    DuplicateFree (categorizeAll toLower dbOrder svcOrder services deps) := by
  induction services generalizing deps with
  | nil => exact h
  | cons head rest ih =>
    obtain ⟨serviceName, image⟩ := head
    unfold categorizeAll
    split_ifs
    · exact ih _ (duplicateFree_of_appends _ _ (categorizeService_appends _ _ _ _ _ _) h)
    · exact ih _ h

theorem composeFilesLoop_duplicateFree (toLower : String → String)
    (dbOrder svcOrder : String → List (String × String)) (probe : String → FileProbe)
    (unmarshalCompose : String → Option (List (String × String))) (componentPath : String)
    (files : List String) (deps : ExternalDependencies) (h : DuplicateFree deps) :
    DuplicateFree
      (composeFilesLoop toLower dbOrder svcOrder probe unmarshalCompose componentPath files
        deps) := by
  induction files generalizing deps with
  | nil => exact h
  | cons filename rest ih =>
    unfold composeFilesLoop
    cases probe (filepath_Join componentPath filename) with
    | content content =>
      simp only []
      cases unmarshalCompose content with
      | none => exact ih _ h
      | some services => exact ih _ (categorizeAll_duplicateFree _ _ _ _ _ h)
    | notExist => exact ih _ h
    | statError => exact ih _ h
    | unreadable => exact ih _ h

theorem duplicateFree_ite (c : Prop) [Decidable c] (a b : ExternalDependencies)
    (ha : DuplicateFree a) (hb : DuplicateFree b) : DuplicateFree (if c then a else b) := by
  split_ifs
  · exact ha
  · exact hb

theorem envLinesLoop_duplicateFree (toLower : String → String)
    (envDbOrder envSvcOrder : String → List (String × String)) (lines : List String)
    (deps : ExternalDependencies) (h : DuplicateFree deps) :
    DuplicateFree (envLinesLoop toLower envDbOrder envSvcOrder lines deps) := by
  induction lines generalizing deps with
  | nil => exact h
  | cons rawLine rest ih =>
    unfold envLinesLoop
    simp only []
    by_cases hskip : strings_TrimSpace rawLine = "" ∨
        strings_HasPrefix (strings_TrimSpace rawLine) "#" = true
    · rw [if_pos hskip]
      exact ih _ h
    · rw [if_neg hskip]
      apply ih
      have hdb : DuplicateFree
          (if (strings_Contains (strings_TrimSpace rawLine) "DATABASE_URL"
              || strings_Contains (strings_TrimSpace rawLine) "DB_") = true then
            extractDatabaseFromEnv toLower (envDbOrder (strings_TrimSpace rawLine))
              (strings_TrimSpace rawLine) deps
          else deps) :=
        duplicateFree_ite _ _ _
          (duplicateFree_of_appends _ _ (extractDatabaseFromEnv_appends _ _ _ _) h) h
      exact duplicateFree_ite _ _ _
        (duplicateFree_of_appends _ _ (extractServiceFromEnv_appends _ _ _ _) hdb) hdb

theorem envFilesLoop_duplicateFree (toLower : String → String)
    (envDbOrder envSvcOrder : String → List (String × String)) (probe : String → FileProbe)
    (componentPath : String) (files : List String) (deps : ExternalDependencies)
    (h : DuplicateFree deps) :
    DuplicateFree (envFilesLoop toLower envDbOrder envSvcOrder probe componentPath files deps) := by
  induction files generalizing deps with
  | nil => exact h
  | cons filename rest ih =>
    unfold envFilesLoop
    cases probe (filepath_Join componentPath filename) with
    | content content => exact ih _ (envLinesLoop_duplicateFree _ _ _ _ _ h)
    | notExist => exact ih _ h
    | statError => exact ih _ h
    | unreadable => exact ih _ h

/-- C21: duplicate-freeness is an invariant of the external dependencies.  Each call of
`categorizeService`, `extractDatabaseFromEnv` and `extractServiceFromEnv` keeps a list
without repeated name free of them, keeps the existing entries at their positions and
appends at most one name; the two lists that `DetectExternalDependencies` returns are
duplicate-free for every component directory and every order of iteration. -/
theorem externalDependencies_duplicate_free (toLower : String → String)
    (databases services : List (String × String)) (serviceName image line : String)
    (deps : ExternalDependencies)
    (dbOrder svcOrder envDbOrder envSvcOrder : String → List (String × String))
    (probe : String → FileProbe)
    (unmarshalCompose : String → Option (List (String × String))) (componentPath : String) :
    AppendsAtMostOne deps
      (categorizeService toLower databases services serviceName image deps) ∧
    AppendsAtMostOne deps (extractDatabaseFromEnv toLower databases line deps) ∧
    AppendsAtMostOne deps (extractServiceFromEnv toLower services line deps) ∧
    ∃ result, DetectExternalDependencies toLower dbOrder svcOrder envDbOrder envSvcOrder probe
        unmarshalCompose componentPath = Except.ok result ∧
      result.Databases.Nodup ∧ result.Services.Nodup := by
  refine ⟨categorizeService_appends _ _ _ _ _ _, extractDatabaseFromEnv_appends _ _ _ _,
    extractServiceFromEnv_appends _ _ _ _, _, rfl, ?_⟩
  have hstart : DuplicateFree { Databases := [], Services := [] } :=
    ⟨List.nodup_nil, List.nodup_nil⟩
  exact envFilesLoop_duplicateFree _ _ _ _ _ _ _
    (composeFilesLoop_duplicateFree _ _ _ _ _ _ _ _ hstart)

theorem externalDependencies_duplicate_free_witness :
    (categorizeService strings_ToLower_ascii categorizeDatabases categorizeServices "db"
        "postgres:15" { Databases := ["Redis", "PostgreSQL"], Services := ["Nginx"] }).Databases.Nodup ∧
    DetectExternalDependencies strings_ToLower_ascii (fun _ => categorizeDatabases)
        (fun _ => categorizeServices) (fun _ => envDatabases) (fun _ => envServices)
        composeAndEnv composeAndEnvYaml "/repo"
      = Except.ok { Databases := ["PostgreSQL", "Redis"], Services := ["Redis"] } :=
  ⟨(externalDependencies_duplicate_free strings_ToLower_ascii categorizeDatabases
      categorizeServices "db" "postgres:15" "" { Databases := ["Redis", "PostgreSQL"], Services := ["Nginx"] }
      (fun _ => categorizeDatabases) (fun _ => categorizeServices) (fun _ => envDatabases)
      (fun _ => envServices) composeAndEnv composeAndEnvYaml "/repo").1.1 (by decide),
   by decide⟩


/-! ### Python requirements -/

/-- C22 (failing input): `detectPythonFramework` cuts a line of `requirements.txt` at
`==` only.  The line `django>=4.0` puts the identifier `django>=4.0` into the
dependency set, so no framework is detected, whereas `django==4.0` puts `django` and
gives `Django`; blank lines and comment lines contribute nothing in both files. -/
theorem detectPythonFramework_other_delimiters :
    requirementsDeps (splitLines "# web\n\ndjango>=4.0\n") [] = [("django>=4.0", "")] ∧
    requirementsDeps (splitLines "# web\n\ndjango==4.0\n") [] = [("django", "")] ∧
    detectPythonFramework insertionSortLess id frameworkPatterns requirementsAtLeast "/repo"
      = Except.ok "" ∧
    detectPythonFramework insertionSortLess id frameworkPatterns requirementsExactly "/repo"
      = Except.ok "Django" := by
  decide

/-! ### Files skipped by the language classifier -/

theorem shouldSkipFile_location (toLower : String → String) (fileName filePath : String)
    (hdot : ¬ ".".data <+: fileName.data)
    (hext : toLower (filepath_Ext fileName) ∉ skipExtensions) :
    shouldSkipFile toLower fileName filePath = true ↔
      ∃ part ∈ skipPathParts, part.data <:+: filePath.data := by
  have h1 : strings_HasPrefix fileName "." = false := by
    rw [Bool.eq_false_iff]
    exact fun h => hdot ((strings_HasPrefix_iff _ _).1 h)
  have h2 : skipExtensions.any (fun skipExt => decide (toLower (filepath_Ext fileName) = skipExt))
      = false := by
    rw [Bool.eq_false_iff]
    intro hany
    obtain ⟨x, hx, hxe⟩ := List.any_eq_true.1 hany
    rw [of_decide_eq_true hxe] at hext
    exact hext hx
  unfold shouldSkipFile
  simp only [h1, h2, Bool.false_and, Bool.false_eq_true, if_false]
  simp only [skipPathParts, List.mem_cons, List.mem_singleton, List.not_mem_nil, or_false,
    exists_eq_or_imp, exists_eq_left, ← strings_Contains_iff]
  by_cases c1 : strings_Contains filePath "node_modules" = true <;>
  by_cases c2 : strings_Contains filePath ".git" = true <;>
  by_cases c3 : strings_Contains filePath "__pycache__" = true <;>
  by_cases c4 : strings_Contains filePath ".venv" = true <;>
  by_cases c5 : strings_Contains filePath "venv" = true <;>
  by_cases c6 : strings_Contains filePath "target" = true <;>
  by_cases c7 : strings_Contains filePath "build" = true <;>
  by_cases c8 : strings_Contains filePath "dist" = true <;>
  simp [c1, c2, c3, c4, c5, c6, c7, c8]


/-- C23 (failing input): the language statistics do not follow `shouldSkipDir`.  In the
component with `bin/main.go` and `builder.go`, the file `bin/main.go` lies below the
directory `bin`, which `shouldSkipDir` rejects, and its twelve bytes are the whole of
the statistics; the file `builder.go` lies at the component root, below no directory at
all, and its nine bytes are left out because its path contains `build`.  The same
checkout with the single file `main.go` has the statistics `Go` 100 when it is found at
`/home/u/repo` and empty statistics when it is found at `/builds/42/repo`. -/
theorem GetLanguageStats_location_by_substring :
    shouldSkipDir "bin" = true ∧
    shouldSkipFile strings_ToLower_ascii "main.go" "/repo/bin/main.go" = false ∧
    shouldSkipFile strings_ToLower_ascii "builder.go" "/repo/builder.go" = true ∧
    (collectLanguages strings_ToLower_ascii binAndBuilderContent languageOfExtension "/repo"
      binAndBuilder).2 = [("Go", 12)] ∧
    GetLanguageStats strings_ToLower_ascii binAndBuilderContent languageOfExtension "/repo"
      binAndBuilder = Except.ok [("Go", 100)] ∧
    GetLanguageStats strings_ToLower_ascii underBuildsContent languageOfExtension
      "/home/u/repo" underBuilds = Except.ok [("Go", 100)] ∧
    GetLanguageStats strings_ToLower_ascii underBuildsContent languageOfExtension
      "/builds/42/repo" underBuilds = Except.ok [] := by
  have hpercent : languagePercentages [("Go", 12)] = [("Go", 100)] := by
    simp only [languagePercentages, List.map, List.sum_cons, List.sum_nil, List.filterMap]
    norm_num
  have hbin : (collectLanguages strings_ToLower_ascii binAndBuilderContent languageOfExtension
      "/repo" binAndBuilder).2 = [("Go", 12)] := by decide
  have hhome : (collectLanguages strings_ToLower_ascii underBuildsContent languageOfExtension
      "/home/u/repo" underBuilds).2 = [("Go", 12)] := by decide
  refine ⟨by decide, by decide, by decide, hbin, ?_, ?_, by decide⟩
  · rw [GetLanguageStats_eq, hbin, hpercent]
  · rw [GetLanguageStats_eq, hhome, hpercent]

/-! ### The empty exclude pattern and a skipped root -/

theorem shouldExcludeComponent_of_contains (fpMatch : String → String → Except Unit Bool)
    (relativePath : String) (patterns : List String)
    (h : ∃ pattern ∈ patterns, strings_Contains relativePath pattern = true) :
    shouldExcludeComponent fpMatch relativePath patterns = true := by
  induction patterns with
  | nil =>
    obtain ⟨pattern, hmem, _⟩ := h
    exact absurd hmem (List.not_mem_nil _)
  | cons head rest ih =>
    unfold shouldExcludeComponent
    by_cases h1 : matchedNoErr (fpMatch head relativePath) = true
    · simp [h1]
    · by_cases h2 : strings_Contains relativePath head = true
      · simp [h2]
      · simp only [h1, h2, Bool.false_eq_true, if_false]
        obtain ⟨pattern, hmem, hc⟩ := h
        rcases List.mem_cons.1 hmem with heq | hrest
        · rw [heq] at hc
          exact absurd hc h2
        · exact ih ⟨pattern, hrest, hc⟩

theorem strings_Contains_empty (s : String) : strings_Contains s "" = true :=
  (strings_Contains_iff s "").2 ⟨[], s.data, rfl⟩

/-- C24: an exclude list that contains the empty string excludes every relative path,
the empty path of a root component included, so `AnalyzeRepository` returns a result
without any component, whatever the discovery found. -/
theorem shouldExcludeComponent_empty_pattern {γ : Type}
    (fpMatch : String → String → Except Unit Bool)
    (AnalyzeComponent : ComponentInfo → Except String γ)
    (relativePath : String) (excludePatterns : List String) (repoPath : String)
    (root : FsNode) (options : AnalysisOptions) :
    ("" ∈ excludePatterns →
      shouldExcludeComponent fpMatch relativePath excludePatterns = true) ∧
    ("" ∈ options.Exclude →
      ∃ ps, DiscoverProjectStructure fpMatch repoPath root = Except.ok ps ∧
        AnalyzeRepository fpMatch AnalyzeComponent repoPath root options
          = Except.ok
              { Repository :=
                  { Type_ := ps.Type_, Path := repoPath, Name := filepath_Base repoPath },
                Components := [] }) := by
  constructor
  · intro hmem
    exact shouldExcludeComponent_of_contains fpMatch relativePath excludePatterns
      ⟨"", hmem, strings_Contains_empty relativePath⟩
  · intro hmem
    refine ⟨_, DiscoverProjectStructure_eq fpMatch repoPath root, ?_⟩
    unfold AnalyzeRepository
    rw [DiscoverProjectStructure_eq fpMatch repoPath root]
    simp only []
    have hnone : ∀ compInfo : ComponentInfo,
        analyzeCandidate fpMatch AnalyzeComponent options compInfo = none := by
      intro compInfo
      unfold analyzeCandidate
      have hex := shouldExcludeComponent_of_contains fpMatch compInfo.RelativePath
        options.Exclude ⟨"", hmem, strings_Contains_empty _⟩
      split_ifs
      · rfl
      · rfl
    have hfilter : ∀ l : List ComponentInfo,
        l.filterMap (analyzeCandidate fpMatch AnalyzeComponent options) = [] := by
      intro l
      induction l with
      | nil => rfl
      | cons head rest ih => simp only [List.filterMap_cons, hnone head, ih]
    rw [hfilter]

theorem shouldExcludeComponent_empty_pattern_witness :
    shouldExcludeComponent filepath_Match "" ["*.txt", ""] = true ∧
    ∃ ps, DiscoverProjectStructure filepath_Match "/home/u/repo" twoProjects = Except.ok ps ∧
      AnalyzeRepository filepath_Match (fun compInfo => Except.ok compInfo.Name) "/home/u/repo"
          twoProjects
          { Format := "yaml", Output := "", Verbose := false, Component := "",
            Exclude := ["*.txt", ""] }
        = Except.ok
            { Repository := { Type_ := ps.Type_, Path := "/home/u/repo",
                              Name := filepath_Base "/home/u/repo" },
              Components := [] } :=
  ⟨(shouldExcludeComponent_empty_pattern filepath_Match
      (fun compInfo => (Except.ok compInfo.Name : Except String String)) "" ["*.txt", ""]
      "/home/u/repo" twoProjects
      { Format := "yaml", Output := "", Verbose := false, Component := "",
        Exclude := ["*.txt", ""] }).1 (by decide),
   (shouldExcludeComponent_empty_pattern filepath_Match
      (fun compInfo => (Except.ok compInfo.Name : Except String String)) "" ["*.txt", ""]
      "/home/u/repo" twoProjects
      { Format := "yaml", Output := "", Verbose := false, Component := "",
        Exclude := ["*.txt", ""] }).2 (by decide)⟩

/-- C25: the skip rule applies to the root directory itself.  When the base name of the
root is on the skip-list or begins with a dot, `DiscoverProjectStructure` returns no
error, no candidate and the classification `single`, whatever the root contains. -/
theorem DiscoverProjectStructure_skipped_root (fpMatch : String → String → Except Unit Bool)
    (repoPath name : String) (readable : Bool) (entries : List FsNode)
    (hname : name ∈ skipDirs ∨ ".".data <+: name.data) :
    DiscoverProjectStructure fpMatch repoPath (FsNode.dir name readable entries)
      = Except.ok { Type_ := "single", Components := [] } := by
  have hskip : shouldSkipDir name = true := by
    by_contra hne
    have hfalse : shouldSkipDir name = false := by simpa using hne
    obtain ⟨h1, h2⟩ := (shouldSkipDir_eq_false_iff name).1 hfalse
    rcases hname with h | h
    · exact h1 h
    · exact h2 h
  cases readable with
  | false => simp [DiscoverProjectStructure, filepath_Walk, walk, discoverVisit]
  | true => simp [DiscoverProjectStructure, filepath_Walk, walk, discoverVisit, hskip]

theorem DiscoverProjectStructure_skipped_root_witness :
    ("build" ∈ skipDirs ∨ ".".data <+: "build".data) ∧
    DiscoverProjectStructure filepath_Match "/home/u/build" checkoutNamedBuild
      = Except.ok { Type_ := "single", Components := [] } :=
  ⟨by decide,
   DiscoverProjectStructure_skipped_root filepath_Match "/home/u/build" "build" true
     [FsNode.file "package.json", FsNode.dir "api" true [FsNode.file "go.mod"]]
     (by decide)⟩


end Replyzer
